import Mathlib

/-!
GOTO programs: instruction model, successor function, numbering passes, deep copy, loop
extraction, and the rendering of counterexample traces.  A shallow embedding of
`goto-programs/goto_program.cpp`, `goto-programs/goto_loops.cpp` and
`goto-symex/goto_trace.cpp`.

How the C++ objects are represented:

* A `goto_programt` owns a `std::list<instructiont>`.  An iterator into that list
  (`targett`, `const_targett`) is a stable reference to one list node.  None of the
  functions embedded here inserts in front of an existing node or erases a single node,
  so while they run a node is identified by the program object that owns it together
  with its position in the sequence.  `targett` is that pair; the position equal to the
  length of the list is `end()`.
* A program object is identified by an `objectt`: either a free-standing object
  (a function body, the source or the destination of a copy), or the program stored
  inside the Loop that a loop table keeps under a given header.
* `unsigned` fields and counters are natural numbers reduced modulo `2 ^ 32`.
* A run that ends in `assert` failure, `throw`, `abort()`, or in dereferencing an iterator
  that is not an instruction of the program at hand, yields `Except.error`.  The embedding
  follows one program object at a time: reading or writing through a target that is not
  one of its instructions is only followed where the code's own effect on this program is
  determined (the marking and checking loops of `compute_target_numbers`).
* A renderer of goto_trace.cpp writes to a stream: its result is the text written together
  with the failure that ended the run, if any.  Printing functions of other modules
  (`from_expr`, the location printers, the symbol lookup) are fields of `namespacet`.
-/

namespace Esbmc

/-! ## Data model -/

/-- Instruction kinds: the enumerators named in `output_instruction` and in
`operator<<` of goto_program.cpp. -/
inductive goto_program_instruction_typet where
  | NO_INSTRUCTION_TYPE
  | GOTO
  | ASSUME
  | ASSERT
  | OTHER
  | SKIP
  | LOCATION
  | END_FUNCTION
  | ATOMIC_BEGIN
  | ATOMIC_END
  | RETURN
  | ASSIGN
  | DECL
  | DEAD
  | FUNCTION_CALL
  | THROW
  | CATCH
  | THROW_DECL
  | THROW_DECL_END
deriving DecidableEq, Repr

/-- Modelled from the spec: the typed expression abstraction (`expr2tc`) consumed from the
front end, whose declaration is not part of the sources at hand.  Only the shapes that
goto_program.cpp and goto_loops.cpp inspect are told apart: the nil expression, boolean
constants (`is_constant_bool2t`), symbols (`to_symbol2t(...).thename`, with the id of their
type), dereferences (`is_dereference2t`), assignments (`to_code_assign2t`: target, source),
function calls (`to_code_function_call2t`: ret, function, operands); every other expression
is an operator `id` applied to sub-expressions. -/
inductive expr2t where
  | nil
  | constant_bool (value : Bool)
  | symbol (thename : String) (type_id : String)
  | dereference (value : expr2t)
  | code_assign (target source : expr2t)
  | code_function_call (ret function : expr2t) (operands : List expr2t)
  | other (id : String) (operands : List expr2t)

/-- Identity of a `goto_programt` object. -/
inductive objectt where
  | program (n : Nat)
  | loop (owner : objectt) (head : Nat)
deriving DecidableEq, Repr

/-- An iterator into the instruction list of the program object `object`:
`pos` is the position of the node, the length of the list standing for `end()`. -/
structure targett where
  object : objectt
  pos : Nat
deriving DecidableEq, Repr

/-- Failure modes of the embedded code. -/
inductive errort where
  | assertion_failed
  | exception (msg : String)
  | abort
  | invalid_iterator
  | bad_cast
  | out_of_fuel
  | null_dereference
deriving DecidableEq, Repr

deriving instance DecidableEq for Except

/-- Modelled from the spec: the source location `locationt` of util/location.h, which is not
part of the sources at hand.  `id` is the id of the underlying record, `nil` standing for the
nil location; the other fields are what `file()`, `line()`, `column()`, `function()` and
`comment()` return.  A default-constructed location has every field empty. -/
structure locationt where
  id : String := ""
  file : String := ""
  line : String := ""
  column : String := ""
  function : String := ""
  comment : String := ""
deriving DecidableEq, Repr

/-- The fields of `goto_programt::instructiont` read or written by the embedded functions. -/
structure instructiont where
  type : goto_program_instruction_typet
  guard : expr2t
  code : expr2t
  targets : List targett
  location : locationt
  function : String
  target_number : Nat
  location_number : Nat
  loop_number : Nat

/-- A program: the identity of the object and its ordered instruction list. -/
structure goto_programt where
  object : objectt
  instructions : List instructiont

/-- The width of `unsigned`. -/
def UINT_MOD : Nat := 2 ^ 32

/-- The unset sentinel of a target number, `unsigned(-1)`. -/
def unset_target_number : Nat := 4294967295

/-- Modelled from the spec: `is_true` on a guard, declared outside the sources at hand;
it holds of the literal "always true" constant only. -/
def is_true : expr2t → Bool
  | .constant_bool true => true
  | _ => false

/-- Modelled from the spec: `is_false` on a guard, declared outside the sources at hand;
it holds of the literal "always false" constant only. -/
def is_false : expr2t → Bool
  | .constant_bool false => true
  | _ => false

namespace instructiont

/-- Kind test `is_goto()`. -/
def is_goto (i : instructiont) : Bool := decide (i.type = .GOTO)

/-- Kind test `is_throw()`. -/
def is_throw (i : instructiont) : Bool := decide (i.type = .THROW)

/-- Kind test `is_return()`. -/
def is_return (i : instructiont) : Bool := decide (i.type = .RETURN)

/-- Kind test `is_assume()`. -/
def is_assume (i : instructiont) : Bool := decide (i.type = .ASSUME)

/-- Kind test `is_assign()`. -/
def is_assign (i : instructiont) : Bool := decide (i.type = .ASSIGN)

/-- Kind test `is_function_call()`. -/
def is_function_call (i : instructiont) : Bool := decide (i.type = .FUNCTION_CALL)

/-- Modelled from the spec: `is_target()`, declared in goto_program.h; an instruction is
marked as a target exactly when its target number is not the unset sentinel. -/
def is_target (i : instructiont) : Bool := decide (i.target_number ≠ unset_target_number)

end instructiont

namespace goto_programt

/-- The iterator `instructions.begin()` advanced `k` times. -/
def at_pos (P : goto_programt) (k : Nat) : targett := ⟨P.object, k⟩

/-- The iterator `instructions.end()`. -/
def end_target (P : goto_programt) : targett := ⟨P.object, P.instructions.length⟩

/-- Dereference of an iterator: the instruction it points at, when it is an instruction
of this program. -/
def deref (P : goto_programt) (t : targett) : Option instructiont :=
  if t.object = P.object then P.instructions[t.pos]? else none

/-- The mutable overload `get_successors(targett, targetst &)`. -/
def get_successors (P : goto_programt) (target : targett) : Except errort (List targett) :=
  if target = P.end_target then .ok []
  else
    match P.deref target with
    | none => .error .invalid_iterator
    | some i =>
      let next : targett := ⟨target.object, target.pos + 1⟩
      if i.is_goto then
        .ok (i.targets ++ (if !is_true i.guard then [next] else []))
      else if i.is_throw then
        .ok []
      else if i.is_return then
        .ok [⟨P.object, P.instructions.length - 1⟩]
      else if i.is_assume then
        .ok (if !is_false i.guard then [next] else [])
      else
        .ok [next]

/-- The const overload `get_successors(const_targett, const_targetst &) const`. -/
def get_successors_const (P : goto_programt) (target : targett) :
    Except errort (List targett) :=
  if target = P.end_target then .ok []
  else
    match P.deref target with
    | none => .error .invalid_iterator
    | some i =>
      let next : targett := ⟨target.object, target.pos + 1⟩
      if i.is_goto then
        .ok (i.targets ++ (if !is_true i.guard then [next] else []))
      else if i.is_return then
        .ok [⟨P.object, P.instructions.length - 1⟩]
      else if i.is_assume then
        .ok (if !is_false i.guard then [next] else [])
      else
        .ok [next]

/-! ### compute_target_numbers -/

/-- First loop of `compute_target_numbers` (reset marking): `it->target_number=-1`. -/
def reset_target_numbers (l : List instructiont) : List instructiont :=
  l.map (fun i => { i with target_number := unset_target_number })

/-- The body of the inner marking loop for one target `t`:
`if(t!=instructions.end()) t->target_number=0;`.  When `t` is an instruction of another
program the write lands outside this program and leaves it unchanged. -/
def mark_target (P : goto_programt) (t : targett) : goto_programt :=
  if t = P.end_target then P
  else
    match P.deref t with
    | some i => { P with instructions := P.instructions.set t.pos { i with target_number := 0 } }
    | none => P

/-- One iteration of the outer marking loop, at position `k`: all targets of `*it`. -/
def mark_targets_of (P : goto_programt) (k : Nat) : goto_programt :=
  match P.instructions[k]? with
  | some it => it.targets.foldl mark_target P
  | none => P

/-- Second loop of `compute_target_numbers` (mark the goto targets). -/
def mark_targets (P : goto_programt) : goto_programt :=
  (List.range P.instructions.length).foldl mark_targets_of P

/-- Third loop of `compute_target_numbers` (number the targets properly), with the
running counter `cnt`: `if(it->is_target()) { it->target_number=++cnt;
assert(it->target_number!=0); }`. -/
def number_targets : List instructiont → Nat → Except errort (List instructiont)
  | [], _ => .ok []
  | it :: rest, cnt =>
    if it.is_target then
      if (cnt + 1) % UINT_MOD = 0 then .error .assertion_failed
      else
        match number_targets rest ((cnt + 1) % UINT_MOD) with
        | .error e => .error e
        | .ok rest' => .ok ({ it with target_number := (cnt + 1) % UINT_MOD } :: rest')
    else
      match number_targets rest cnt with
      | .error e => .error e
      | .ok rest' => .ok (it :: rest')

/-- The two assertions of the fourth loop for one target `t`.  A target that is an
instruction of another program was set to 0 by the marking loop and is not visited by the
numbering loop, so `assert(t->target_number!=0)` fails for it. -/
def check_target (P : goto_programt) (t : targett) : Bool :=
  if t = P.end_target then true
  else
    match P.deref t with
    | some i => decide (i.target_number ≠ 0) && decide (i.target_number ≠ unset_target_number)
    | none => false

/-- Fourth loop of `compute_target_numbers` (check the targets): do all assertions hold. -/
def check_targets (P : goto_programt) : Bool :=
  P.instructions.all (fun it => it.targets.all (fun t => check_target P t))

/-- The function `goto_programt::compute_target_numbers()`. -/
def compute_target_numbers (P : goto_programt) : Except errort goto_programt :=
  let P1 : goto_programt := { P with instructions := reset_target_numbers P.instructions }
  let P2 := mark_targets P1
  match number_targets P2.instructions 0 with
  | .error e => .error e
  | .ok l =>
    let P3 : goto_programt := { P2 with instructions := l }
    if check_targets P3 then .ok P3 else .error .assertion_failed

/-! ### copy_from -/

/-- Lookup `targets_mapping.find(t)` in the old-to-new instruction map. -/
def targets_mapping_find : List (targett × targett) → targett → Option targett
  | [], _ => none
  | (k, v) :: rest, t => if k = t then some v else targets_mapping_find rest t

/-- The inner loop of the second pass of `copy_from` over the targets of one instruction:
a target missing from the map raises `copy_from: target not found`. -/
def remap_targets (m : List (targett × targett)) : List targett → Except errort (List targett)
  | [] => .ok []
  | t :: rest =>
    match targets_mapping_find m t with
    | none => .error (.exception "copy_from: target not found")
    | some t' =>
      match remap_targets m rest with
      | .error e => .error e
      | .ok rest' => .ok (t' :: rest')

/-- The second pass of `copy_from` (updates targets) over all instructions. -/
def remap_instructions (m : List (targett × targett)) :
    List instructiont → Except errort (List instructiont)
  | [] => .ok []
  | it :: rest =>
    match remap_targets m it.targets with
    | .error e => .error e
    | .ok ts =>
      match remap_instructions m rest with
      | .error e => .error e
      | .ok rest' => .ok ({ it with targets := ts } :: rest')

/-- The map built by the first pass of `copy_from`: the `k`-th instruction of `src` is
sent to the `k`-th instruction newly added to the destination object `dst`. -/
def targets_mapping (dst src : objectt) (n : Nat) : List (targett × targett) :=
  (List.range n).map (fun k => ((⟨src, k⟩ : targett), (⟨dst, k⟩ : targett)))

/-- The function `goto_programt::copy_from(src)` called on the program `dst`.  `clear()`
discards what `dst` held; when `dst` and `src` are one and the same object it empties the
source as well.  The first pass appends a copy of every source instruction and records the
map, the second pass rewrites the targets, then the targets are renumbered. -/
def copy_from (dst src : goto_programt) : Except errort goto_programt :=
  let src_instructions := if dst.object = src.object then [] else src.instructions
  let m := targets_mapping dst.object src.object src_instructions.length
  match remap_instructions m src_instructions with
  | .error e => .error e
  | .ok l => compute_target_numbers { object := dst.object, instructions := l }

/-! ### compute_loop_numbers -/

/-- Modelled from the spec: `is_backwards_goto()`, declared in goto_program.h.  A back-edge
is a goto whose sole target sequentially precedes it or is the instruction itself (the
self-loop case is the one `find_function_loops` skips), program order being read off the
location numbers.  The target is dereferenced, so it has to be an instruction of `P`. -/
def is_backwards_goto (P : goto_programt) (i : instructiont) : Except errort Bool :=
  if i.is_goto then
    match i.targets with
    | [t] =>
      match P.deref t with
      | some ti => .ok (decide (ti.location_number ≤ i.location_number))
      | none => .error .invalid_iterator
    | _ => .ok false
  else .ok false

/-- The write `t->loop_number = num` through an iterator `t`. -/
def set_loop_number (P : goto_programt) (t : targett) (num : Nat) : Except errort goto_programt :=
  match P.deref t with
  | some i => .ok { P with instructions := P.instructions.set t.pos { i with loop_number := num } }
  | none => .error .invalid_iterator

/-- A `for` loop over the positions `ks` of a list, threading the state `s` and stopping at
the first failure. -/
def for_positions {σ : Type} (body : σ → Nat → Except errort σ) : List Nat → σ → Except errort σ
  | [], s => .ok s
  | k :: ks, s =>
    match body s k with
    | .error e => .error e
    | .ok s' => for_positions body ks s'

/-- The body of the loop of `compute_loop_numbers` at position `k`; the state is the
program together with the counter `num`. -/
def compute_loop_numbers_body (st : goto_programt × Nat) (k : Nat) :
    Except errort (goto_programt × Nat) :=
  match st.1.instructions[k]? with
  | none => .error .invalid_iterator
  | some it =>
    match st.1.is_backwards_goto it with
    | .error e => .error e
    | .ok false => .ok st
    | .ok true =>
      match it.targets.head? with
      | none => .error .invalid_iterator
      | some t =>
        match st.1.set_loop_number t st.2 with
        | .error e => .error e
        | .ok P1 =>
          match P1.set_loop_number (st.1.at_pos k) st.2 with
          | .error e => .error e
          | .ok P2 => .ok (P2, (st.2 + 1) % UINT_MOD)

/-- The function `goto_programt::compute_loop_numbers(num)`: returns the program and the
final value of the counter passed by reference. -/
def compute_loop_numbers (P : goto_programt) (num : Nat) : Except errort (goto_programt × Nat) :=
  for_positions compute_loop_numbers_body (List.range P.instructions.length) (P, num)

end goto_programt

/-! ## Loop extractor (goto_loops.cpp) -/

/-- Modelled from the spec: a Loop (`loopst`, declared in loopst.h): the sliced-out body,
the original loop header and loop exit in the enclosing program, and the set of variables
written inside the loop, a variable being identified by its symbol name. -/
structure loopst where
  goto_program : goto_programt
  original_loop_head : targett
  original_loop_exit : targett
  modified_loop_vars : List String

/-- An entry of the whole-program function table: the body of a function and whether
it is available. -/
structure goto_functiont where
  body : goto_programt
  body_available : Bool

/-- The members of `goto_loopst` used by goto_loops.cpp: the name of the function under
analysis, the whole-program function table `goto_functions.function_map`, the function
itself, and the loop table `function_loops` keyed by the loop header. -/
structure goto_loopst where
  function_name : String
  function_map : List (String × goto_functiont)
  goto_function : goto_functiont
  function_loops : List (targett × loopst)

/-- Lookup `function_map.find(identifier)`. -/
def function_map_find : List (String × goto_functiont) → String → Option goto_functiont
  | [], _ => none
  | (k, v) :: rest, identifier =>
    if k = identifier then some v else function_map_find rest identifier

/-- Modelled from the spec: `loopst::add_var_to_loop`, declared in loopst.h; insertion of
a variable into the modified-variable set of the loop (no duplicates). -/
def add_var_to_loop (vars : List String) (name : String) : List String :=
  if name ∈ vars then vars else vars ++ [name]

mutual
/-- The function `goto_loopst::add_loop_var(loop, expr)` on the modified-variable set
`vars` of the loop.  `check_var_name` is the name filter of util/expr_util.h, not part of the
sources at hand.  A symbol whose type is not `code` is added when it passes the filter;
any other expression is searched through its operands (a symbol has none). -/
def add_loop_var (check_var_name : String → Bool) (vars : List String) : expr2t → List String
  | .symbol thename type_id =>
    if type_id ≠ "code" then
      (if check_var_name thename then add_var_to_loop vars thename else vars)
    else vars
  | .nil => vars
  | .constant_bool _ => vars
  | .dereference value => add_loop_var check_var_name vars value
  | .code_assign target source =>
    add_loop_var check_var_name (add_loop_var check_var_name vars target) source
  | .code_function_call ret function operands =>
    add_loop_var_operands check_var_name
      (add_loop_var check_var_name (add_loop_var check_var_name vars ret) function) operands
  | .other _ operands => add_loop_var_operands check_var_name vars operands
/-- The loop `forall_operands(it, expr) add_loop_var(loop, *it)`. -/
def add_loop_var_operands (check_var_name : String → Bool) (vars : List String) :
    List expr2t → List String
  | [] => vars
  | e :: es => add_loop_var_operands check_var_name (add_loop_var check_var_name vars e) es
end

/-- The loop over the instructions of a callee body in `get_modified_variables`, `visit`
standing for the recursive call on one instruction. -/
def walk_body (visit : instructiont → List String → Except errort (List String)) :
    List instructiont → List String → Except errort (List String)
  | [], vars => .ok vars
  | head :: rest, vars =>
    match visit head vars with
    | .error e => .error e
    | .ok vars' => walk_body visit rest vars'

/-- The body of `goto_loopst::get_modified_variables(instruction, loop, _function_name)` on
the modified-variable set `vars` of the loop; `recurse identifier head vars` stands for the
recursive call `get_modified_variables(head, loop, identifier)`. -/
def get_modified_variables_body (check_var_name : String → Bool)
    (function_map : List (String × goto_functiont))
    (recurse : String → instructiont → List String → Except errort (List String))
    (instruction : instructiont) (vars : List String) (_function_name : String) :
    Except errort (List String) :=
  if instruction.is_assign then
    match instruction.code with
    | .code_assign target _ => .ok (add_loop_var check_var_name vars target)
    | _ => .error .bad_cast
  else if instruction.is_function_call then
    match instruction.code with
    | .code_function_call ret function _ =>
      match function with
      | .dereference _ => .ok vars
      | .symbol identifier _ =>
        let vars1 := add_loop_var check_var_name vars ret
        if identifier = _function_name then .ok vars1
        else
          match function_map_find function_map identifier with
          | none => .error .abort
          | some f =>
            if !f.body_available then .ok vars1
            else walk_body (recurse identifier) f.body.instructions vars1
      | _ => .error .bad_cast
    | _ => .error .bad_cast
  else .ok vars

/-- The function `goto_loopst::get_modified_variables`; `fuel` bounds the depth of the
recursion through callee bodies, which the code itself does not bound. -/
def get_modified_variables (check_var_name : String → Bool)
    (function_map : List (String × goto_functiont)) :
    Nat → instructiont → List String → String → Except errort (List String)
  | 0 => fun _ _ _ => .error .out_of_fuel
  | fuel + 1 =>
    get_modified_variables_body check_var_name function_map
      (fun identifier head vars =>
        get_modified_variables check_var_name function_map fuel head vars identifier)

/-- Lookup in the loop table `function_loops` by header. -/
def function_loops_find : List (targett × loopst) → targett → Option loopst
  | [], _ => none
  | (k, v) :: rest, h => if k = h then some v else function_loops_find rest h

/-- Replace the Loop stored under the header `h`, or add it when the table has none. -/
def function_loops_store : List (targett × loopst) → targett → loopst → List (targett × loopst)
  | [], h, l => [(h, l)]
  | (k, v) :: rest, h, l =>
    if k = h then (k, l) :: rest else (k, v) :: function_loops_store rest h l

/-- The loop `while (it != loop_exit)` of `create_function_loop` (copy the loop body):
`rest` holds the instructions from `it` to the end of the list; running past the last
instruction dereferences `end()`. -/
def copy_loop_body (visit : instructiont → List String → Except errort (List String))
    (loop_exit : targett) : List instructiont → targett → loopst → Except errort loopst
  | [], it, loop => if it = loop_exit then .ok loop else .error .invalid_iterator
  | i :: rest, it, loop =>
    if it = loop_exit then .ok loop
    else
      match visit i loop.modified_loop_vars with
      | .error e => .error e
      | .ok vars =>
        copy_loop_body visit loop_exit rest ⟨it.object, it.pos + 1⟩
          { loop with
            goto_program :=
              { loop.goto_program with instructions := loop.goto_program.instructions ++ [i] }
            modified_loop_vars := vars }

/-- The function `goto_loopst::create_function_loop(loop_head, loop_exit)`.  `insert`
keeps the Loop already stored under `loop_head` when there is one and otherwise stores a
Loop with an empty program; the original iterators are set, the body is copied while the
modified variables are collected, and a copy of the exit is added last. -/
def create_function_loop (check_var_name : String → Bool) (fuel : Nat) (self : goto_loopst)
    (loop_head loop_exit : targett) : Except errort goto_loopst :=
  let body := self.goto_function.body
  let it1 : loopst :=
    match function_loops_find self.function_loops loop_head with
    | some l => l
    | none =>
      { goto_program := { object := .loop loop_head.object loop_head.pos, instructions := [] }
        original_loop_head := loop_head
        original_loop_exit := loop_exit
        modified_loop_vars := [] }
  let it1 := { it1 with original_loop_head := loop_head, original_loop_exit := loop_exit }
  if loop_head.object ≠ body.object then .error .invalid_iterator
  else
    match copy_loop_body
        (fun i vars =>
          get_modified_variables check_var_name self.function_map fuel i vars self.function_name)
        loop_exit (body.instructions.drop loop_head.pos) loop_head it1 with
    | .error e => .error e
    | .ok l =>
      match body.deref loop_exit with
      | none => .error .invalid_iterator
      | some e =>
        .ok { self with
              function_loops :=
                function_loops_store self.function_loops loop_head
                  { l with
                    goto_program :=
                      { l.goto_program with instructions := l.goto_program.instructions ++ [e] } } }

/-- Lookup `targets[location_number]` in the local map of `find_function_loops`; the most
recent assignment to a key comes first. -/
def location_targets_find : List (Nat × targett) → Nat → Option targett
  | [], _ => none
  | (k, v) :: rest, n => if k = n then some v else location_targets_find rest n

/-- The body of the loop of `find_function_loops` at position `k`; the state is the local
map `targets` together with the object itself.  Looking up a location number that was
never recorded yields a singular iterator, which `create_function_loop` dereferences. -/
def find_function_loops_body (check_var_name : String → Bool) (fuel : Nat)
    (st : List (Nat × targett) × goto_loopst) (k : Nat) :
    Except errort (List (Nat × targett) × goto_loopst) :=
  let body := st.2.goto_function.body
  match body.instructions[k]? with
  | none => .error .invalid_iterator
  | some it =>
    let targets := if it.is_target then (it.location_number, body.at_pos k) :: st.1 else st.1
    match body.is_backwards_goto it with
    | .error e => .error e
    | .ok false => .ok (targets, st.2)
    | .ok true =>
      if it.targets.length ≠ 1 then .error .assertion_failed
      else
        match it.targets.head? with
        | none => .error .invalid_iterator
        | some t =>
          match body.deref t with
          | none => .error .invalid_iterator
          | some ti =>
            if ti.location_number = it.location_number then .ok (targets, st.2)
            else
              match location_targets_find targets ti.location_number with
              | none => .error .invalid_iterator
              | some loop_head =>
                match create_function_loop check_var_name fuel st.2 loop_head (body.at_pos k) with
                | .error e => .error e
                | .ok self' => .ok (targets, self')

/-- The function `goto_loopst::find_function_loops()`. -/
def find_function_loops (check_var_name : String → Bool) (fuel : Nat) (self : goto_loopst) :
    Except errort goto_loopst :=
  match goto_programt.for_positions (find_function_loops_body check_var_name fuel)
      (List.range self.goto_function.body.instructions.length) ([], self) with
  | .error e => .error e
  | .ok st => .ok st.2

/-! ## Example programs and specification vocabulary -/

/-- An instruction of kind `ty` with guard `g`, targets `ts` and location number `loc`; no
code, target number unset, loop number 0. -/
def example_instruction (ty : goto_program_instruction_typet) (g : expr2t)
    (ts : List targett) (loc : Nat) : instructiont :=
  { type := ty, guard := g, code := .nil, targets := ts, location := {}, function := "f",
    target_number := unset_target_number, location_number := loc, loop_number := 0 }

/-- The iterator to position `k` of the free-standing program object number 0. -/
def p0 (k : Nat) : targett := ⟨.program 0, k⟩

/-- A function body exercising every branch of `get_successors`:
`0: SKIP; 1: IF g THEN GOTO 0; 2: GOTO 0; 3: ASSUME g; 4: ASSUME false; 5: THROW;
6: RETURN; 7: END_FUNCTION`. -/
def example_successors : goto_programt :=
  { object := .program 0
    instructions :=
      [ example_instruction .SKIP .nil [] 0,
        example_instruction .GOTO (.symbol "g" "bool") [p0 0] 1,
        example_instruction .GOTO (.constant_bool true) [p0 0] 2,
        example_instruction .ASSUME (.symbol "g" "bool") [] 3,
        example_instruction .ASSUME (.constant_bool false) [] 4,
        example_instruction .THROW .nil [] 5,
        example_instruction .RETURN .nil [] 6,
        example_instruction .END_FUNCTION .nil [] 7 ] }

/-- The body `0: RETURN; 1: END_FUNCTION`. -/
def example_return : goto_programt :=
  { object := .program 0
    instructions :=
      [ example_instruction .RETURN .nil [] 0,
        example_instruction .END_FUNCTION .nil [] 1 ] }

/-- The body `0: THROW; 1: END_FUNCTION`. -/
def example_throw : goto_programt :=
  { object := .program 0
    instructions :=
      [ example_instruction .THROW .nil [] 0,
        example_instruction .END_FUNCTION .nil [] 1 ] }

namespace goto_programt

/-- The program `Y` is the program `X` with the target number of the instruction at each
position `k` replaced by `f k` of its target number in `X`; nothing else differs. -/
def retargeted (X Y : goto_programt) (f : Nat → Nat → Nat) : Prop :=
  Y.object = X.object ∧ Y.instructions.length = X.instructions.length ∧
  ∀ (k : Nat) (i : instructiont), X.instructions[k]? = some i →
    Y.instructions[k]? = some { i with target_number := f k i.target_number }

/-- Whether some instruction of the list `l` holds the target reference `t`. -/
def referenced_by (l : List instructiont) (t : targett) : Bool :=
  l.any (fun i => i.targets.any (fun t' => decide (t' = t)))

/-- Whether the instruction at position `k` of `P` is referenced as a target by at least one
instruction of `P`. -/
def referenced (P : goto_programt) (k : Nat) : Bool :=
  referenced_by P.instructions (P.at_pos k)

/-- The number of referenced instructions of `P` at positions below `j`; the count over
the whole program is the number `m` of distinct referenced instructions. -/
def referenced_upto (P : goto_programt) (j : Nat) : Nat :=
  (List.range j).countP (referenced P)

/-- The program after the first two loops of `compute_target_numbers` (reset, mark). -/
def marked_program (P : goto_programt) : goto_programt :=
  mark_targets { P with instructions := reset_target_numbers P.instructions }

/-- Every target reference of `P` points at an instruction of `P` or at its end position. -/
def targets_inside_or_end (P : goto_programt) : Bool :=
  P.instructions.all (fun i => i.targets.all (fun t =>
    decide (t.object = P.object) && decide (t.pos ≤ P.instructions.length)))

/-- The body `0: SKIP; 1: IF g THEN GOTO 3; 2: SKIP; 3: IF h THEN GOTO 0;
4: IF k THEN GOTO end`, with no target number set. -/
def example_numbering : goto_programt :=
  { object := .program 0
    instructions :=
      [ example_instruction .SKIP .nil [] 0,
        example_instruction .GOTO (.symbol "g" "bool") [p0 3] 1,
        example_instruction .SKIP .nil [] 2,
        example_instruction .GOTO (.symbol "h" "bool") [p0 0] 3,
        example_instruction .GOTO (.symbol "k" "bool") [p0 5] 4 ] }

end goto_programt

namespace goto_programt

/-- Every target reference of `P` points at an instruction of `P`. -/
def targets_inside (P : goto_programt) : Bool :=
  P.instructions.all (fun i => i.targets.all (fun t =>
    decide (t.object = P.object) && decide (t.pos < P.instructions.length)))

/-- A destination object for `copy_from` that already holds an instruction. -/
def example_destination : goto_programt :=
  { object := .program 1
    instructions := [ example_instruction .GOTO .nil [p0 0, ⟨.program 1, 0⟩] 11 ] }

/-- The destination program of `copy_from` before its targets are renumbered. -/
def copied_program (dst src : goto_programt) : goto_programt :=
  { object := dst.object
    instructions := src.instructions.map
      (fun i => { i with targets := i.targets.map (fun t => ⟨dst.object, t.pos⟩) }) }

end goto_programt

namespace goto_programt

/-- The program `Y` is the program `X` with the loop number of the instruction at each
position `k` replaced by `f k` of its loop number in `X`. -/
def relooped (X Y : goto_programt) (f : Nat → Nat → Nat) : Prop :=
  Y.object = X.object ∧ Y.instructions.length = X.instructions.length ∧
  ∀ (k : Nat) (i : instructiont), X.instructions[k]? = some i →
    Y.instructions[k]? = some { i with loop_number := f k i.loop_number }

/-- Whether the instruction at position `k` of `P` is a back-edge (`is_backwards_goto()`
holds of it). -/
def is_back_edge (P : goto_programt) (k : Nat) : Bool :=
  match P.instructions[k]? with
  | some i => decide (P.is_backwards_goto i = .ok true)
  | none => false

/-- The first target `*it->targets.begin()` of the instruction at position `k`. -/
def first_target (P : goto_programt) (k : Nat) : Option targett :=
  match P.instructions[k]? with
  | some i => i.targets.head?
  | none => none

/-- The number of back-edges of `P` at positions below `m`. -/
def back_edges_before (P : goto_programt) (m : Nat) : Nat :=
  (List.range m).countP (is_back_edge P)

/-- The loop number carried by the instruction at position `x`, whose loop number was `old`,
once the loop of `compute_loop_numbers` started with counter `num` has visited the
positions below `m`: the number given by the last back-edge below `m` that is `x` itself or
has `x` as its first target, and `old` when there is none. -/
def loop_number_after (P : goto_programt) (num : Nat) : Nat → Nat → Nat → Nat
  | 0, _, old => old
  | m + 1, x, old =>
    if is_back_edge P m && (decide (x = m) || decide (first_target P m = some (P.at_pos x)))
    then (num + back_edges_before P m) % UINT_MOD
    else loop_number_after P num m x old

/-- Location numbers are up to date: numbering started at `nr`, the instruction at
position `k` carries `nr + k`. -/
def location_numbers_up_to_date (P : goto_programt) (nr : Nat) : Bool :=
  decide (P.instructions.map (fun i => i.location_number) =
    (List.range P.instructions.length).map (fun k => nr + k))

/-- The instruction at position `b` is a goto whose sole target is the instruction at
position `h`, which precedes it or is the instruction itself. -/
def back_edge_to (P : goto_programt) (b h : Nat) : Prop :=
  ∃ i, P.instructions[b]? = some i ∧ i.type = .GOTO ∧ i.targets = [P.at_pos h] ∧ h ≤ b

/-- The body `0: SKIP; 1: IF g THEN GOTO 0; 2: GOTO 0`: two back-edges share the header 0. -/
def example_shared_header : goto_programt :=
  { object := .program 0
    instructions :=
      [ example_instruction .SKIP .nil [] 0,
        example_instruction .GOTO (.symbol "g" "bool") [p0 0] 1,
        example_instruction .GOTO (.constant_bool true) [p0 0] 2 ] }

/-- The body `0: SKIP; 1: IF g THEN GOTO 0; 2: GOTO 1`: the back-edge at 1 is the target of
the back-edge at 2. -/
def example_nested_back_edges : goto_programt :=
  { object := .program 0
    instructions :=
      [ example_instruction .SKIP .nil [] 0,
        example_instruction .GOTO (.symbol "g" "bool") [p0 0] 1,
        example_instruction .GOTO (.constant_bool true) [p0 1] 2 ] }

end goto_programt

open goto_programt

/-- The pairs (header, exit) that `find_function_loops` hands to `create_function_loop`:
the exit is a back-edge of `body` whose target carries a location number different from its
own, and the header is an instruction of `body` carrying the location number of that
target. -/
def created_pair (body : goto_programt) (head exit : targett) : Prop :=
  ∃ (k k' : Nat) (it i' : instructiont) (t : targett) (ti : instructiont),
    exit = body.at_pos k ∧ head = body.at_pos k' ∧
    body.instructions[k]? = some it ∧ body.instructions[k']? = some i' ∧
    body.is_backwards_goto it = .ok true ∧
    it.targets.head? = some t ∧ body.deref t = some ti ∧
    ti.location_number ≠ it.location_number ∧ i'.location_number = ti.location_number

/-- The invariant of the loop of `find_function_loops` started on `self`: the function is
untouched, every entry of the local map `targets` sends a location number to an instruction
of the body carrying that number, and every Loop of the table was there at the start or
stems from a pair handed to `create_function_loop`. -/
def find_function_loops_inv (self : goto_loopst) (st : List (Nat × targett) × goto_loopst) :
    Prop :=
  st.2.goto_function = self.goto_function ∧
  (∀ (loc : Nat) (t : targett), location_targets_find st.1 loc = some t →
    ∃ (k' : Nat) (i' : instructiont), t = self.goto_function.body.at_pos k' ∧
      self.goto_function.body.instructions[k']? = some i' ∧ i'.location_number = loc) ∧
  (∀ e ∈ st.2.function_loops, e ∈ self.function_loops ∨
    created_pair self.goto_function.body e.2.original_loop_head e.2.original_loop_exit)

/-- A function body with up-to-date target and location numbers that holds a self-loop and
a proper loop: `0: SKIP; 1: x = 1; 2: GOTO 2; 3: IF g THEN GOTO 0; 4: END_FUNCTION`. -/
def example_loop_body : goto_programt :=
  { object := .program 0
    instructions :=
      [ { example_instruction .SKIP .nil [] 0 with target_number := 1 },
        { example_instruction .ASSIGN .nil [] 1 with
          code := .code_assign (.symbol "x" "signedbv") (.other "constant" []) },
        { example_instruction .GOTO (.constant_bool true) [p0 2] 2 with target_number := 2 },
        example_instruction .GOTO (.symbol "g" "bool") [p0 0] 3,
        example_instruction .END_FUNCTION .nil [] 4 ] }

/-- The loop extractor for the function `f` with body `example_loop_body`, before
`find_function_loops` has run. -/
def example_loops : goto_loopst :=
  { function_name := "f"
    function_map := [("f", { body := example_loop_body, body_available := true })]
    goto_function := { body := example_loop_body, body_available := true }
    function_loops := [] }

/-- A function body whose only back-edge is a self-loop:
`0: SKIP; 1: GOTO 1; 2: END_FUNCTION`. -/
def example_self_loop_body : goto_programt :=
  { object := .program 0
    instructions :=
      [ example_instruction .SKIP .nil [] 0,
        { example_instruction .GOTO (.constant_bool true) [p0 1] 1 with target_number := 1 },
        example_instruction .END_FUNCTION .nil [] 2 ] }

/-- The loop extractor for a function `f` with body `example_self_loop_body`. -/
def example_self_loops : goto_loopst :=
  { function_name := "f"
    function_map := [("f", { body := example_self_loop_body, body_available := true })]
    goto_function := { body := example_self_loop_body, body_available := true }
    function_loops := [] }

/-- The Loop `it1->second` that `create_function_loop` works on, after the two original
iterators are set and before the body is copied: the Loop already stored under `loop_head`,
or a Loop with an empty program and no variables. -/
def initial_loop (self : goto_loopst) (loop_head loop_exit : targett) : loopst :=
  { (match function_loops_find self.function_loops loop_head with
      | some l => l
      | none =>
        { goto_program := { object := .loop loop_head.object loop_head.pos, instructions := [] }
          original_loop_head := loop_head
          original_loop_exit := loop_exit
          modified_loop_vars := [] }) with
    original_loop_head := loop_head, original_loop_exit := loop_exit }

/-- Target numbers are up to date: running `compute_target_numbers` completes and leaves
every target number as it is. -/
def target_numbers_up_to_date (P : goto_programt) : Bool :=
  decide ((compute_target_numbers P).map
      (fun P' => P'.instructions.map (fun i => i.target_number)) =
    .ok (P.instructions.map (fun i => i.target_number)))

/-- The header of the Loop that `find_function_loops` creates for the instruction at
position `k`: the position of its first target when the instruction is a back-edge whose
target lies strictly before it, and none otherwise. -/
def loop_header_of (body : goto_programt) (k : Nat) : Option Nat :=
  if is_back_edge body k then
    match first_target body k with
    | some t => if t.pos < k then some t.pos else none
    | none => none
  else none

/-- The distinct loop headers met by the instructions at positions below `m`, in the order
in which a back-edge first refers to them. -/
def loop_headers (body : goto_programt) : Nat → List Nat
  | 0 => []
  | m + 1 =>
    match loop_header_of body m with
    | some h => if h ∈ loop_headers body m then loop_headers body m
                else loop_headers body m ++ [h]
    | none => loop_headers body m

/-- The invariant of the scan of `find_function_loops` over a body with up-to-date numbers,
once the positions below `m` are visited, started on `self`: the function, its name and the
function table are untouched; the local map sends the location number of every visited
instruction marked as a target to that instruction; the keys of the loop table are the
loop headers met so far; and every Loop records its key as header and, as exit, the last
back-edge met so far that refers to this header. -/
def scan_inv (self : goto_loopst) (nr m : Nat) (st : List (Nat × targett) × goto_loopst) :
    Prop :=
  st.2.goto_function = self.goto_function ∧
  st.2.function_name = self.function_name ∧
  st.2.function_map = self.function_map ∧
  (∀ (h : Nat) (i : instructiont), h < m → self.goto_function.body.instructions[h]? = some i →
    i.is_target = true →
    location_targets_find st.1 (nr + h) = some (self.goto_function.body.at_pos h)) ∧
  st.2.function_loops.map Prod.fst =
    (loop_headers self.goto_function.body m).map self.goto_function.body.at_pos ∧
  (∀ e ∈ st.2.function_loops, ∃ (b h : Nat),
    e.1 = self.goto_function.body.at_pos h ∧
    e.2.original_loop_head = self.goto_function.body.at_pos h ∧
    e.2.original_loop_exit = self.goto_function.body.at_pos b ∧
    b < m ∧ loop_header_of self.goto_function.body b = some h ∧
    ∀ (b' : Nat), b < b' → b' < m → loop_header_of self.goto_function.body b' ≠ some h)

/-- The body `0: SKIP; 1: IF g THEN GOTO 0; 2: GOTO 0` with up-to-date target and location
numbers: two backwards gotos refer to the header at position 0. -/
def example_shared_header_body : goto_programt :=
  { object := .program 0
    instructions :=
      [ { example_instruction .SKIP .nil [] 0 with target_number := 1 },
        example_instruction .GOTO (.symbol "g" "bool") [p0 0] 1,
        example_instruction .GOTO (.constant_bool true) [p0 0] 2 ] }

/-- The loop extractor for a function `f` with body `example_shared_header_body`, its loop
table empty. -/
def example_shared_header_loops : goto_loopst :=
  { function_name := "f"
    function_map := [("f", { body := example_shared_header_body, body_available := true })]
    goto_function := { body := example_shared_header_body, body_available := true }
    function_loops := [] }

/-- The instruction `i` is a function call whose callee is the directly named function `f`
and whose return target is `ret`. -/
def direct_call (i : instructiont) (ret : expr2t) (f : String) : Prop :=
  i.type = .FUNCTION_CALL ∧ ∃ fty ops, i.code = .code_function_call ret (.symbol f fty) ops

/-- The instruction `i` is a function call through a function pointer (the callee is a
dereference) whose return target is `ret`. -/
def pointer_call (i : instructiont) (ret : expr2t) : Prop :=
  i.type = .FUNCTION_CALL ∧ ∃ fp ops, i.code = .code_function_call ret (.dereference fp) ops

/-- A call `r = (*fp)()` through a function pointer, with the named variable `r` as its
return target. -/
def example_pointer_call : instructiont :=
  { example_instruction .FUNCTION_CALL .nil [] 0 with
    code := .code_function_call (.symbol "r" "signedbv")
      (.dereference (.symbol "fp" "pointer")) [] }

/-- A call `r = g()` to the directly named function `g`. -/
def example_direct_call : instructiont :=
  { example_instruction .FUNCTION_CALL .nil [] 0 with
    code := .code_function_call (.symbol "r" "signedbv") (.symbol "g" "code") [] }

/-- A function table with the single function `g`, whose body is `y = 2; END_FUNCTION`. -/
def example_function_map : List (String × goto_functiont) :=
  [ ("g",
      { body :=
          { object := .program 1
            instructions :=
              [ { example_instruction .ASSIGN .nil [] 0 with
                  function := "g"
                  code := .code_assign (.symbol "y" "signedbv") (.other "constant" []) },
                { example_instruction .END_FUNCTION .nil [] 1 with function := "g" } ] }
        body_available := true }) ]

/-- An assignment to the plain variable `x`: an ASSIGN instruction whose target is the
symbol `x`, not of code type, that passes the name filter. -/
def plain_assignment (check_var_name : String → Bool) (i : instructiont) (x : String) : Prop :=
  i.type = .ASSIGN ∧ check_var_name x = true ∧
    ∃ (ty : String) (src : expr2t), i.code = .code_assign (.symbol x ty) src ∧ ty ≠ "code"

/-- An instruction that is neither an assignment nor a function call. -/
def no_effect (i : instructiont) : Prop :=
  i.type ≠ .ASSIGN ∧ i.type ≠ .FUNCTION_CALL

/-- The variables an instruction `i` of a loop contributes when it is a plain assignment or
a result-less direct call of a function of the table whose body holds plain assignments. -/
def loop_writes (check_var_name : String → Bool)
    (function_map : List (String × goto_functiont)) (i : instructiont) (v : String) : Prop :=
  plain_assignment check_var_name i v ∨
  ∃ (f : String) (F : goto_functiont) (j : instructiont),
    direct_call i .nil f ∧ function_map_find function_map f = some F ∧
    j ∈ F.body.instructions ∧ plain_assignment check_var_name j v

/-- The instructions the loops of the claim are made of, in the function `g`: a plain
assignment, an instruction that is neither an assignment nor a call, or a result-less
direct call of a function different from `g` that the table holds with a body made of
plain assignments and instructions that are neither assignments nor calls. -/
def loop_instruction (check_var_name : String → Bool)
    (function_map : List (String × goto_functiont)) (g : String) (i : instructiont) : Prop :=
  (∃ x, plain_assignment check_var_name i x) ∨ no_effect i ∨
  ∃ (f : String) (F : goto_functiont),
    direct_call i .nil f ∧ f ≠ g ∧ function_map_find function_map f = some F ∧
    F.body_available = true ∧
    ∀ j ∈ F.body.instructions, (∃ y, plain_assignment check_var_name j y) ∨ no_effect j

/-- A function body with the loop `0: x = 1; 1: g(); 2: IF c THEN GOTO 0`, followed by
`3: END_FUNCTION`. -/
def example_call_loop_body : goto_programt :=
  { object := .program 0
    instructions :=
      [ { example_instruction .ASSIGN .nil [] 0 with
          target_number := 1
          code := .code_assign (.symbol "x" "signedbv") (.other "constant" []) },
        { example_instruction .FUNCTION_CALL .nil [] 1 with
          code := .code_function_call .nil (.symbol "g" "code") [] },
        example_instruction .GOTO (.symbol "c" "bool") [p0 0] 2,
        example_instruction .END_FUNCTION .nil [] 3 ] }

/-- The loop extractor for the function `f` with body `example_call_loop_body`, the function
table holding `g`, which writes the global `y`. -/
def example_call_loops : goto_loopst :=
  { function_name := "f"
    function_map := example_function_map
    goto_function := { body := example_call_loop_body, body_available := true }
    function_loops := [] }

/-- An edge of the call graph with self-edges removed: the table holds `f` with an available
body, one instruction of which is a direct call of a function `g` different from `f`. -/
def calls (function_map : List (String × goto_functiont)) (f g : String) : Prop :=
  ∃ (F : goto_functiont) (i : instructiont) (ret : expr2t),
    function_map_find function_map f = some F ∧ F.body_available = true ∧
    i ∈ F.body.instructions ∧ direct_call i ret g ∧ g ≠ f

/-- A function table with recursion: `f` has the body `r = f(); g(); END_FUNCTION` and `g`
the body `y = 2; END_FUNCTION`. -/
def example_recursive_function_map : List (String × goto_functiont) :=
  ("f",
    { body :=
        { object := .program 0
          instructions :=
            [ { example_instruction .FUNCTION_CALL .nil [] 0 with
                code := .code_function_call (.symbol "r" "signedbv") (.symbol "f" "code") [] },
              { example_instruction .FUNCTION_CALL .nil [] 1 with
                code := .code_function_call .nil (.symbol "g" "code") [] },
              example_instruction .END_FUNCTION .nil [] 2 ] }
      body_available := true }) :: example_function_map

/-- Modelled from the spec: `is_nil_expr`, declared outside the sources at hand. -/
def is_nil_expr : expr2t → Bool
  | .nil => true
  | _ => false

/-- Modelled from the spec: `to_symbol2t(e).get_symbol_name()`, declared outside the sources
at hand; the cast fails on an expression that is not a symbol. -/
def get_symbol_name : expr2t → Except errort String
  | .symbol thename _ => .ok thename
  | _ => .error .bad_cast

/-- Modelled from the spec: the step kinds of `goto_trace_stept` (goto_trace.h is not part
of the sources at hand); the kinds are those the switch of `show_goto_trace` tells apart. -/
inductive goto_trace_stept.typet where
  | ASSIGNMENT
  | ASSUME
  | ASSERT
  | OUTPUT
  | SKIP
  | RENUMBER
deriving DecidableEq, Repr

/-- Modelled from the spec: the members of a trace step `goto_trace_stept` that
goto_trace.cpp reads; `pc` is the instruction the step stems from. -/
structure goto_trace_stept where
  type : goto_trace_stept.typet
  pc : instructiont
  guard : Bool
  comment : String
  lhs : expr2t
  original_lhs : expr2t
  value : expr2t
  rhs : expr2t
  step_nr : Nat
  thread_nr : Nat
  stack_trace : List String
  format_string : String
  output_args : List expr2t

/-- Modelled from the spec: the members of a symbol table entry that goto_trace.cpp reads. -/
structure symbolt where
  pretty_name : String
  base_name : String

/-- Modelled from the spec: the namespace `ns`, together with the printing functions of
other modules that the renderers of goto_trace.cpp call.  `lookup` is the symbol table
(none when `ns.lookup` reports failure); `from_expr identifier e` is
`from_expr(ns, identifier, e)`; `location_as_string` is `operator<<` on a location and
`location_to_string` its `to_string()`; `get_type_id e` is `get_type_id` of the type of an
expression `e` that is not nil, and a type id is compared with `array_id`, `union_id` or
`struct_id` through this name (`array`, `union`, `struct`);
`constant_value e` is the text that `counterexample_value` puts in brackets after a value:
the decimal value of a constant of bit-vector type, the text of a constant of fixed-point
type, none for every other expression; `printf_formatter` is the text the formatter
prints. -/
structure namespacet where
  lookup : String → Option symbolt
  from_expr : String → expr2t → String
  location_as_string : locationt → String
  location_to_string : locationt → String
  get_type_id : expr2t → String
  constant_value : expr2t → Option String
  printf_formatter : String → List expr2t → String

/-- What a renderer has written to the stream `out`, and the failure that ended the run, if
any. -/
structure writtent where
  text : String
  error : Option errort
deriving DecidableEq

/-- The text `s` written before whatever `w` records. -/
def writtent.after (s : String) (w : writtent) : writtent :=
  { text := s ++ w.text, error := w.error }

/-- What `w1` records followed by what `w2` records: when the run recorded by `w1` failed,
nothing of `w2` is written. -/
def writtent.append (w1 w2 : writtent) : writtent :=
  match w1.error with
  | none => { text := w1.text ++ w2.text, error := w2.error }
  | some e => { text := w1.text, error := some e }

/-- The text `s` written after `w`, when the run recorded by `w` did not fail. -/
def writtent.followed_by (w : writtent) (s : String) : writtent :=
  match w.error with
  | none => { text := w.text ++ s, error := none }
  | some e => { text := w.text, error := some e }

/-- A namespace for the examples: no symbol is known, an expression prints as its name or
operator, a location as its file and line. -/
def example_namespace : namespacet :=
  { lookup := fun _ => none
    from_expr := fun _ e =>
      match e with
      | .symbol thename _ => thename
      | .constant_bool true => "TRUE"
      | .constant_bool false => "FALSE"
      | .other id _ => id
      | _ => "?"
    location_as_string := fun l => "file " ++ l.file ++ " line " ++ l.line
    location_to_string := fun l => "file " ++ l.file ++ " line " ++ l.line
    get_type_id := fun e =>
      match e with
      | .symbol _ type_id => type_id
      | _ => "signedbv"
    constant_value := fun _ => none
    printf_formatter := fun format_string _ => format_string }

/-- The assignment step `name = value` with step number `step_nr`, on an assign instruction
at line `line` of `main.c`. -/
def example_assignment_step (name value line : String) (step_nr : Nat) : goto_trace_stept :=
  { type := .ASSIGNMENT
    pc := { example_instruction .ASSIGN .nil [] 0 with
            location := { file := "main.c", line := line, column := "1", function := "f" }
            code := .code_assign (.symbol name "signedbv") (.other value []) }
    guard := true
    comment := ""
    lhs := .symbol name "signedbv"
    original_lhs := .symbol name "signedbv"
    value := .other value []
    rhs := .other value []
    step_nr := step_nr
    thread_nr := 0
    stack_trace := []
    format_string := ""
    output_args := [] }

/-- The step of the assertion `assert(FALSE)` with guard value `guard` and step number
`step_nr`, on an assert instruction at line 9 of `main.c`. -/
def example_assertion_step (guard : Bool) (step_nr : Nat) : goto_trace_stept :=
  { type := .ASSERT
    pc := { example_instruction .ASSERT (.constant_bool false) [] 0 with
            location := { file := "main.c", line := "9", column := "1", function := "f" } }
    guard := guard
    comment := "assertion"
    lhs := .nil
    original_lhs := .nil
    value := .nil
    rhs := .nil
    step_nr := step_nr
    thread_nr := 0
    stack_trace := []
    format_string := ""
    output_args := [] }

/-- The base name that `show_goto_trace_gui` prints for `identifier`: the one of its
symbol, and the empty text when the lookup fails. -/
def gui_base_name (ns : namespacet) (identifier : String) : String :=
  match ns.lookup identifier with
  | some symbol => symbol.base_name
  | none => ""

/-- The body of the loop of `show_goto_trace_gui` for the step `it`: the text written and
the failure that ended the run, if any, given `previous_location`.  In the assignment
branch the operands of the output chain are taken from left to right: the line `TRACE`, the
identifier and the base name are out when `it->value->type` is dereferenced, which fails
for a nil value. -/
def show_goto_trace_gui_step (ns : namespacet) (previous_location : locationt)
    (it : goto_trace_stept) : writtent :=
  let location := it.pc.location
  if it.type = .ASSERT ∧ it.guard = false then
    { text := "FAILED" ++ "\n" ++ it.comment ++ "\n" ++ "\n" ++ location.file ++ "\n" ++
        location.line ++ "\n" ++ location.column ++ "\n"
      error := none }
  else if it.type = .ASSIGNMENT then
    match get_symbol_name (if !is_nil_expr it.original_lhs then it.original_lhs else it.lhs) with
    | .error e => { text := "", error := some e }
    | .ok identifier =>
      if is_nil_expr it.value then
        { text := "TRACE" ++ "\n" ++ (identifier ++ "," ++ gui_base_name ns identifier ++ ",")
          error := some .null_dereference }
      else
        { text := "TRACE" ++ "\n" ++
            (identifier ++ "," ++ gui_base_name ns identifier ++ "," ++
              ns.get_type_id it.value ++ "," ++ ns.from_expr identifier it.value) ++ "\n" ++
            toString it.step_nr ++ "\n" ++ it.pc.location.file ++ "\n" ++
            it.pc.location.line ++ "\n" ++ it.pc.location.column ++ "\n"
          error := none }
  else if location ≠ previous_location then
    if location.file ≠ "" then
      { text := "TRACE" ++ "\n" ++ ("," ++ "," ++ "," ++ "") ++ "\n" ++
          toString it.step_nr ++ "\n" ++ location.file ++ "\n" ++
          location.line ++ "\n" ++ location.column ++ "\n"
        error := none }
    else { text := "", error := none }
  else { text := "", error := none }

/-- The loop of `show_goto_trace_gui` over the remaining steps, with the current value of
`previous_location`. -/
def show_goto_trace_gui_loop (ns : namespacet) : List goto_trace_stept → locationt → writtent
  | [], _ => { text := "", error := none }
  | it :: rest, previous_location =>
    (show_goto_trace_gui_step ns previous_location it).append
      (show_goto_trace_gui_loop ns rest it.pc.location)

/-- The function `show_goto_trace_gui(out, ns, goto_trace)`. -/
def show_goto_trace_gui (ns : namespacet) (goto_trace : List goto_trace_stept) : writtent :=
  show_goto_trace_gui_loop ns goto_trace {}

/-- Split a text at the first occurrence of the character `sep`: the text before it and the
text after it. -/
def split_at_first (sep : Char) : List Char → List Char × List Char
  | [] => ([], [])
  | c :: cs =>
    if c = sep then ([], cs)
    else ((c :: (split_at_first sep cs).1), (split_at_first sep cs).2)

/-- Re-parsing of a header line of the machine format: the line is split at its first
three commas into identifier, base name, type id and value. -/
def parse_trace_header (line : String) : String × String × String × String :=
  let a := split_at_first ',' line.data
  let b := split_at_first ',' a.2
  let c := split_at_first ',' b.2
  (String.mk a.1, String.mk b.1, String.mk c.1, String.mk c.2)

/-- Re-parsing of a record of the machine format: the first line is the tag, the second
line is the header line. -/
def parse_trace_record (text : String) : String × String × String × String × String :=
  let tag := split_at_first '\n' text.data
  let header := split_at_first '\n' tag.2
  let parsed := parse_trace_header (String.mk header.1)
  (String.mk tag.1, parsed.1, parsed.2.1, parsed.2.2.1, parsed.2.2.2)

/-- A pointer-typed assignment step `p = &x` at step 3. -/
def example_pointer_step : goto_trace_stept :=
  { example_assignment_step "p" "&x" "5" 3 with
    lhs := .symbol "p" "pointer"
    original_lhs := .nil
    value := .symbol "&x" "pointer" }

/-- Whether the text `sub` occurs in the text `s`. -/
def contains_chars : List Char → List Char → Bool
  | [], sub => sub.isEmpty
  | c :: cs, sub => sub.isPrefixOf (c :: cs) || contains_chars cs sub

/-- The test `s.find(sub, 0) != std::string::npos`. -/
def string_contains (s sub : String) : Bool := contains_chars s.data sub.data

/-- The text before the first occurrence of `sub`, and the whole text when `sub` does not
occur. -/
def cut_chars (sub : List Char) : List Char → List Char
  | [] => []
  | c :: cs => if sub.isPrefixOf (c :: cs) then [] else c :: cut_chars sub cs

/-- The assignment `pos = s.find(sub, 0); if(pos != npos) s = s.substr(0, pos);`, which is
also what `boost::split` at the one-character separator `sub` leaves in its first part. -/
def cut_before (s sub : String) : String := String.mk (cut_chars sub.data s.data)

/-- The text after the first occurrence of the character `c`, none when `c` does not
occur. -/
def drop_through (c : Char) : List Char → Option (List Char)
  | [] => none
  | x :: xs => if x = c then some xs else drop_through c xs

/-- The check for a double quote of lines 351-359: a text with a first double quote and no
second one gets a closing double quote appended. -/
def close_quote (s : String) : String :=
  match drop_through (Char.ofNat 34) s.data with
  | none => s
  | some rest =>
    if (drop_through (Char.ofNat 34) rest).isSome then s
    else s ++ String.singleton (Char.ofNat 34)

/-- The value of a run of leading decimal digits, continuing from `acc`. -/
def atoi_digits : List Char → Nat → Nat
  | [], acc => acc
  | c :: cs, acc =>
    if c.isDigit then atoi_digits cs (10 * acc + (c.toNat - 48)) else acc

/-- The test `isspace` of the C locale: space, tab, line feed, vertical tab, form feed,
carriage return. -/
def isspace (c : Char) : Bool := c.toNat == 32 || (9 ≤ c.toNat && c.toNat ≤ 13)

/-- Modelled from the spec: `std::atoi` of the C library that the tool itself is linked
with (the operational model `atoi` of ansi-c/library/stdlib.c is for the programs under
verification): leading white space is skipped, an optional sign is read, then the leading
decimal digits are converted; text that follows the digits is ignored and a text without
leading digits gives 0.  The result is an `int`: a value outside its range, for which the
C standard leaves the result open, is reduced modulo `2 ^ 32` into that range. -/
def atoi (s : String) : Int :=
  let value : Int :=
    match s.data.dropWhile isspace with
    | '-' :: rest => - (atoi_digits rest 0 : Int)
    | '+' :: rest => (atoi_digits rest 0 : Int)
    | rest => (atoi_digits rest 0 : Int)
  Int.bmod value (2 ^ 32)

/-- Modelled from the spec: the node properties `node_p` of witnesses.h, which is not part of
the sources at hand; both flags are off unless set. -/
structure node_p where
  isEntryNode : Bool := false
  isViolationNode : Bool := false
deriving DecidableEq, Repr

/-- Modelled from the spec: a node tree filled by `create_node`; `id` tells the nodes of one
graph apart by their order of creation. -/
structure nodet where
  id : Nat
  props : node_p
deriving DecidableEq, Repr

/-- Modelled from the spec: the edge properties `edge_p` of witnesses.h that
`generate_goto_trace_in_graphml_format` sets without the help of the tokenizer; a property
that is not set is none. -/
structure edge_p where
  originFileName : Option String := none
  assumption : Option String := none
  enterFunction : Option String := none
  startline : Option Int := none
  endline : Option Int := none
deriving DecidableEq, Repr

/-- Modelled from the spec: an edge tree filled by `create_edge(edge, props, source,
target)`; `source` and `target` are the node trees handed over, none standing for a
default-constructed, empty tree. -/
structure edget where
  props : edge_p
  source : Option nodet
  target : Option nodet
deriving DecidableEq, Repr

/-- Modelled from the spec: `create_node(node, props)`; `count` is the number of nodes
created before. -/
def create_node (count : Nat) (props : node_p) : nodet := { id := count, props := props }

/-- Modelled from the spec: `create_edge(edge, props, source, target)`. -/
def create_edge (props : edge_p) (source target : Option nodet) : edget :=
  { props := props, source := source, target := target }

/-- The local state of `generate_goto_trace_in_graphml_format`: whether `create_graphml` and
`create_graph` have run, the `node` and `edge` children of `graph` in the order they were
added, and the variables `already_initialized`, `last_created_node`, `last_function`. -/
structure graphml_statet where
  created : Bool
  nodes : List nodet
  edges : List edget
  already_initialized : Bool
  last_created_node : Option nodet
  last_function : String
deriving DecidableEq, Repr

/-- The graph handed to `write_xml`: whether the document was set up by `create_graphml` and
`create_graph`, and the `node` and `edge` children of `graph` in order. -/
structure grapht where
  created : Bool
  nodes : List nodet
  edges : List edget
deriving DecidableEq, Repr

/-- The test `is_internal_call` of the loop: the location text holds `built-in` or
`library`. -/
def is_internal_call (ns : namespacet) (it : goto_trace_stept) : Bool :=
  string_contains (ns.location_to_string it.pc.location) "built-in" ||
    string_contains (ns.location_to_string it.pc.location) "library"

/-- The function name of an edge: the function of the instruction without a leading
`c::`. -/
def edge_function_name (function : String) : String :=
  if "c::".isPrefixOf function then function.drop 3 else function

/-- The assumption of an edge, lines 320-378 of `generate_goto_trace_in_graphml_format`, for
the step `it` with the name `identifier` of its left-hand side: none when no assumption is
set.  The left-hand side is cut at the first `@`, `&` and `$`; unless it is of array type
the value is cut at the first `@` and at the first `f`, gets a missing closing double quote,
and `lhs = value;` is the assumption, which is dropped when it holds `__ESBMC`, `&dynamic_`
or `invalid-object` or when the right-hand side is of union or struct type.  Reading the
type of the right-hand side dereferences `it->rhs`, which fails for a nil expression. -/
def edge_assumption (ns : namespacet) (identifier : String) (it : goto_trace_stept) :
    Except errort (Option String) :=
  let lhs_str :=
    cut_before (cut_before (cut_before (ns.from_expr identifier it.lhs) "@") "&") "$"
  if ns.get_type_id it.lhs ≠ "array" then
    let value_str :=
      close_quote (cut_before (cut_before (ns.from_expr identifier it.value) "@") "f")
    let assumption := lhs_str ++ " = " ++ value_str ++ ";"
    if is_nil_expr it.rhs then .error .null_dereference
    else if string_contains assumption "__ESBMC" || string_contains assumption "&dynamic_" ||
        string_contains assumption "invalid-object" ||
        decide (ns.get_type_id it.rhs = "union") ||
        decide (ns.get_type_id it.rhs = "struct") then .ok none
    else .ok (some assumption)
  else .ok none

/-- The body of the loop of `generate_goto_trace_in_graphml_format` for the step `it`.  The
token annotations of an edge (`sourcecode` and the token range), which come from an
external tokenizer, are left out. -/
def graphml_step (ns : namespacet) (st : graphml_statet) (it : goto_trace_stept) :
    Except errort graphml_statet :=
  if !(decide (it.type = .ASSIGNMENT)) || is_internal_call ns it then .ok st
  else
    match get_symbol_name it.lhs with
    | .error e => .error e
    | .ok identifier =>
      if string_contains identifier "::$tmp::" then .ok st
      else
        let filename := it.pc.location.file
        let st1 : graphml_statet :=
          if st.already_initialized = false then
            { st with
              created := true
              nodes := st.nodes ++ [create_node st.nodes.length { isEntryNode := true }]
              last_created_node := some (create_node st.nodes.length { isEntryNode := true })
              already_initialized := true }
          else st
        let current_node := create_node st1.nodes.length {}
        let line_number := atoi it.pc.location.line
        match edge_assumption ns identifier it with
        | .error e => .error e
        | .ok assumption =>
          let function_name := edge_function_name it.pc.function
          let current_edge_p : edge_p :=
            { originFileName := some filename
              assumption := assumption
              enterFunction :=
                if function_name ≠ st1.last_function then some function_name else none
              startline := if line_number ≠ 0 then some line_number else none
              endline := if line_number ≠ 0 then some line_number else none }
          .ok { st1 with
                nodes := st1.nodes ++ [current_node]
                edges := st1.edges ++
                  [create_edge current_edge_p st1.last_created_node (some current_node)]
                last_created_node := some current_node
                last_function :=
                  if function_name ≠ st1.last_function then function_name
                  else st1.last_function }

/-- The loop of `generate_goto_trace_in_graphml_format` over the steps of the trace. -/
def graphml_loop (ns : namespacet) :
    List goto_trace_stept → graphml_statet → Except errort graphml_statet
  | [], st => .ok st
  | it :: rest, st =>
    match graphml_step ns st it with
    | .error e => .error e
    | .ok st' => graphml_loop ns rest st'

/-- The function `generate_goto_trace_in_graphml_format(tokenizer_path, filename, ns,
goto_trace)`: the graph it hands to `write_xml`. -/
def generate_goto_trace_in_graphml_format (ns : namespacet)
    (goto_trace : List goto_trace_stept) : Except errort grapht :=
  match graphml_loop ns goto_trace
      { created := false, nodes := [], edges := [], already_initialized := false,
        last_created_node := none, last_function := "" } with
  | .error e => .error e
  | .ok st =>
    .ok { created := st.created
          nodes := st.nodes ++ [create_node st.nodes.length { isViolationNode := true }]
          edges := st.edges ++
            [create_edge {} st.last_created_node
              (some (create_node st.nodes.length { isViolationNode := true }))] }

/-- A step that does not qualify, in the words of the claim: no assignment, or from an
internal location, or an assignment to a symbol with the temporary marker. -/
def skipped_step (ns : namespacet) (it : goto_trace_stept) : Prop :=
  it.type ≠ .ASSIGNMENT ∨ is_internal_call ns it = true ∨
    ∃ identifier, get_symbol_name it.lhs = .ok identifier ∧
      string_contains identifier "::$tmp::" = true

/-- A trace without a qualifying step: an assignment to a temporary and a failed
assertion. -/
def example_skipped_trace : List goto_trace_stept :=
  [ example_assignment_step "c::main::$tmp::return_value" "1" "3" 0,
    example_assertion_step false 1 ]

mutual
/-- The symbols that occur in the expression `e` as a sub-expression, at any depth, each
with the id of its type. -/
def symbols_of : expr2t → List (String × String)
  | .symbol thename type_id => [(thename, type_id)]
  | .nil => []
  | .constant_bool _ => []
  | .dereference value => symbols_of value
  | .code_assign target source => symbols_of target ++ symbols_of source
  | .code_function_call ret function operands =>
    symbols_of ret ++ symbols_of function ++ symbols_of_operands operands
  | .other _ operands => symbols_of_operands operands
/-- The symbols that occur in one of the expressions `es`. -/
def symbols_of_operands : List expr2t → List (String × String)
  | [] => []
  | e :: es => symbols_of e ++ symbols_of_operands es
end

/-- The variable `v` qualifies for the variable set on account of the expression `e`: it
occurs in `e` as a symbol whose type is not `code`, and it passes the name filter. -/
def qualifying_symbol (check_var_name : String → Bool) (e : expr2t) (v : String) : Prop :=
  ∃ type_id, (v, type_id) ∈ symbols_of e ∧ type_id ≠ "code" ∧ check_var_name v = true

/-- The assignment `a[i] = 0`, with an indexed access as its left-hand side. -/
def example_index_assignment : instructiont :=
  { example_instruction .ASSIGN .nil [] 0 with
    code := .code_assign
      (.other "index" [.symbol "a" "array", .symbol "i" "signedbv"]) (.other "constant" []) }

/-- A call `callee()` without return target, at location number `loc`. -/
def example_call (callee : String) (loc : Nat) : instructiont :=
  { example_instruction .FUNCTION_CALL .nil [] loc with
    code := .code_function_call .nil (.symbol callee "code") [] }

/-- A function table with mutual recursion: `f` has the body `g(); END_FUNCTION` and `g` the
body `f(); END_FUNCTION`. -/
def example_mutual_function_map : List (String × goto_functiont) :=
  [ ("f",
      { body :=
          { object := .program 1
            instructions := [example_call "g" 0, example_instruction .END_FUNCTION .nil [] 1] }
        body_available := true }),
    ("g",
      { body :=
          { object := .program 2
            instructions := [example_call "f" 0, example_instruction .END_FUNCTION .nil [] 1] }
        body_available := true }) ]

/-- The function `operator<<(std::ostream &out, goto_program_instruction_typet t)` of
goto_program.cpp: what it writes to `out`.  In the default branch `out << t` applies this
very operator to the same value; `fuel` bounds the depth of that recursion, which the code
itself does not bound. -/
def operator_shift_left : Nat → goto_program_instruction_typet → writtent
  | 0, _ => { text := "", error := some .out_of_fuel }
  | fuel + 1, t =>
    match t with
    | .NO_INSTRUCTION_TYPE => { text := "NO_INSTRUCTION_TYPE", error := none }
    | .GOTO => { text := "GOTO", error := none }
    | .ASSUME => { text := "ASSUME", error := none }
    | .ASSERT => { text := "ASSERT", error := none }
    | .OTHER => { text := "OTHER", error := none }
    | .SKIP => { text := "SKIP", error := none }
    | .LOCATION => { text := "LOCATION", error := none }
    | .END_FUNCTION => { text := "END_FUNCTION", error := none }
    | .ATOMIC_BEGIN => { text := "ATOMIC_BEGIN", error := none }
    | .ATOMIC_END => { text := "ATOMIC_END", error := none }
    | .RETURN => { text := "RETURN", error := none }
    | .ASSIGN => { text := "ASSIGN", error := none }
    | .FUNCTION_CALL => { text := "FUNCTION_CALL", error := none }
    | .THROW => { text := "THROW", error := none }
    | .CATCH => { text := "CATCH", error := none }
    | .THROW_DECL => { text := "THROW_DECL", error := none }
    | _ => ((operator_shift_left fuel t).followed_by ")").after "? (number: "

/-- The kinds that have a case of their own in `operator<<`. -/
def listed_kind (t : goto_program_instruction_typet) : Bool :=
  match t with
  | .DECL => false
  | .DEAD => false
  | .THROW_DECL_END => false
  | _ => true

/-- The upper-case name of an instruction kind. -/
def kind_name : goto_program_instruction_typet → String
  | .NO_INSTRUCTION_TYPE => "NO_INSTRUCTION_TYPE"
  | .GOTO => "GOTO"
  | .ASSUME => "ASSUME"
  | .ASSERT => "ASSERT"
  | .OTHER => "OTHER"
  | .SKIP => "SKIP"
  | .LOCATION => "LOCATION"
  | .END_FUNCTION => "END_FUNCTION"
  | .ATOMIC_BEGIN => "ATOMIC_BEGIN"
  | .ATOMIC_END => "ATOMIC_END"
  | .RETURN => "RETURN"
  | .ASSIGN => "ASSIGN"
  | .DECL => "DECL"
  | .DEAD => "DEAD"
  | .FUNCTION_CALL => "FUNCTION_CALL"
  | .THROW => "THROW"
  | .CATCH => "CATCH"
  | .THROW_DECL => "THROW_DECL"
  | .THROW_DECL_END => "THROW_DECL_END"

/-- The text of the exception that `copy_from` throws. -/
def target_not_found : errort := .exception "copy_from: target not found"

/-- A body whose goto refers to an instruction of another program object:
`0: SKIP; 1: GOTO (instruction 0 of program 7)`. -/
def example_foreign_target : goto_programt :=
  { object := .program 0
    instructions :=
      [ example_instruction .SKIP .nil [] 0,
        example_instruction .GOTO (.constant_bool true) [⟨.program 7, 0⟩] 1 ] }

/-- The value of `previous_location` after the loop of `show_goto_trace_gui` has gone
through the steps `p`, starting from `previous_location`: the location of the last of
them. -/
def previous_location_after (previous_location : locationt) :
    List goto_trace_stept → locationt
  | [] => previous_location
  | s :: rest => previous_location_after s.pc.location rest

/-- A bare location record of the machine format for the step `it`: a `TRACE` record with
empty identifier, base name, type and value. -/
def location_record (it : goto_trace_stept) : String :=
  "TRACE" ++ "\n" ++ ("," ++ "," ++ "," ++ "") ++ "\n" ++
    toString it.step_nr ++ "\n" ++ it.pc.location.file ++ "\n" ++
    it.pc.location.line ++ "\n" ++ it.pc.location.column ++ "\n"

/-- A step that is neither an assertion nor an assignment, at line `line` of `main.c`. -/
def example_skip_step (line : String) (step_nr : Nat) : goto_trace_stept :=
  { example_assertion_step true step_nr with
    type := .SKIP
    pc := { example_instruction .SKIP .nil [] 0 with
            location := { file := "main.c", line := line, column := "1", function := "f" } } }

/-- A namespace for the examples in which the symbol `c::main::x` is known, with the base
name `x`. -/
def example_symbols : namespacet :=
  { example_namespace with
    lookup := fun identifier =>
      if identifier = "c::main::x" then some { pretty_name := "main::x", base_name := "x" }
      else none }

/-- An assignment step at step 1 whose value is nil (the assignment was removed). -/
def example_removed_step : goto_trace_stept :=
  { example_assignment_step "y" "2" "4" 1 with value := .nil }

/-- The text `sub` occurs in the text `s`: at some position `i` of `s` the characters of
`sub` follow. -/
def occurs_in (sub s : String) : Prop :=
  ∃ i, i < s.length + 1 ∧ (s.data.drop i).take sub.length = sub.data

instance occurs_in.decidable (sub s : String) : Decidable (occurs_in sub s) := by
  unfold occurs_in
  infer_instance

/-- A qualifying assignment step, in the words of the claim: a step of ASSIGNMENT kind,
the text of its location holding neither `built-in` nor `library`, its left-hand side a
symbol whose name does not hold `::$tmp::`. -/
def qualifying_assignment (ns : namespacet) (it : goto_trace_stept) : Prop :=
  it.type = .ASSIGNMENT ∧
  ¬ occurs_in "built-in" (ns.location_to_string it.pc.location) ∧
  ¬ occurs_in "library" (ns.location_to_string it.pc.location) ∧
  ∃ identifier type_id, it.lhs = .symbol identifier type_id ∧
    ¬ occurs_in "::$tmp::" identifier

instance qualifying_assignment.decidable (ns : namespacet) (it : goto_trace_stept) :
    Decidable (qualifying_assignment ns it) :=
  match h : it.lhs with
  | .symbol identifier type_id =>
    decidable_of_iff
      (it.type = .ASSIGNMENT ∧
        ¬ occurs_in "built-in" (ns.location_to_string it.pc.location) ∧
        ¬ occurs_in "library" (ns.location_to_string it.pc.location) ∧
        ¬ occurs_in "::$tmp::" identifier)
      ⟨fun ⟨a, b, c, d⟩ => ⟨a, b, c, identifier, type_id, h, d⟩,
       fun ⟨a, b, c, _, _, e, d⟩ => ⟨a, b, c, by rw [h] at e; cases e; exact d⟩⟩
  | .nil => isFalse (fun ⟨_, _, _, _, _, e, _⟩ => by rw [h] at e; cases e)
  | .constant_bool _ => isFalse (fun ⟨_, _, _, _, _, e, _⟩ => by rw [h] at e; cases e)
  | .dereference _ => isFalse (fun ⟨_, _, _, _, _, e, _⟩ => by rw [h] at e; cases e)
  | .code_assign _ _ => isFalse (fun ⟨_, _, _, _, _, e, _⟩ => by rw [h] at e; cases e)
  | .code_function_call _ _ _ =>
    isFalse (fun ⟨_, _, _, _, _, e, _⟩ => by rw [h] at e; cases e)
  | .other _ _ => isFalse (fun ⟨_, _, _, _, _, e, _⟩ => by rw [h] at e; cases e)

/-- The qualifying assignment steps of a trace, in trace order. -/
def qualifying_steps (ns : namespacet) (goto_trace : List goto_trace_stept) :
    List goto_trace_stept :=
  goto_trace.filter (fun it => decide (qualifying_assignment ns it))

/-- The assignment step `x = 1` at line 3 of `main.c` whose right-hand side is nil. -/
def example_absent_rhs_step : goto_trace_stept :=
  { example_assignment_step "x" "1" "3" 0 with rhs := .nil }

namespace goto_programt

/-! ### Iterators -/

theorem deref_some_ne_end {P : goto_programt} {t : targett} {i : instructiont}
    (h : P.deref t = some i) : t ≠ P.end_target := by
  intro he
  subst he
  simp [deref, end_target] at h

theorem deref_some_lt {P : goto_programt} {t : targett} {i : instructiont}
    (h : P.deref t = some i) : t.object = P.object ∧ t.pos < P.instructions.length := by
  unfold deref at h
  split at h
  · rename_i ho
    exact ⟨ho, (List.getElem?_eq_some.mp h).1⟩
  · simp at h

/-! ### get_successors -/

/-- C3: on a goto instruction `get_successors` returns the explicit targets in their
stored order, followed by the next position exactly when the guard is not the literal
constant true. -/
theorem get_successors_goto (P : goto_programt) (t : targett) (i : instructiont)
    (hi : P.deref t = some i) (hk : i.type = .GOTO) :
    (i.guard = .constant_bool true → P.get_successors t = .ok i.targets) ∧
    (i.guard ≠ .constant_bool true →
      P.get_successors t = .ok (i.targets ++ [⟨t.object, t.pos + 1⟩])) := by
  have hne := deref_some_ne_end hi
  constructor
  · intro hg
    simp [get_successors, hne, hi, instructiont.is_goto, hk, hg, is_true]
  · intro hg
    have ht : is_true i.guard = false := by
      cases hgd : i.guard with
      | constant_bool b =>
        cases b
        · rfl
        · exact absurd hgd hg
      | _ => rfl
    simp [get_successors, hne, hi, instructiont.is_goto, hk, ht]

theorem get_successors_goto_witness :
    example_successors.get_successors (p0 1) = .ok [p0 0, p0 2] :=
  (get_successors_goto example_successors (p0 1)
    (example_instruction .GOTO (.symbol "g" "bool") [p0 0] 1) (by rfl) (by rfl)).2
    (by simp [example_instruction])

/-- C4 (as stated, refuted): in the body `0: RETURN; 1: END_FUNCTION` the sole successor
of the return is position 1, which is the instruction that follows the return. -/
theorem get_successors_return_is_next :
    (example_return.deref (p0 0)).map (fun i => i.type) = some .RETURN ∧
    example_return.get_successors (p0 0) = .ok [p0 1] ∧
    p0 1 = ⟨(p0 0).object, (p0 0).pos + 1⟩ := by
  decide

/-- C4 (amended): on a return instruction `get_successors` returns exactly one element, the
last instruction of the program; it is the position after the return exactly when the
return is the second-to-last instruction. -/
theorem get_successors_return (P : goto_programt) (t : targett) (i : instructiont)
    (hi : P.deref t = some i) (hk : i.type = .RETURN) :
    P.get_successors t = .ok [P.at_pos (P.instructions.length - 1)] ∧
    P.deref (P.at_pos (P.instructions.length - 1)) = P.instructions.getLast? ∧
    (P.at_pos (P.instructions.length - 1) = ⟨t.object, t.pos + 1⟩ ↔
      t.pos + 2 = P.instructions.length) := by
  have hne := deref_some_ne_end hi
  obtain ⟨ho, hlt⟩ := deref_some_lt hi
  refine ⟨?_, ?_, ?_⟩
  · simp [get_successors, hne, hi, instructiont.is_goto, instructiont.is_throw,
      instructiont.is_return, hk, at_pos]
  · simp [deref, at_pos, List.getLast?_eq_getElem?]
  · cases t with
    | mk o p =>
      simp only [at_pos, targett.mk.injEq] at *
      constructor
      · rintro ⟨_, h⟩
        omega
      · intro h
        exact ⟨ho.symm, by omega⟩

theorem get_successors_return_witness :
    example_successors.get_successors (p0 6) = .ok [p0 7] ∧
    example_successors.deref (p0 7) = example_successors.instructions.getLast? ∧
    (p0 7 = ⟨(p0 6).object, (p0 6).pos + 1⟩ ↔ 6 + 2 = 8) :=
  get_successors_return example_successors (p0 6)
    (example_instruction .RETURN .nil [] 6) (by rfl) (by rfl)

/-- C5: on an assume instruction `get_successors` returns exactly the next position when
the guard is not the literal constant false, and the empty list when it is. -/
theorem get_successors_assume (P : goto_programt) (t : targett) (i : instructiont)
    (hi : P.deref t = some i) (hk : i.type = .ASSUME) :
    (i.guard ≠ .constant_bool false → P.get_successors t = .ok [⟨t.object, t.pos + 1⟩]) ∧
    (i.guard = .constant_bool false → P.get_successors t = .ok []) := by
  have hne := deref_some_ne_end hi
  constructor
  · intro hg
    have hf : is_false i.guard = false := by
      cases hgd : i.guard with
      | constant_bool b =>
        cases b
        · exact absurd hgd hg
        · rfl
      | _ => rfl
    simp [get_successors, hne, hi, instructiont.is_goto, instructiont.is_throw,
      instructiont.is_return, instructiont.is_assume, hk, hf]
  · intro hg
    simp [get_successors, hne, hi, instructiont.is_goto, instructiont.is_throw,
      instructiont.is_return, instructiont.is_assume, hk, hg, is_false]

theorem get_successors_assume_witness :
    example_successors.get_successors (p0 4) = .ok [] :=
  (get_successors_assume example_successors (p0 4)
    (example_instruction .ASSUME (.constant_bool false) [] 4) (by rfl) (by rfl)).2 (by rfl)

/-- The mutable overload of `get_successors` returns no successor for a throw. -/
theorem get_successors_throw_mutable (P : goto_programt) (t : targett) (i : instructiont)
    (hi : P.deref t = some i) (hk : i.type = .THROW) :
    P.get_successors t = .ok [] := by
  have hne := deref_some_ne_end hi
  simp [get_successors, hne, hi, instructiont.is_goto, instructiont.is_throw, hk]

/-- C6 (failing input): in the body `0: THROW; 1: END_FUNCTION` the mutable overload of
`get_successors` returns no successor for the throw, while the const overload, which has no
branch for throw, returns the fall-through position 1. -/
theorem get_successors_const_throw_falls_through :
    (example_throw.deref (p0 0)).map (fun i => i.type) = some .THROW ∧
    example_throw.get_successors (p0 0) = .ok [] ∧
    example_throw.get_successors_const (p0 0) = .ok [p0 1] := by
  decide

/-- C7: on an instruction that is no goto, throw, return or assume, `get_successors`
returns exactly the next position, which is `end()` when the instruction is the last one;
asked about `end()` itself it returns the empty list. -/
theorem get_successors_other (P : goto_programt) :
    (∀ (t : targett) (i : instructiont), P.deref t = some i →
      i.type ≠ .GOTO → i.type ≠ .THROW → i.type ≠ .RETURN → i.type ≠ .ASSUME →
      P.get_successors t = .ok [⟨t.object, t.pos + 1⟩] ∧
      (t.pos + 1 = P.instructions.length → (⟨t.object, t.pos + 1⟩ : targett) = P.end_target)) ∧
    P.get_successors P.end_target = .ok [] := by
  constructor
  · intro t i hi h1 h2 h3 h4
    have hne := deref_some_ne_end hi
    obtain ⟨ho, _⟩ := deref_some_lt hi
    constructor
    · simp [get_successors, hne, hi, instructiont.is_goto, instructiont.is_throw,
        instructiont.is_return, instructiont.is_assume, h1, h2, h3, h4]
    · intro hl
      simp [end_target, ho, hl]
  · simp [get_successors]

theorem get_successors_other_witness :
    example_successors.get_successors (p0 0) = .ok [p0 1] ∧
    example_successors.get_successors (p0 7) = .ok [p0 8] ∧
    p0 8 = example_successors.end_target ∧
    example_successors.get_successors example_successors.end_target = .ok [] :=
  ⟨((get_successors_other example_successors).1 (p0 0)
      (example_instruction .SKIP .nil [] 0) (by rfl)
      (by decide) (by decide) (by decide) (by decide)).1,
   ((get_successors_other example_successors).1 (p0 7)
      (example_instruction .END_FUNCTION .nil [] 7) (by rfl)
      (by decide) (by decide) (by decide) (by decide)).1,
   ((get_successors_other example_successors).1 (p0 7)
      (example_instruction .END_FUNCTION .nil [] 7) (by rfl)
      (by decide) (by decide) (by decide) (by decide)).2 (by rfl),
   (get_successors_other example_successors).2⟩

end goto_programt

namespace goto_programt

/-! ### compute_target_numbers -/

theorem retargeted_refl (X : goto_programt) : retargeted X X (fun _ v => v) :=
  ⟨rfl, rfl, fun _ _ h => h⟩

theorem retargeted_congr {X Y : goto_programt} {f g : Nat → Nat → Nat}
    (h : retargeted X Y f)
    (hfg : ∀ k i, X.instructions[k]? = some i → f k i.target_number = g k i.target_number) :
    retargeted X Y g := by
  refine ⟨h.1, h.2.1, fun k i hk => ?_⟩
  rw [h.2.2 k i hk, hfg k i hk]

theorem mark_target_retargeted {X Y : goto_programt} {f : Nat → Nat → Nat} (t : targett)
    (h : retargeted X Y f) :
    retargeted X (mark_target Y t)
      (fun k v => if t = X.at_pos k then 0 else f k v) := by
  obtain ⟨ho, hl, hp⟩ := h
  unfold mark_target
  split
  · rename_i hend
    refine ⟨ho, hl, fun k i hk => ?_⟩
    have hlt : k < X.instructions.length := (List.getElem?_eq_some.mp hk).1
    have : t ≠ X.at_pos k := by
      rw [hend]; simp [end_target, at_pos, ho, hl]; omega
    simp [this, hp k i hk]
  · split
    · rename_i j hj
      obtain ⟨hjo, hjl⟩ := deref_some_lt hj
      refine ⟨ho, by simp [hl], fun k i hk => ?_⟩
      have hlt : k < X.instructions.length := (List.getElem?_eq_some.mp hk).1
      simp only [List.getElem?_set]
      by_cases hkt : t.pos = k
      · have ht : t = X.at_pos k := by
          cases t; simp [at_pos] at *; exact ⟨hjo.trans ho, hkt⟩
        have hj' : Y.instructions[k]? = some j := by
          simpa [deref, hjo, hkt] using hj
        rw [hp k i hk] at hj'
        cases hj'
        simp [hkt, ht, hl, hlt, at_pos]
      · have ht : t ≠ X.at_pos k := by
          intro h; apply hkt; rw [h]; rfl
        simp [hkt, ht, hp k i hk]
    · rename_i hj
      refine ⟨ho, hl, fun k i hk => ?_⟩
      have hlt : k < X.instructions.length := (List.getElem?_eq_some.mp hk).1
      have : t ≠ X.at_pos k := by
        intro h
        rw [h] at hj
        simp [deref, at_pos, ho, hp k i hk] at hj
      simp [this, hp k i hk]

theorem foldl_mark_target_retargeted {X : goto_programt} (ts : List targett) :
    ∀ (Y : goto_programt) (f : Nat → Nat → Nat), retargeted X Y f →
      retargeted X (ts.foldl mark_target Y)
        (fun k v => if ts.any (fun t => decide (t = X.at_pos k)) then 0 else f k v) := by
  induction ts with
  | nil =>
    intro Y f h
    simpa using h
  | cons t ts ih =>
    intro Y f h
    have h1 := ih (mark_target Y t) _ (mark_target_retargeted t h)
    refine retargeted_congr h1 (fun k i _ => ?_)
    by_cases h2 : t = X.at_pos k <;> simp [h2]

theorem mark_targets_prefix_retargeted (X : goto_programt) :
    ∀ j, j ≤ X.instructions.length →
      retargeted X ((List.range j).foldl mark_targets_of X)
        (fun k v => if referenced_by (X.instructions.take j) (X.at_pos k) then 0 else v) := by
  intro j
  induction j with
  | zero =>
    intro _
    simpa [referenced_by] using retargeted_refl X
  | succ j ih =>
    intro hj
    have hY := ih (by omega)
    rw [List.range_succ, List.foldl_append]
    simp only [List.foldl_cons, List.foldl_nil]
    have hjl : j < X.instructions.length := by omega
    have hXj : X.instructions[j]? = some X.instructions[j] := List.getElem?_eq_getElem hjl
    have hYj := hY.2.2 j _ hXj
    generalize List.foldl mark_targets_of X (List.range j) = Y at hY hYj
    unfold mark_targets_of
    rw [hYj]
    simp only
    have h1 := foldl_mark_target_retargeted (X.instructions[j]).targets _ _ hY
    refine retargeted_congr h1 (fun k i _ => ?_)
    have htake : X.instructions.take (j + 1) = X.instructions.take j ++ [X.instructions[j]] := by
      rw [List.take_succ, hXj]; rfl
    simp only [htake, referenced_by, List.any_append, List.any_cons, List.any_nil, Bool.or_false]
    cases h3 : (X.instructions[j]).targets.any (fun t => decide (t = X.at_pos k)) <;> simp [h3]

theorem mark_targets_retargeted (X : goto_programt) :
    retargeted X (mark_targets X) (fun k v => if referenced X k then 0 else v) := by
  have h := mark_targets_prefix_retargeted X X.instructions.length (le_refl _)
  simpa [mark_targets, referenced] using h

theorem countP_range_succ (q : Nat → Bool) (j : Nat) :
    (List.range (j + 1)).countP q = (List.range j).countP q + (if q j then 1 else 0) := by
  rw [List.range_succ, List.countP_append]
  simp [List.countP_cons]

theorem countP_range_mono (q : Nat → Bool) {a b : Nat} (h : a ≤ b) :
    (List.range a).countP q ≤ (List.range b).countP q := by
  induction b with
  | zero =>
    have : a = 0 := by omega
    subst this
    exact le_refl _
  | succ b ih =>
    by_cases hab : a = b + 1
    · subst hab
      exact le_refl _
    · have := ih (by omega)
      rw [countP_range_succ]
      omega

theorem countP_range_lt (q : Nat → Bool) {a b : Nat} (h : a < b) (hq : q b = true) :
    (List.range (a + 1)).countP q < (List.range (b + 1)).countP q := by
  have h1 : (List.range (a + 1)).countP q ≤ (List.range b).countP q :=
    countP_range_mono q (by omega)
  have h2 := countP_range_succ q b
  simp only [hq, if_true] at h2
  omega

theorem countP_take_eq_range {α : Type} (l : List α) (p : α → Bool) (q : Nat → Bool)
    (h : ∀ (k : Nat) (x : α), l[k]? = some x → p x = q k) :
    ∀ j, j ≤ l.length → (l.take j).countP p = (List.range j).countP q := by
  intro j
  induction j with
  | zero => intro _; simp
  | succ j ih =>
    intro hj
    have hjl : j < l.length := by omega
    have hlj : l[j]? = some l[j] := List.getElem?_eq_getElem hjl
    rw [List.take_succ, hlj, List.countP_append, countP_range_succ, ih (by omega)]
    simp [List.countP_cons, h j _ hlj]

theorem number_targets_ok :
    ∀ (l : List instructiont) (cnt : Nat) (l' : List instructiont), cnt < UINT_MOD →
      number_targets l cnt = .ok l' →
      cnt + l.countP (fun i => i.is_target) < UINT_MOD ∧ l'.length = l.length ∧
      ∀ (k : Nat) (i : instructiont), l[k]? = some i →
        l'[k]? = some { i with target_number :=
          if i.is_target then cnt + (l.take (k + 1)).countP (fun i => i.is_target)
          else i.target_number } := by
  intro l
  induction l with
  | nil =>
    intro cnt l' hc h
    simp [number_targets] at h
    subst h
    simp [hc]
  | cons it rest ih =>
    intro cnt l' hc h
    unfold number_targets at h
    by_cases ht : it.is_target = true
    · simp only [ht, if_true] at h
      by_cases hz : (cnt + 1) % UINT_MOD = 0
      · simp [hz] at h
      · simp only [hz, if_false] at h
        have hlt : cnt + 1 < UINT_MOD := by
          by_contra hge
          have : cnt + 1 = UINT_MOD := by omega
          rw [this] at hz
          simp at hz
        rw [Nat.mod_eq_of_lt hlt] at h
        cases hr : number_targets rest (cnt + 1) with
        | error e => simp [hr] at h
        | ok rest' =>
          simp only [hr, Except.ok.injEq] at h
          subst h
          obtain ⟨h1, h2, h3⟩ := ih (cnt + 1) rest' hlt hr
          refine ⟨?_, by simp [h2], ?_⟩
          · simp only [List.countP_cons, ht, if_true]
            omega
          · intro k i hk
            cases k with
            | zero =>
              simp only [List.getElem?_cons_zero, Option.some.injEq] at hk
              subst hk
              simp [ht, List.countP_cons]
            | succ k =>
              simp only [List.getElem?_cons_succ] at hk
              simp only [List.getElem?_cons_succ, h3 k i hk, List.take_succ_cons,
                List.countP_cons, ht, if_true]
              congr 2
              split <;> omega
    · have ht' : it.is_target = false := by simpa using ht
      simp only [ht', Bool.false_eq_true, if_false] at h
      cases hr : number_targets rest cnt with
      | error e => simp [hr] at h
      | ok rest' =>
        simp only [hr, Except.ok.injEq] at h
        subst h
        obtain ⟨h1, h2, h3⟩ := ih cnt rest' hc hr
        refine ⟨?_, by simp [h2], ?_⟩
        · simpa [List.countP_cons, ht] using h1
        · intro k i hk
          cases k with
          | zero =>
            simp only [List.getElem?_cons_zero, Option.some.injEq] at hk
            subst hk
            simp [ht]
          | succ k =>
            simp only [List.getElem?_cons_succ] at hk
            simp [h3 k i hk, List.countP_cons, ht]

theorem number_targets_total :
    ∀ (l : List instructiont) (cnt : Nat),
      cnt + l.countP (fun i => i.is_target) < UINT_MOD →
      ∃ l', number_targets l cnt = .ok l' := by
  intro l
  induction l with
  | nil => intro cnt _; exact ⟨[], rfl⟩
  | cons it rest ih =>
    intro cnt h
    unfold number_targets
    by_cases ht : it.is_target = true
    · simp only [List.countP_cons, ht, if_true] at h
      have hlt : cnt + 1 < UINT_MOD := by omega
      have hz : (cnt + 1) % UINT_MOD ≠ 0 := by
        rw [Nat.mod_eq_of_lt hlt]; omega
      obtain ⟨r, hr⟩ := ih (cnt + 1) (by omega)
      simp [ht, hz, Nat.mod_eq_of_lt hlt, hr]
    · simp only [List.countP_cons, ht] at h
      obtain ⟨r, hr⟩ := ih cnt (by simpa using h)
      simp [ht, hr]

theorem retargeted_inv {X Y : goto_programt} {f : Nat → Nat → Nat} (h : retargeted X Y f)
    {k : Nat} {y : instructiont} (hy : Y.instructions[k]? = some y) :
    ∃ i, X.instructions[k]? = some i ∧ y = { i with target_number := f k i.target_number } := by
  have hk : k < X.instructions.length := by
    rw [← h.2.1]; exact (List.getElem?_eq_some.mp hy).1
  refine ⟨X.instructions[k], List.getElem?_eq_getElem hk, ?_⟩
  have := h.2.2 k _ (List.getElem?_eq_getElem hk)
  rw [hy] at this
  exact Option.some.inj this

theorem retargeted_trans {X Y Z : goto_programt} {f g : Nat → Nat → Nat}
    (h1 : retargeted X Y f) (h2 : retargeted Y Z g) :
    retargeted X Z (fun k v => g k (f k v)) := by
  refine ⟨h2.1.trans h1.1, h2.2.1.trans h1.2.1, fun k i hk => ?_⟩
  have := h2.2.2 k _ (h1.2.2 k i hk)
  simpa using this

theorem reset_retargeted (P : goto_programt) :
    retargeted P { P with instructions := reset_target_numbers P.instructions }
      (fun _ _ => unset_target_number) := by
  refine ⟨rfl, by simp [reset_target_numbers], fun k i hk => ?_⟩
  simp [reset_target_numbers, hk]

theorem referenced_reset (P : goto_programt) (k : Nat) :
    referenced { P with instructions := reset_target_numbers P.instructions } k
      = referenced P k := by
  simp [referenced, referenced_by, reset_target_numbers, List.any_map, at_pos]
  rfl

/-- The program after the reset and the marking loops of `compute_target_numbers`. -/
theorem marked_retargeted (P : goto_programt) :
    retargeted P (marked_program P)
      (fun k _ => if referenced P k then 0 else unset_target_number) := by
  have h1 := reset_retargeted P
  have h2 := mark_targets_retargeted { P with instructions := reset_target_numbers P.instructions }
  show retargeted P (mark_targets _) _
  refine retargeted_congr (retargeted_trans h1 h2) (fun k i _ => ?_)
  simp only [referenced_reset]

theorem marked_is_target (P : goto_programt) (k : Nat) (x : instructiont)
    (hx : (marked_program P).instructions[k]? = some x) :
    x.is_target = referenced P k := by
  obtain ⟨i, _, rfl⟩ := retargeted_inv (marked_retargeted P) hx
  simp only [instructiont.is_target]
  cases referenced P k <;> simp [unset_target_number]

theorem marked_count (P : goto_programt) (j : Nat) (hj : j ≤ P.instructions.length) :
    ((marked_program P).instructions.take j).countP
        (fun i => i.is_target) = referenced_upto P j :=
  countP_take_eq_range _ _ _ (marked_is_target P) j
    (by rw [(marked_retargeted P).2.1]; exact hj)

theorem numbered_retargeted {P : goto_programt} {l : List instructiont}
    (h3 : number_targets (marked_program P).instructions 0 = .ok l) :
    retargeted P { object := P.object, instructions := l }
      (fun k _ => if referenced P k then referenced_upto P (k + 1) else unset_target_number) ∧
    referenced_upto P P.instructions.length < UINT_MOD := by
  have h12 := marked_retargeted P
  obtain ⟨hb, hlen, hp⟩ := number_targets_ok _ 0 l (by simp [UINT_MOD]) h3
  have hl2 := h12.2.1
  refine ⟨⟨rfl, hlen.trans hl2, fun k i hk => ?_⟩, ?_⟩
  · have hk2 := h12.2.2 k i hk
    have hklt : k < P.instructions.length := (List.getElem?_eq_some.mp hk).1
    simp only
    rw [hp k _ hk2, marked_is_target P k _ hk2, marked_count P (k + 1) (by omega)]
    by_cases hr : referenced P k = true <;> simp [hr]
  · have := marked_count P P.instructions.length (le_refl _)
    have htake : (marked_program P).instructions.take P.instructions.length
        = (marked_program P).instructions := by
      rw [← hl2]; exact List.take_length _
    rw [htake] at this
    rw [← this]
    simpa using hb

theorem numbered_total (P : goto_programt)
    (hm : referenced_upto P P.instructions.length < UINT_MOD) :
    ∃ l, number_targets (marked_program P).instructions 0 = .ok l := by
  apply number_targets_total
  have := marked_count P P.instructions.length (le_refl _)
  have htake : (marked_program P).instructions.take P.instructions.length
      = (marked_program P).instructions := by
    rw [← (marked_retargeted P).2.1]; exact List.take_length _
  rw [htake] at this
  rw [this]
  simpa using hm

theorem referenced_of_mem {P : goto_programt} {i : instructiont} {t : targett}
    (hi : i ∈ P.instructions) (ht : t ∈ i.targets) (ho : t.object = P.object) :
    referenced P t.pos = true := by
  simp only [referenced, referenced_by, List.any_eq_true, decide_eq_true_eq]
  exact ⟨i, hi, t, ht, by cases t; simp [at_pos] at *; exact ho⟩

theorem referenced_upto_pos {P : goto_programt} {k : Nat} (h : referenced P k = true) :
    1 ≤ referenced_upto P (k + 1) := by
  unfold referenced_upto
  rw [countP_range_succ]
  simp [h]

theorem check_targets_of_retargeted {P P3 : goto_programt}
    (h : retargeted P P3
      (fun k _ => if referenced P k then referenced_upto P (k + 1) else unset_target_number))
    (hc : targets_inside_or_end P = true)
    (hm : referenced_upto P P.instructions.length < unset_target_number) :
    check_targets P3 = true := by
  simp only [check_targets, List.all_eq_true]
  intro it hit t ht
  obtain ⟨k, hk⟩ := List.mem_iff_getElem?.mp hit
  obtain ⟨i, hi, rfl⟩ := retargeted_inv h hk
  simp only at ht
  have himem : i ∈ P.instructions := List.mem_iff_getElem?.mpr ⟨k, hi⟩
  simp only [targets_inside_or_end, List.all_eq_true, Bool.and_eq_true, decide_eq_true_eq] at hc
  obtain ⟨hto, htp⟩ := hc i himem t ht
  unfold check_target
  by_cases hend : t = P3.end_target
  · simp [hend]
  · simp only [hend, if_false]
    have hlt : t.pos < P.instructions.length := by
      rcases Nat.lt_or_ge t.pos P.instructions.length with h1 | h1
      · exact h1
      · exfalso
        apply hend
        cases t
        simp only [end_target, targett.mk.injEq, h.1, h.2.1] at *
        exact ⟨hto, by omega⟩
    have hd := h.2.2 t.pos _ (List.getElem?_eq_getElem hlt)
    have href := referenced_of_mem himem ht hto
    have h1 := referenced_upto_pos href
    have h2 : referenced_upto P (t.pos + 1) ≤ referenced_upto P P.instructions.length :=
      countP_range_mono _ (by omega)
    simp only [deref, hto, h.1, if_true, hd, href]
    simp only [Bool.and_eq_true, decide_eq_true_eq]
    constructor <;> omega

theorem compute_target_numbers_ok {P P' : goto_programt}
    (h : compute_target_numbers P = .ok P') :
    retargeted P P'
      (fun k _ => if referenced P k then referenced_upto P (k + 1) else unset_target_number) ∧
    referenced_upto P P.instructions.length < UINT_MOD ∧
    check_targets P' = true := by
  unfold compute_target_numbers at h
  simp only at h
  change (match number_targets (marked_program P).instructions 0 with
    | .error e => .error e
    | .ok l =>
      if check_targets { object := (marked_program P).object, instructions := l } = true
      then Except.ok { object := (marked_program P).object, instructions := l }
      else Except.error errort.assertion_failed) = Except.ok P' at h
  cases h3 : number_targets (marked_program P).instructions 0 with
  | error e => simp [h3] at h
  | ok l =>
    simp only [h3] at h
    obtain ⟨hr, hb⟩ := numbered_retargeted h3
    have hobj := (marked_retargeted P).1
    simp only at hobj
    rw [hobj] at h
    split at h
    · rename_i hc
      simp only [Except.ok.injEq] at h
      subst h
      exact ⟨hr, hb, hc⟩
    · simp at h

theorem compute_target_numbers_total (P : goto_programt)
    (hc : targets_inside_or_end P = true)
    (hm : referenced_upto P P.instructions.length < unset_target_number) :
    ∃ P', compute_target_numbers P = .ok P' := by
  obtain ⟨l, h3⟩ := numbered_total P (by simp only [UINT_MOD, unset_target_number] at *; omega)
  obtain ⟨hr, _⟩ := numbered_retargeted h3
  have hchk := check_targets_of_retargeted hr hc hm
  have hobj := (marked_retargeted P).1
  simp only at hobj
  refine ⟨{ object := P.object, instructions := l }, ?_⟩
  unfold compute_target_numbers
  simp only
  change (match number_targets (marked_program P).instructions 0 with
    | .error e => Except.error e
    | .ok l =>
      if check_targets { object := (marked_program P).object, instructions := l } = true
      then (Except.ok { object := (marked_program P).object, instructions := l } :
        Except errort goto_programt)
      else Except.error errort.assertion_failed) = _
  simp only [h3, hobj, hchk, if_true]

theorem countP_range_surj (q : Nat → Bool) :
    ∀ (n j : Nat), 1 ≤ j → j ≤ (List.range n).countP q →
      ∃ k, k < n ∧ q k = true ∧ (List.range (k + 1)).countP q = j := by
  intro n
  induction n with
  | zero =>
    intro j h1 h2
    simp at h2
    omega
  | succ n ih =>
    intro j h1 h2
    rw [countP_range_succ] at h2
    by_cases hq : q n = true
    · simp only [hq, if_true] at h2
      by_cases hj : j = (List.range n).countP q + 1
      · refine ⟨n, by omega, hq, ?_⟩
        rw [countP_range_succ]
        simp [hq, hj]
      · obtain ⟨k, hk, hqk, hc⟩ := ih j h1 (by omega)
        exact ⟨k, by omega, hqk, hc⟩
    · have hq' : q n = false := by simpa using hq
      simp only [hq', Bool.false_eq_true, if_false, Nat.add_zero] at h2
      obtain ⟨k, hk, hqk, hc⟩ := ih j h1 h2
      exact ⟨k, by omega, hqk, hc⟩

/-- C2: when every target reference of `P` points at an instruction of `P` or at its end
position, a completed run of `compute_target_numbers` gives the referenced instructions the
numbers 1, 2, ..., m in sequence order (the instruction at position `k` receives the count
of referenced positions up to `k`, and every number from 1 to m is received) and leaves the
unset sentinel on every other instruction; hence every instruction with `is_target()` has a
number in `[1, m]` that is neither 0 nor the sentinel, and no two of them share a number.
The run completes whenever m is below the sentinel value. -/
theorem compute_target_numbers_spec (P : goto_programt)
    (hc : targets_inside_or_end P = true) :
    (referenced_upto P P.instructions.length < unset_target_number →
      ∃ P', compute_target_numbers P = .ok P') ∧
    ∀ P', compute_target_numbers P = .ok P' →
      P'.instructions.length = P.instructions.length ∧
      (∀ (k : Nat) (i : instructiont), P'.instructions[k]? = some i →
        i.target_number =
          if referenced P k then referenced_upto P (k + 1) else unset_target_number) ∧
      (∀ (j : Nat), 1 ≤ j → j ≤ referenced_upto P P.instructions.length →
        ∃ (k : Nat) (i : instructiont), P'.instructions[k]? = some i ∧
          referenced P k = true ∧ i.target_number = j) ∧
      (∀ (k : Nat) (i : instructiont), P'.instructions[k]? = some i → i.is_target = true →
        1 ≤ i.target_number ∧ i.target_number ≤ referenced_upto P P.instructions.length ∧
        i.target_number ≠ unset_target_number ∧ i.target_number ≠ 0) ∧
      (∀ (k1 k2 : Nat) (i1 i2 : instructiont), P'.instructions[k1]? = some i1 →
        P'.instructions[k2]? = some i2 → i1.is_target = true → i2.is_target = true →
        i1.target_number = i2.target_number → k1 = k2) := by
  refine ⟨compute_target_numbers_total P hc, ?_⟩
  intro P' h
  obtain ⟨hr, _, _⟩ := compute_target_numbers_ok h
  have hnum : ∀ (k : Nat) (i : instructiont), P'.instructions[k]? = some i →
      i.target_number =
        if referenced P k then referenced_upto P (k + 1) else unset_target_number := by
    intro k i hk
    obtain ⟨i0, _, rfl⟩ := retargeted_inv hr hk
    rfl
  have hklt : ∀ (k : Nat) (i : instructiont), P'.instructions[k]? = some i →
      k < P.instructions.length := by
    intro k i hk
    rw [← hr.2.1]
    exact (List.getElem?_eq_some.mp hk).1
  have href : ∀ (k : Nat) (i : instructiont), P'.instructions[k]? = some i →
      i.is_target = true → referenced P k = true := by
    intro k i hk ht
    have := hnum k i hk
    by_contra hn
    simp only [hn, Bool.false_eq_true, if_false] at this
    simp [instructiont.is_target, this] at ht
  refine ⟨hr.2.1, hnum, ?_, ?_, ?_⟩
  · intro j h1 h2
    obtain ⟨k, hk, hq, hcnt⟩ := countP_range_surj (referenced P) _ j h1 h2
    have hk' : k < P'.instructions.length := by rw [hr.2.1]; exact hk
    refine ⟨k, P'.instructions[k], List.getElem?_eq_getElem hk', hq, ?_⟩
    rw [hnum k _ (List.getElem?_eq_getElem hk')]
    simp [hq, referenced_upto, hcnt]
  · intro k i hk ht
    have hq := href k i hk ht
    have hn := hnum k i hk
    simp only [hq, if_true] at hn
    have h1 := referenced_upto_pos hq
    have h2 : referenced_upto P (k + 1) ≤ referenced_upto P P.instructions.length :=
      countP_range_mono _ (by have := hklt k i hk; omega)
    refine ⟨by omega, by omega, ?_, by omega⟩
    simpa [instructiont.is_target] using ht
  · intro k1 k2 i1 i2 hk1 hk2 ht1 ht2 heq
    have hq1 := href k1 i1 hk1 ht1
    have hq2 := href k2 i2 hk2 ht2
    have hn1 := hnum k1 i1 hk1
    have hn2 := hnum k2 i2 hk2
    simp only [hq1, hq2, if_true] at hn1 hn2
    rcases Nat.lt_trichotomy k1 k2 with hlt | heq' | hgt
    · have := countP_range_lt (referenced P) hlt hq2
      simp only [referenced_upto] at hn1 hn2
      omega
    · exact heq'
    · have := countP_range_lt (referenced P) hgt hq1
      simp only [referenced_upto] at hn1 hn2
      omega

/-- The numbering of `example_numbering`: positions 0 and 3 are referenced. -/
theorem compute_target_numbers_example :
    (compute_target_numbers example_numbering).map
      (fun P => P.instructions.map (fun i => i.target_number)) =
      .ok [1, 4294967295, 4294967295, 2, 4294967295] := by
  decide

theorem compute_target_numbers_spec_witness :
    targets_inside_or_end example_numbering = true ∧
    referenced_upto example_numbering 5 < unset_target_number ∧
    ∃ P', compute_target_numbers example_numbering = .ok P' :=
  ⟨by decide, by decide,
   (compute_target_numbers_spec example_numbering (by decide)).1 (by decide)⟩

end goto_programt

namespace goto_programt

/-! ### copy_from -/

theorem targets_mapping_find_append (l1 l2 : List (targett × targett)) (t : targett) :
    targets_mapping_find (l1 ++ l2) t =
      (match targets_mapping_find l1 t with
       | some v => some v
       | none => targets_mapping_find l2 t) := by
  induction l1 with
  | nil => rfl
  | cons kv rest ih =>
    obtain ⟨k, v⟩ := kv
    by_cases h : k = t <;> simp [targets_mapping_find, h, ih]

theorem targets_mapping_find_eq (d s : objectt) (n : Nat) (t : targett) :
    targets_mapping_find (targets_mapping d s n) t =
      if t.object = s ∧ t.pos < n then some ⟨d, t.pos⟩ else none := by
  induction n with
  | zero => simp [targets_mapping, targets_mapping_find]
  | succ n ih =>
    have hsplit : targets_mapping d s (n + 1) =
        targets_mapping d s n ++ [((⟨s, n⟩ : targett), (⟨d, n⟩ : targett))] := by
      simp [targets_mapping, List.range_succ]
    rw [hsplit, targets_mapping_find_append, ih]
    cases t with
    | mk o p =>
      by_cases ho : o = s
      · by_cases hp : p < n
        · have : p < n + 1 := by omega
          simp [ho, hp, this]
        · by_cases hpn : p = n
          · simp [ho, hpn, targets_mapping_find]
          · have h1 : ¬ p < n + 1 := by omega
            have h2 : ¬ n = p := by omega
            simp [ho, hp, h1, h2, targets_mapping_find]
      · have : ¬ s = o := fun h => ho h.symm
        simp [ho, targets_mapping_find, this]

theorem remap_targets_ok (d s : objectt) (n : Nat) (ts : List targett)
    (h : ∀ t ∈ ts, t.object = s ∧ t.pos < n) :
    remap_targets (targets_mapping d s n) ts = .ok (ts.map (fun t => ⟨d, t.pos⟩)) := by
  induction ts with
  | nil => rfl
  | cons t rest ih =>
    have ht := h t (List.mem_cons_self _ _)
    have hr := ih (fun t' ht' => h t' (List.mem_cons_of_mem _ ht'))
    simp [remap_targets, targets_mapping_find_eq, ht, hr]

theorem remap_instructions_ok (d s : objectt) (n : Nat) (l : List instructiont)
    (h : ∀ i ∈ l, ∀ t ∈ i.targets, t.object = s ∧ t.pos < n) :
    remap_instructions (targets_mapping d s n) l =
      .ok (l.map (fun i => { i with targets := i.targets.map (fun t => ⟨d, t.pos⟩) })) := by
  induction l with
  | nil => rfl
  | cons i rest ih =>
    have hi := remap_targets_ok d s n i.targets (h i (List.mem_cons_self _ _))
    have hr := ih (fun i' hi' => h i' (List.mem_cons_of_mem _ hi'))
    simp [remap_instructions, hi, hr]

theorem copy_from_eq (dst src : goto_programt) (hin : targets_inside src = true)
    (hne : dst.object ≠ src.object) :
    copy_from dst src = compute_target_numbers (copied_program dst src) := by
  simp only [targets_inside, List.all_eq_true, Bool.and_eq_true, decide_eq_true_eq] at hin
  unfold copy_from
  simp only [hne, if_false]
  rw [remap_instructions_ok dst.object src.object _ src.instructions hin]
  rfl

theorem copied_program_inside (dst src : goto_programt) (hin : targets_inside src = true) :
    targets_inside_or_end (copied_program dst src) = true := by
  simp only [targets_inside, List.all_eq_true, Bool.and_eq_true, decide_eq_true_eq] at hin
  simp only [targets_inside_or_end, copied_program, List.all_eq_true, Bool.and_eq_true,
    decide_eq_true_eq, List.mem_map, List.length_map]
  rintro _ ⟨i, hi, rfl⟩ _ ht
  simp only [List.mem_map] at ht
  obtain ⟨t, ht, rfl⟩ := ht
  exact ⟨rfl, le_of_lt (hin i hi t ht).2⟩

theorem referenced_upto_le (P : goto_programt) (j : Nat) : referenced_upto P j ≤ j := by
  unfold referenced_upto
  have := List.countP_le_length (referenced P) (l := List.range j)
  simpa using this

/-- C1 (amended): when every target reference of `src` points at an instruction of `src`
and `dst` is another object than `src`, a completed `dst.copy_from(src)` yields a program
with as many instructions as `src`, the same kind at every position, and at every target slot the
instruction of the copy at the position that the slot of `src` pointed at; so every target
of the copy is an instruction of the copy and none is an instruction of `src`.  The call
completes whenever `src` has fewer instructions than the value of the unset sentinel. -/
theorem copy_from_spec (dst src : goto_programt) (hin : targets_inside src = true)
    (hne : dst.object ≠ src.object) :
    (src.instructions.length < unset_target_number → ∃ Q, copy_from dst src = .ok Q) ∧
    ∀ Q, copy_from dst src = .ok Q →
      Q.object = dst.object ∧
      Q.instructions.length = src.instructions.length ∧
      (∀ (k : Nat) (i : instructiont), src.instructions[k]? = some i →
        ∃ j, Q.instructions[k]? = some j ∧ j.type = i.type ∧
          j.targets.length = i.targets.length ∧
          ∀ (s p : Nat), i.targets[s]? = some (src.at_pos p) →
            j.targets[s]? = some (Q.at_pos p)) ∧
      (∀ j ∈ Q.instructions, ∀ t ∈ j.targets,
        (Q.deref t).isSome = true ∧ src.deref t = none) := by
  rw [copy_from_eq dst src hin hne]
  constructor
  · intro hlen
    apply compute_target_numbers_total _ (copied_program_inside dst src hin)
    have := referenced_upto_le (copied_program dst src) (copied_program dst src).instructions.length
    simp only [copied_program, List.length_map] at this ⊢
    omega
  · intro Q hQ
    obtain ⟨hr, _, _⟩ := compute_target_numbers_ok hQ
    have hobj : Q.object = dst.object := hr.1
    have hlen : Q.instructions.length = src.instructions.length := by
      rw [hr.2.1]; simp [copied_program]
    have hin' := hin
    simp only [targets_inside, List.all_eq_true, Bool.and_eq_true, decide_eq_true_eq] at hin'
    refine ⟨hobj, hlen, ?_, ?_⟩
    · intro k i hk
      have hck : (copied_program dst src).instructions[k]? =
          some { i with targets := i.targets.map (fun t => ⟨dst.object, t.pos⟩) } := by
        simp [copied_program, hk]
      refine ⟨_, hr.2.2 k _ hck, rfl, by simp, ?_⟩
      intro s p hs
      simp [hs, at_pos, hobj]
    · intro j hj t ht
      obtain ⟨k, hk⟩ := List.mem_iff_getElem?.mp hj
      obtain ⟨c, hc, rfl⟩ := retargeted_inv hr hk
      simp only at ht
      have hklt : k < src.instructions.length := by
        rw [← hlen]; exact (List.getElem?_eq_some.mp hk).1
      have hc' : c = { src.instructions[k] with
          targets := (src.instructions[k]).targets.map (fun t => ⟨dst.object, t.pos⟩) } := by
        have : (copied_program dst src).instructions[k]? = some _ := hc
        simp [copied_program, List.getElem?_eq_getElem hklt] at this
        exact this.symm
      rw [hc'] at ht
      simp only [List.mem_map] at ht
      obtain ⟨t0, ht0, rfl⟩ := ht
      have h0 := hin' _ (List.getElem_mem hklt) t0 ht0
      constructor
      · have : t0.pos < Q.instructions.length := by rw [hlen]; exact h0.2
        simp [deref, hobj, List.getElem?_eq_getElem this]
      · simp [deref, hne]

/-- The copy of `example_successors` into `example_destination`: kinds, remapped targets
and target numbers. -/
theorem copy_from_example :
    (copy_from example_destination example_successors).map
      (fun Q => (Q.object, Q.instructions.map (fun i => (i.type, i.targets, i.target_number)))) =
      .ok (.program 1,
        [ (.SKIP, [], 1),
          (.GOTO, [⟨.program 1, 0⟩], 4294967295),
          (.GOTO, [⟨.program 1, 0⟩], 4294967295),
          (.ASSUME, [], 4294967295),
          (.ASSUME, [], 4294967295),
          (.THROW, [], 4294967295),
          (.RETURN, [], 4294967295),
          (.END_FUNCTION, [], 4294967295) ]) := by
  rfl

theorem copy_from_spec_witness :
    targets_inside example_successors = true ∧
    example_destination.object ≠ example_successors.object ∧
    ∃ Q, copy_from example_destination example_successors = .ok Q :=
  ⟨by decide, by decide,
   (copy_from_spec example_destination example_successors (by decide) (by decide)).1
     (by decide)⟩

end goto_programt

namespace goto_programt

/-! ### compute_loop_numbers -/

theorem relooped_refl (X : goto_programt) : relooped X X (fun _ v => v) :=
  ⟨rfl, rfl, fun _ _ h => h⟩

theorem relooped_congr {X Y : goto_programt} {f g : Nat → Nat → Nat}
    (h : relooped X Y f)
    (hfg : ∀ (k : Nat) (i : instructiont), X.instructions[k]? = some i →
      f k i.loop_number = g k i.loop_number) :
    relooped X Y g := by
  refine ⟨h.1, h.2.1, fun k i hk => ?_⟩
  rw [h.2.2 k i hk, hfg k i hk]

theorem relooped_inv {X Y : goto_programt} {f : Nat → Nat → Nat} (h : relooped X Y f)
    {k : Nat} {y : instructiont} (hy : Y.instructions[k]? = some y) :
    ∃ i, X.instructions[k]? = some i ∧ y = { i with loop_number := f k i.loop_number } := by
  have hk : k < X.instructions.length := by
    rw [← h.2.1]; exact (List.getElem?_eq_some.mp hy).1
  refine ⟨X.instructions[k], List.getElem?_eq_getElem hk, ?_⟩
  have := h.2.2 k _ (List.getElem?_eq_getElem hk)
  rw [hy] at this
  exact Option.some.inj this

theorem relooped_deref {X Y : goto_programt} {f : Nat → Nat → Nat} (h : relooped X Y f)
    (t : targett) :
    Y.deref t = (X.deref t).map (fun i => { i with loop_number := f t.pos i.loop_number }) := by
  unfold deref
  rw [h.1]
  split
  · cases hx : X.instructions[t.pos]? with
    | none =>
      have : X.instructions.length ≤ t.pos := List.getElem?_eq_none_iff.mp hx
      have hy : Y.instructions[t.pos]? = none :=
        List.getElem?_eq_none_iff.mpr (by rw [h.2.1]; exact this)
      rw [hy]
      rfl
    | some i => simp [h.2.2 _ i hx]
  · rfl

theorem relooped_is_backwards_goto {X Y : goto_programt} {f : Nat → Nat → Nat}
    (h : relooped X Y f) (i : instructiont) (v : Nat) :
    Y.is_backwards_goto { i with loop_number := v } = X.is_backwards_goto i := by
  unfold is_backwards_goto
  simp only [instructiont.is_goto]
  split
  · split
    · rename_i t _
      rw [relooped_deref h t]
      cases X.deref t <;> rfl
    · rfl
  · rfl

theorem set_loop_number_relooped {X Y : goto_programt} {f : Nat → Nat → Nat}
    (h : relooped X Y f) (t : targett) (c : Nat) :
    (X.deref t = none → Y.set_loop_number t c = .error .invalid_iterator) ∧
    (∀ i, X.deref t = some i → ∃ Y', Y.set_loop_number t c = .ok Y' ∧
      relooped X Y' (fun x v => if x = t.pos then c else f x v)) := by
  unfold set_loop_number
  rw [relooped_deref h t]
  constructor
  · intro hn
    simp [hn]
  · intro i hi
    simp only [hi, Option.map_some']
    refine ⟨_, rfl, h.1, by simp [h.2.1], fun k j hk => ?_⟩
    obtain ⟨_, hlt⟩ := deref_some_lt hi
    simp only [List.getElem?_set]
    by_cases hkt : t.pos = k
    · subst hkt
      have : X.instructions[t.pos]? = some i := by
        have h' := hi
        simp only [deref, (deref_some_lt hi).1, if_true] at h'
        exact h' 
      rw [this] at hk
      cases hk
      rw [if_pos rfl, if_pos (by rw [h.2.1]; exact hlt), if_pos rfl]
    · have hkt' : ¬ k = t.pos := fun e => hkt e.symm
      simp [hkt, hkt', h.2.2 k j hk]

theorem deref_some_getElem {P : goto_programt} {t : targett} {i : instructiont}
    (h : P.deref t = some i) : P.instructions[t.pos]? = some i := by
  have h' := h
  simp only [deref, (deref_some_lt h).1, if_true] at h'
  exact h'

theorem deref_at_pos (P : goto_programt) (k : Nat) :
    P.deref (P.at_pos k) = P.instructions[k]? := by
  simp [deref, at_pos]

theorem is_backwards_goto_true {P : goto_programt} {i : instructiont}
    (h : P.is_backwards_goto i = .ok true) :
    i.type = .GOTO ∧ ∃ t ti, i.targets = [t] ∧ P.deref t = some ti ∧
      ti.location_number ≤ i.location_number := by
  unfold is_backwards_goto at h
  simp only [instructiont.is_goto] at h
  split at h
  · rename_i hg
    split at h
    · rename_i t ht
      cases hd : P.deref t with
      | none => simp [hd] at h
      | some ti =>
        simp only [hd, Except.ok.injEq, decide_eq_true_eq] at h
        exact ⟨by simpa using hg, t, ti, ht, hd, h⟩
    · simp at h
  · simp at h

theorem for_positions_append {σ : Type} (body : σ → Nat → Except errort σ)
    (l1 l2 : List Nat) (s : σ) :
    for_positions body (l1 ++ l2) s =
      (match for_positions body l1 s with
       | .error e => .error e
       | .ok s' => for_positions body l2 s') := by
  induction l1 generalizing s with
  | nil => rfl
  | cons k ks ih =>
    simp only [List.cons_append, for_positions]
    cases body s k with
    | error e => rfl
    | ok s' => exact ih s'

theorem compute_loop_numbers_body_spec {P Y : goto_programt} {f : Nat → Nat → Nat}
    (h : relooped P Y f) (c m : Nat) (i : instructiont) (hi : P.instructions[m]? = some i) :
    (∀ e, P.is_backwards_goto i = .error e →
      compute_loop_numbers_body (Y, c) m = .error e) ∧
    (P.is_backwards_goto i = .ok false → compute_loop_numbers_body (Y, c) m = .ok (Y, c)) ∧
    (P.is_backwards_goto i = .ok true →
      ∃ Y2, compute_loop_numbers_body (Y, c) m = .ok (Y2, (c + 1) % UINT_MOD) ∧
        relooped P Y2 (fun x v =>
          if x = m ∨ first_target P m = some (P.at_pos x) then c else f x v)) := by
  have hY := h.2.2 m i hi
  have hb := relooped_is_backwards_goto h i (f m i.loop_number)
  refine ⟨?_, ?_, ?_⟩
  · intro e he
    simp only [compute_loop_numbers_body, hY, hb, he]
  · intro he
    simp only [compute_loop_numbers_body, hY, hb, he]
  · intro he
    obtain ⟨_, t, ti, ht, hd, _⟩ := is_backwards_goto_true he
    obtain ⟨Y1, hY1, hr1⟩ := (set_loop_number_relooped h t c).2 ti hd
    have hdm : P.deref (Y.at_pos m) = some i := by
      have : Y.at_pos m = P.at_pos m := by simp [at_pos, h.1]
      rw [this, deref_at_pos]; exact hi
    obtain ⟨Y2, hY2, hr2⟩ := (set_loop_number_relooped hr1 (Y.at_pos m) c).2 i hdm
    refine ⟨Y2, ?_, ?_⟩
    · simp only [compute_loop_numbers_body, hY, hb, he]
      simp only [ht, List.head?_cons, hY1, hY2]
    · refine relooped_congr hr2 (fun x j _ => ?_)
      have hft : first_target P m = some t := by simp [first_target, hi, ht]
      have hto := (deref_some_lt hd).1
      have heq : (first_target P m = some (P.at_pos x)) ↔ x = t.pos := by
        rw [hft]
        cases t
        simp only [at_pos, Option.some.injEq, targett.mk.injEq] at *
        constructor
        · intro h; exact h.2.symm
        · intro h; exact ⟨hto, h.symm⟩
      simp only [heq]
      simp only [at_pos]
      by_cases h1 : x = m <;> by_cases h2 : x = t.pos <;> simp [h1, h2]

theorem compute_loop_numbers_prefix (P : goto_programt) (num : Nat) (hnum : num < UINT_MOD) :
    ∀ m, m ≤ P.instructions.length →
      (∃ Y, for_positions compute_loop_numbers_body (List.range m) (P, num) =
          .ok (Y, (num + back_edges_before P m) % UINT_MOD) ∧
        relooped P Y (loop_number_after P num m)) ∨
      (∃ e, for_positions compute_loop_numbers_body (List.range m) (P, num) = .error e ∧
        ∃ k i e', k < m ∧ P.instructions[k]? = some i ∧ P.is_backwards_goto i = .error e') := by
  intro m
  induction m with
  | zero =>
    intro _
    left
    refine ⟨P, ?_, relooped_refl P⟩
    simp [for_positions, back_edges_before, Nat.mod_eq_of_lt hnum]
  | succ m ih =>
    intro hm
    have hml : m < P.instructions.length := by omega
    have hi : P.instructions[m]? = some P.instructions[m] := List.getElem?_eq_getElem hml
    rw [List.range_succ, for_positions_append]
    rcases ih (by omega) with ⟨Y, hY, hr⟩ | ⟨e, he, k, i, e', hk, hki, hke⟩
    · rw [hY]
      simp only [for_positions]
      obtain ⟨h1, h2, h3⟩ := compute_loop_numbers_body_spec hr
        ((num + back_edges_before P m) % UINT_MOD) m _ hi
      have hbe : is_back_edge P m = decide (P.is_backwards_goto P.instructions[m] = .ok true) := by
        simp [is_back_edge, hi]
      cases hb : P.is_backwards_goto P.instructions[m] with
      | error e =>
        right
        refine ⟨e, by rw [h1 e hb], m, _, e, by omega, hi, hb⟩
      | ok b =>
        left
        cases b with
        | false =>
          rw [h2 hb]
          have hbe' : is_back_edge P m = false := by rw [hbe, hb]; decide
          refine ⟨Y, ?_, ?_⟩
          · simp [back_edges_before, countP_range_succ, hbe']
          · refine relooped_congr hr (fun x j _ => ?_)
            simp [loop_number_after, hbe']
        | true =>
          obtain ⟨Y2, hY2, hr2⟩ := h3 hb
          rw [hY2]
          have hbe' : is_back_edge P m = true := by rw [hbe, hb]; decide
          refine ⟨Y2, ?_, ?_⟩
          · simp only [back_edges_before, countP_range_succ, hbe', if_true]
            rw [← Nat.add_assoc]
            simp
          · refine relooped_congr hr2 (fun x j _ => ?_)
            simp [loop_number_after, hbe', back_edges_before]
    · right
      rw [he]
      exact ⟨e, rfl, k, i, e', by omega, hki, hke⟩

theorem location_number_eq {P : goto_programt} {nr : Nat}
    (hloc : location_numbers_up_to_date P nr = true) (k : Nat) (i : instructiont)
    (hi : P.instructions[k]? = some i) : i.location_number = nr + k := by
  simp only [location_numbers_up_to_date, decide_eq_true_eq] at hloc
  have hk : k < P.instructions.length := (List.getElem?_eq_some.mp hi).1
  have h1 : (P.instructions.map (fun i => i.location_number))[k]? = some i.location_number := by
    simp [hi]
  rw [hloc] at h1
  simp only [List.getElem?_map, List.getElem?_range hk, Option.map_some',
    Option.some.injEq] at h1
  exact h1.symm

theorem back_edge_iff {P : goto_programt} {nr : Nat}
    (hloc' : location_numbers_up_to_date P nr = true) (b h : Nat) :
    (is_back_edge P b = true ∧ first_target P b = some (P.at_pos h)) ↔ back_edge_to P b h := by
  have hloc := location_number_eq hloc'
  constructor
  · rintro ⟨hb, hf⟩
    unfold is_back_edge at hb
    cases hi : P.instructions[b]? with
    | none => simp [hi] at hb
    | some i =>
      simp only [hi, decide_eq_true_eq] at hb
      obtain ⟨hg, t, ti, ht, hd, hle⟩ := is_backwards_goto_true hb
      simp only [first_target, hi, ht, List.head?_cons, Option.some.injEq] at hf
      subst hf
      refine ⟨i, hi, hg, ht, ?_⟩
      have h1 := hloc _ _ (deref_some_getElem hd)
      have h2 := hloc _ _ hi
      simp only [at_pos] at h1
      omega
  · rintro ⟨i, hi, hg, ht, hle⟩
    have hb : b < P.instructions.length := (List.getElem?_eq_some.mp hi).1
    have hh : h < P.instructions.length := by omega
    have hih : P.instructions[h]? = some P.instructions[h] := List.getElem?_eq_getElem hh
    have h1 := hloc _ _ hih
    have h2 := hloc _ _ hi
    constructor
    · simp only [is_back_edge, hi, decide_eq_true_eq, is_backwards_goto, instructiont.is_goto,
        hg, decide_True, if_true, ht, deref_at_pos, hih]
      simp only [Except.ok.injEq, decide_eq_true_eq]
      omega
    · simp [first_target, hi, ht]

theorem loop_number_after_succ (P : goto_programt) (num m x old : Nat) :
    loop_number_after P num (m + 1) x old =
      if is_back_edge P m && (decide (x = m) || decide (first_target P m = some (P.at_pos x)))
      then (num + back_edges_before P m) % UINT_MOD
      else loop_number_after P num m x old := rfl

theorem loop_number_after_stable (P : goto_programt) (num x old b : Nat) :
    ∀ m, b ≤ m →
      (∀ k, b ≤ k → k < m → ¬ (is_back_edge P k = true ∧
        (x = k ∨ first_target P k = some (P.at_pos x)))) →
      loop_number_after P num m x old = loop_number_after P num b x old := by
  intro m
  induction m with
  | zero =>
    intro hb _
    have : b = 0 := by omega
    subst this
    rfl
  | succ m ih =>
    intro hb hno
    by_cases hbm : b = m + 1
    · subst hbm
      rfl
    · have hm := hno m (by omega) (by omega)
      have hrec := ih (by omega) (fun k h1 h2 => hno k h1 (by omega))
      rw [← hrec, loop_number_after_succ]
      split
      · rename_i hc
        simp only [Bool.and_eq_true, Bool.or_eq_true, decide_eq_true_eq] at hc
        exact absurd hc hm
      · rfl

theorem loop_number_after_touch (P : goto_programt) (num x old b : Nat)
    (hb : is_back_edge P b = true)
    (hx : x = b ∨ first_target P b = some (P.at_pos x)) :
    loop_number_after P num (b + 1) x old = (num + back_edges_before P b) % UINT_MOD := by
  rw [loop_number_after_succ]
  split
  · rfl
  · rename_i hc
    simp only [Bool.and_eq_true, Bool.or_eq_true, decide_eq_true_eq] at hc
    exact absurd ⟨hb, hx⟩ hc

theorem is_backwards_goto_inside {P : goto_programt} (hin : targets_inside P = true)
    {i : instructiont} (hi : i ∈ P.instructions) :
    ∃ b, P.is_backwards_goto i = .ok b := by
  simp only [targets_inside, List.all_eq_true, Bool.and_eq_true, decide_eq_true_eq] at hin
  unfold is_backwards_goto
  split
  · split
    · rename_i t ht
      have := hin i hi t (by simp [ht])
      simp only [deref, this.1, if_true, List.getElem?_eq_getElem this.2]
      exact ⟨_, rfl⟩
    · exact ⟨_, rfl⟩
  · exact ⟨_, rfl⟩

theorem compute_loop_numbers_result {P P' : goto_programt} {num num' : Nat}
    (hnum : num < UINT_MOD) (h : compute_loop_numbers P num = .ok (P', num')) :
    num' = (num + back_edges_before P P.instructions.length) % UINT_MOD ∧
    relooped P P' (loop_number_after P num P.instructions.length) := by
  unfold compute_loop_numbers at h
  rcases compute_loop_numbers_prefix P num hnum _ (le_refl _) with ⟨Y, hY, hr⟩ | ⟨e, he, _⟩
  · rw [hY] at h
    simp only [Except.ok.injEq, Prod.mk.injEq] at h
    obtain ⟨rfl, rfl⟩ := h
    exact ⟨rfl, hr⟩
  · rw [he] at h
    cases h

theorem compute_loop_numbers_total (P : goto_programt) (num : Nat) (hnum : num < UINT_MOD)
    (hin : targets_inside P = true) :
    ∃ r, compute_loop_numbers P num = .ok r := by
  unfold compute_loop_numbers
  rcases compute_loop_numbers_prefix P num hnum _ (le_refl _) with
    ⟨Y, hY, _⟩ | ⟨e, _, k, i, e', _, hki, hke⟩
  · exact ⟨_, hY⟩
  · obtain ⟨b, hb⟩ := is_backwards_goto_inside hin (List.mem_iff_getElem?.mpr ⟨k, hki⟩)
    rw [hb] at hke
    cases hke

theorem is_back_edge_lt {P : goto_programt} {b : Nat} (h : is_back_edge P b = true) :
    b < P.instructions.length := by
  unfold is_back_edge at h
  cases hi : P.instructions[b]? with
  | none => simp [hi] at h
  | some i => exact (List.getElem?_eq_some.mp hi).1

theorem is_back_edge_iff {P : goto_programt} {nr : Nat}
    (hloc : location_numbers_up_to_date P nr = true) (b : Nat) :
    is_back_edge P b = true ↔ ∃ h, back_edge_to P b h := by
  constructor
  · intro hb
    have hb' := hb
    unfold is_back_edge at hb'
    cases hi : P.instructions[b]? with
    | none => simp [hi] at hb'
    | some i =>
      simp only [hi, decide_eq_true_eq] at hb'
      obtain ⟨_, t, ti, ht, hd, _⟩ := is_backwards_goto_true hb'
      refine ⟨t.pos, (back_edge_iff hloc b t.pos).mp ⟨hb, ?_⟩⟩
      have hto := (deref_some_lt hd).1
      cases t
      simp only [first_target, hi, ht, List.head?_cons, at_pos, Option.some.injEq,
        targett.mk.injEq] at *
      exact ⟨hto, trivial⟩
  · rintro ⟨h, hbh⟩
    exact ((back_edge_iff hloc b h).mpr hbh).1

/-- C8 (as stated, refuted): in `0: SKIP; 1: IF g THEN GOTO 0; 2: GOTO 0`, numbered 0, 1, 2,
`compute_loop_numbers` started with counter 0 leaves the back-edge at position 1 with loop
number 0 while its target, position 0, carries loop number 1. -/
theorem compute_loop_numbers_shared_header :
    location_numbers_up_to_date example_shared_header 0 = true ∧
    example_shared_header.instructions.map (fun i => (i.type, i.targets)) =
      [(.SKIP, []), (.GOTO, [p0 0]), (.GOTO, [p0 0])] ∧
    (List.range 3).map (is_back_edge example_shared_header) = [false, true, true] ∧
    (compute_loop_numbers example_shared_header 0).map
      (fun r => (r.1.instructions.map (fun i => i.loop_number), r.2)) = .ok ([1, 0, 1], 2) := by
  decide

/-- C8 (amended): with up-to-date location numbers and any counter value `num` of type
`unsigned`, after `compute_loop_numbers` a back-edge at position `b` with target `h` carries
the same loop number as its target, provided no back-edge after `b` has `h` or `b` as its
target; the run completes when every target is an instruction of the program. -/
theorem compute_loop_numbers_back_edge_target (P : goto_programt) (num nr : Nat)
    (hloc : location_numbers_up_to_date P nr = true) (hnum : num < UINT_MOD) :
    (targets_inside P = true → ∃ r, compute_loop_numbers P num = .ok r) ∧
    ∀ (P' : goto_programt) (num' : Nat), compute_loop_numbers P num = .ok (P', num') →
      ∀ (b h : Nat), back_edge_to P b h →
        (∀ (b' h' : Nat), b < b' → back_edge_to P b' h' → h' ≠ h ∧ h' ≠ b) →
        ∃ jb jh, P'.instructions[b]? = some jb ∧ P'.instructions[h]? = some jh ∧
          jb.loop_number = jh.loop_number := by
  refine ⟨compute_loop_numbers_total P num hnum, ?_⟩
  intro P' num' hrun b h hbh hlater
  obtain ⟨_, hr⟩ := compute_loop_numbers_result hnum hrun
  obtain ⟨hbe, hft⟩ := (back_edge_iff hloc b h).mpr hbh
  obtain ⟨ib, hib, _, _, hle⟩ := hbh
  have hbl : b < P.instructions.length := (List.getElem?_eq_some.mp hib).1
  have hhl : h < P.instructions.length := by omega
  have hih : P.instructions[h]? = some P.instructions[h] := List.getElem?_eq_getElem hhl
  refine ⟨_, _, hr.2.2 b ib hib, hr.2.2 h _ hih, ?_⟩
  simp only
  have hsb : ∀ old, loop_number_after P num P.instructions.length b old =
      loop_number_after P num (b + 1) b old := by
    intro old
    apply loop_number_after_stable _ _ _ _ _ _ (by omega)
    rintro k hk1 _ ⟨hk, hx⟩
    rcases hx with hx | hx
    · omega
    · exact (hlater k b (by omega) ((back_edge_iff hloc k b).mp ⟨hk, hx⟩)).2 rfl
  have hsh : ∀ old, loop_number_after P num P.instructions.length h old =
      loop_number_after P num (b + 1) h old := by
    intro old
    apply loop_number_after_stable _ _ _ _ _ _ (by omega)
    rintro k hk1 _ ⟨hk, hx⟩
    rcases hx with hx | hx
    · omega
    · exact (hlater k h (by omega) ((back_edge_iff hloc k h).mp ⟨hk, hx⟩)).1 rfl
  rw [hsb, hsh, loop_number_after_touch P num b _ b hbe (Or.inl rfl),
    loop_number_after_touch P num h _ b hbe (Or.inr hft)]

theorem compute_loop_numbers_back_edge_target_witness :
    location_numbers_up_to_date example_shared_header 0 = true ∧
    targets_inside example_shared_header = true ∧
    back_edge_to example_shared_header 2 0 ∧
    (∃ r, compute_loop_numbers example_shared_header 7 = .ok r) ∧
    ∀ (P' : goto_programt) (num' : Nat),
      compute_loop_numbers example_shared_header 7 = .ok (P', num') →
      ∃ jb jh, P'.instructions[2]? = some jb ∧ P'.instructions[0]? = some jh ∧
        jb.loop_number = jh.loop_number :=
  ⟨by decide, by decide, ⟨_, rfl, rfl, rfl, by decide⟩,
   (compute_loop_numbers_back_edge_target example_shared_header 7 0 (by decide)
      (by decide)).1 (by decide),
   fun P' num' hrun =>
    (compute_loop_numbers_back_edge_target example_shared_header 7 0 (by decide)
      (by decide)).2 P' num' hrun 2 0 ⟨_, rfl, rfl, rfl, by decide⟩
      (fun b' h' hlt hb' => by
        obtain ⟨i, hi, _⟩ := hb'
        have := (List.getElem?_eq_some.mp hi).1
        simp only [example_shared_header, List.length_cons, List.length_nil] at this
        omega)⟩

/-- C9 (as stated, refuted): in `0: SKIP; 1: IF g THEN GOTO 0; 2: GOTO 1`, numbered 0, 1, 2,
`compute_loop_numbers` started with counter 0 leaves the first back-edge (position 1) with
loop number 1, not 0; started with counter 4294967295 it ends with counter 1, not
4294967297. -/
theorem compute_loop_numbers_nested_back_edges :
    location_numbers_up_to_date example_nested_back_edges 0 = true ∧
    example_nested_back_edges.instructions.map (fun i => (i.type, i.targets)) =
      [(.SKIP, []), (.GOTO, [p0 0]), (.GOTO, [p0 1])] ∧
    (List.range 3).map (is_back_edge example_nested_back_edges) = [false, true, true] ∧
    (compute_loop_numbers example_nested_back_edges 0).map
      (fun r => (r.1.instructions.map (fun i => i.loop_number), r.2)) = .ok ([0, 1, 1], 2) ∧
    (compute_loop_numbers example_nested_back_edges 4294967295).map
      (fun r => (r.1.instructions.map (fun i => i.loop_number), r.2)) =
        .ok ([4294967295, 0, 0], 1) := by
  decide

/-- C9 (amended): after `compute_loop_numbers` started with counter `num` (an `unsigned`)
on a program with `k` back-edges the counter is `(num + k) mod 2^32`; a back-edge preceded
by `r` back-edges that is not the target of a later back-edge has loop number
`(num + r) mod 2^32`; an instruction that is neither a back-edge nor the target of a
back-edge is unchanged.  The run completes when every target is an instruction of the
program. -/
theorem compute_loop_numbers_order (P : goto_programt) (num : Nat) (hnum : num < UINT_MOD) :
    (targets_inside P = true → ∃ r, compute_loop_numbers P num = .ok r) ∧
    ∀ (P' : goto_programt) (num' : Nat), compute_loop_numbers P num = .ok (P', num') →
      num' = (num + back_edges_before P P.instructions.length) % UINT_MOD ∧
      (∀ (b : Nat), is_back_edge P b = true →
        (∀ (b' : Nat), b < b' → is_back_edge P b' = true →
          first_target P b' ≠ some (P.at_pos b)) →
        ∃ jb, P'.instructions[b]? = some jb ∧
          jb.loop_number = (num + back_edges_before P b) % UINT_MOD) ∧
      (∀ (x : Nat) (ix : instructiont), P.instructions[x]? = some ix →
        is_back_edge P x = false →
        (∀ (b : Nat), is_back_edge P b = true → first_target P b ≠ some (P.at_pos x)) →
        P'.instructions[x]? = some ix) := by
  refine ⟨compute_loop_numbers_total P num hnum, ?_⟩
  intro P' num' hrun
  obtain ⟨hcnt, hr⟩ := compute_loop_numbers_result hnum hrun
  refine ⟨hcnt, ?_, ?_⟩
  · intro b hbe hlater
    have hbl : b < P.instructions.length := is_back_edge_lt hbe
    have hib : P.instructions[b]? = some P.instructions[b] := List.getElem?_eq_getElem hbl
    refine ⟨_, hr.2.2 b _ hib, ?_⟩
    simp only
    rw [loop_number_after_stable P num b _ (b + 1) _ (by omega),
      loop_number_after_touch P num b _ b hbe (Or.inl rfl)]
    rintro k hk1 _ ⟨hk, hx⟩
    rcases hx with hx | hx
    · omega
    · exact hlater k (by omega) hk hx
  · intro x ix hix hnb hno
    rw [hr.2.2 x ix hix]
    have : loop_number_after P num P.instructions.length x ix.loop_number = ix.loop_number := by
      rw [loop_number_after_stable P num x _ 0 _ (Nat.zero_le _)]
      · rfl
      · rintro k _ _ ⟨hk, hx⟩
        rcases hx with hx | hx
        · subst hx
          rw [hk] at hnb
          cases hnb
        · exact hno k hk hx
    rw [this]

theorem compute_loop_numbers_order_witness :
    targets_inside example_nested_back_edges = true ∧
    back_edges_before example_nested_back_edges 3 = 2 ∧
    back_edges_before example_nested_back_edges 2 = 1 ∧
    is_back_edge example_nested_back_edges 2 = true ∧
    (∃ r, compute_loop_numbers example_nested_back_edges 4294967295 = .ok r) ∧
    ∀ (P' : goto_programt) (num' : Nat),
      compute_loop_numbers example_nested_back_edges 4294967295 = .ok (P', num') →
      num' = (4294967295 + 2) % UINT_MOD ∧
      ∃ jb, P'.instructions[2]? = some jb ∧ jb.loop_number = (4294967295 + 1) % UINT_MOD :=
  ⟨by decide, by decide, by decide, by decide,
   (compute_loop_numbers_order example_nested_back_edges 4294967295 (by decide)).1 (by decide),
   fun P' num' hrun =>
    ⟨((compute_loop_numbers_order example_nested_back_edges 4294967295
        (by decide)).2 P' num' hrun).1,
     ((compute_loop_numbers_order example_nested_back_edges 4294967295
        (by decide)).2 P' num' hrun).2.1 2 (by decide)
        (fun b' hlt hb' => by
          have := is_back_edge_lt hb'
          simp only [example_nested_back_edges, List.length_cons, List.length_nil] at this
          omega)⟩⟩

end goto_programt

/-! ### find_function_loops -/

theorem for_positions_invariant {σ : Type} (body : σ → Nat → Except errort σ)
    (Inv : σ → Prop) (l : List Nat)
    (hstep : ∀ (s : σ) (k : Nat) (s' : σ), k ∈ l → Inv s → body s k = .ok s' → Inv s') :
    ∀ (s s' : σ), Inv s → for_positions body l s = .ok s' → Inv s' := by
  induction l with
  | nil =>
    intro s s' hs h
    simp only [for_positions, Except.ok.injEq] at h
    exact h ▸ hs
  | cons k ks ih =>
    intro s s' hs h
    simp only [for_positions] at h
    cases hb : body s k with
    | error e => simp [hb] at h
    | ok s1 =>
      simp only [hb] at h
      exact ih (fun s k' s' hk' => hstep s k' s' (List.mem_cons_of_mem _ hk')) s1 s'
        (hstep s k s1 (List.mem_cons_self _ _) hs hb) h

theorem for_positions_total {σ : Type} (body : σ → Nat → Except errort σ)
    (Inv : σ → Prop) (l : List Nat)
    (hstep : ∀ (s : σ) (k : Nat), k ∈ l → Inv s → ∃ s', body s k = .ok s' ∧ Inv s') :
    ∀ (s : σ), Inv s → ∃ s', for_positions body l s = .ok s' ∧ Inv s' := by
  induction l with
  | nil =>
    intro s hs
    exact ⟨s, rfl, hs⟩
  | cons k ks ih =>
    intro s hs
    obtain ⟨s1, hb, hs1⟩ := hstep s k (List.mem_cons_self _ _) hs
    obtain ⟨s', h', hs'⟩ := ih (fun s k' hk' => hstep s k' (List.mem_cons_of_mem _ hk')) s1 hs1
    exact ⟨s', by simp only [for_positions, hb, h'], hs'⟩

theorem copy_loop_body_original
    (visit : instructiont → List String → Except errort (List String)) (loop_exit : targett) :
    ∀ (rest : List instructiont) (it : targett) (loop l : loopst),
      copy_loop_body visit loop_exit rest it loop = .ok l →
      l.original_loop_head = loop.original_loop_head ∧
      l.original_loop_exit = loop.original_loop_exit := by
  intro rest
  induction rest with
  | nil =>
    intro it loop l h
    simp only [copy_loop_body] at h
    split at h
    · simp only [Except.ok.injEq] at h
      subst h
      exact ⟨rfl, rfl⟩
    · cases h
  | cons i rest ih =>
    intro it loop l h
    simp only [copy_loop_body] at h
    split at h
    · simp only [Except.ok.injEq] at h
      subst h
      exact ⟨rfl, rfl⟩
    · cases hv : visit i loop.modified_loop_vars with
      | error e => simp [hv] at h
      | ok vars =>
        simp only [hv] at h
        have h2 := ih _ _ l h
        exact h2

theorem function_loops_store_mem (table : List (targett × loopst)) (h : targett) (l : loopst) :
    ∀ e ∈ function_loops_store table h l, e ∈ table ∨ e = (h, l) := by
  induction table with
  | nil =>
    intro e he
    simp only [function_loops_store, List.mem_singleton] at he
    exact Or.inr he
  | cons kv rest ih =>
    obtain ⟨k, v⟩ := kv
    intro e he
    simp only [function_loops_store] at he
    split at he
    · rename_i hk
      rcases List.mem_cons.mp he with he | he
      · right; rw [he, hk]
      · left; exact List.mem_cons_of_mem _ he
    · rcases List.mem_cons.mp he with he | he
      · left; rw [he]; exact List.mem_cons_self _ _
      · rcases ih e he with h1 | h1
        · left; exact List.mem_cons_of_mem _ h1
        · right; exact h1

theorem create_function_loop_ok {check_var_name : String → Bool} {fuel : Nat}
    {self self' : goto_loopst} {loop_head loop_exit : targett}
    (h : create_function_loop check_var_name fuel self loop_head loop_exit = .ok self') :
    self'.goto_function = self.goto_function ∧
    self'.function_name = self.function_name ∧
    self'.function_map = self.function_map ∧
    ∃ l, self'.function_loops = function_loops_store self.function_loops loop_head l ∧
      l.original_loop_head = loop_head ∧ l.original_loop_exit = loop_exit := by
  unfold create_function_loop at h
  simp only at h
  split at h
  · cases h
  · split at h
    · cases h
    · rename_i l hl
      split at h
      · cases h
      · simp only [Except.ok.injEq] at h
        subst h
        obtain ⟨h1, h2⟩ := copy_loop_body_original _ _ _ _ _ _ hl
        exact ⟨rfl, rfl, rfl, _, rfl, h1, h2⟩

theorem find_function_loops_body_inv (check_var_name : String → Bool) (fuel : Nat)
    (self : goto_loopst) (st st' : List (Nat × targett) × goto_loopst) (k : Nat)
    (hinv : find_function_loops_inv self st)
    (h : find_function_loops_body check_var_name fuel st k = .ok st') :
    find_function_loops_inv self st' := by
  obtain ⟨hf, htm, htab⟩ := hinv
  unfold find_function_loops_body at h
  simp only [hf] at h
  cases hit : self.goto_function.body.instructions[k]? with
  | none => simp [hit] at h
  | some it =>
    simp only [hit] at h
    have htm' : ∀ (loc : Nat) (t : targett),
        location_targets_find
          (if it.is_target = true then
            (it.location_number, self.goto_function.body.at_pos k) :: st.1 else st.1) loc = some t →
        ∃ (k' : Nat) (i' : instructiont), t = self.goto_function.body.at_pos k' ∧
          self.goto_function.body.instructions[k']? = some i' ∧ i'.location_number = loc := by
      intro loc t hl
      split at hl
      · simp only [location_targets_find] at hl
        split at hl
        · rename_i heq
          simp only [Option.some.injEq] at hl
          exact ⟨k, it, hl.symm, hit, heq⟩
        · exact htm loc t hl
      · exact htm loc t hl
    cases hb : self.goto_function.body.is_backwards_goto it with
    | error e => simp [hb] at h
    | ok b =>
      cases b with
      | false =>
        simp only [hb, Except.ok.injEq] at h
        subst h
        exact ⟨hf, htm', htab⟩
      | true =>
        simp only [hb] at h
        split at h
        · cases h
        · cases hh : it.targets.head? with
          | none => simp [hh] at h
          | some t =>
            simp only [hh] at h
            cases hd : self.goto_function.body.deref t with
            | none => simp [hd] at h
            | some ti =>
              simp only [hd] at h
              split at h
              · simp only [Except.ok.injEq] at h
                subst h
                exact ⟨hf, htm', htab⟩
              · rename_i hloc
                split at h
                · cases h
                · rename_i loop_head hfind
                  split at h
                  · cases h
                  · rename_i self2 hc
                    simp only [Except.ok.injEq] at h
                    subst h
                    obtain ⟨hg, _, _, l, hstore, hlh, hle⟩ := create_function_loop_ok hc
                    obtain ⟨k', i', hk', hik', hloc'⟩ := htm' _ _ hfind
                    refine ⟨hg.trans hf, htm', ?_⟩
                    intro e he
                    simp only at he
                    rw [hstore] at he
                    rcases function_loops_store_mem _ _ _ e he with he | he
                    · exact htab e he
                    · right
                      subst he
                      simp only [hlh, hle]
                      exact ⟨k, k', it, i', t, ti, rfl, hk', hit, hik', hb, hh, hd, hloc, hloc'⟩

theorem find_function_loops_created (check_var_name : String → Bool) (fuel : Nat)
    (self self' : goto_loopst)
    (h : find_function_loops check_var_name fuel self = .ok self') :
    self'.goto_function = self.goto_function ∧
    ∀ e ∈ self'.function_loops, e ∈ self.function_loops ∨
      created_pair self.goto_function.body e.2.original_loop_head e.2.original_loop_exit := by
  unfold find_function_loops at h
  split at h
  · cases h
  · rename_i st hst
    simp only [Except.ok.injEq] at h
    subst h
    have hinv := for_positions_invariant _ (find_function_loops_inv self) _
      (fun s k s' _ hs hb => find_function_loops_body_inv check_var_name fuel self s s' k hs hb)
      ([], self) st
      ⟨rfl, fun loc t hl => by simp [location_targets_find] at hl, fun e he => Or.inl he⟩ hst
    exact ⟨hinv.1, hinv.2.2⟩

theorem created_pair_ne {body : goto_programt} {head exit : targett}
    (h : created_pair body head exit) : head ≠ exit := by
  obtain ⟨k, k', it, i', t, ti, he, hh, hit, hik', _, _, _, hne, heq⟩ := h
  intro hhe
  rw [he, hh] at hhe
  have hk : k' = k := by simpa [at_pos] using hhe
  subst hk
  rw [hit] at hik'
  cases hik'
  exact hne heq.symm

theorem created_pair_not_self {body : goto_programt} {head : targett} {b : Nat}
    (hb : back_edge_to body b b) : ¬ created_pair body head (body.at_pos b) := by
  rintro ⟨k, k', it, i', t, ti, he, _, hit, _, _, hh, hd, hne, _⟩
  have hk : b = k := by simpa [at_pos] using he
  subst hk
  obtain ⟨i, hi, _, hts, _⟩ := hb
  rw [hit] at hi
  cases hi
  rw [hts] at hh
  simp only [List.head?_cons, Option.some.injEq] at hh
  subst hh
  rw [deref_at_pos, hit] at hd
  cases hd
  exact hne rfl

theorem find_function_loops_only_self_loops (check_var_name : String → Bool) (fuel : Nat)
    (self : goto_loopst) (nr : Nat)
    (hloc : location_numbers_up_to_date self.goto_function.body nr = true)
    (hin : targets_inside self.goto_function.body = true)
    (hself : ∀ (b h : Nat), back_edge_to self.goto_function.body b h → h = b) :
    find_function_loops check_var_name fuel self = .ok self := by
  have hstep : ∀ (s : List (Nat × targett) × goto_loopst) (k : Nat),
      k ∈ List.range self.goto_function.body.instructions.length → s.2 = self →
      ∃ s', find_function_loops_body check_var_name fuel s k = .ok s' ∧ s'.2 = self := by
    intro s k hk hs
    have hkl : k < self.goto_function.body.instructions.length := List.mem_range.mp hk
    have hit : self.goto_function.body.instructions[k]? =
        some self.goto_function.body.instructions[k] := List.getElem?_eq_getElem hkl
    obtain ⟨b, hb⟩ := is_backwards_goto_inside hin (List.getElem_mem hkl)
    unfold find_function_loops_body
    simp only [hs, hit, hb]
    cases b with
    | false => exact ⟨_, rfl, rfl⟩
    | true =>
      simp only
      have hbe : is_back_edge self.goto_function.body k = true := by
        simp [is_back_edge, hit, hb]
      obtain ⟨h, hkh⟩ := (is_back_edge_iff hloc k).mp hbe
      have hh := hself k h hkh
      subst hh
      obtain ⟨i, hi, _, hts, _⟩ := hkh
      rw [hit] at hi
      cases hi
      simp only [hts, List.length_singleton, ne_eq, not_true_eq_false, if_false,
        List.head?_cons, deref_at_pos, hit, if_true]
      exact ⟨_, rfl, rfl⟩
  obtain ⟨s', hs', hs2⟩ := for_positions_total _ (fun s => s.2 = self) _ hstep ([], self) rfl
  unfold find_function_loops
  rw [hs']
  simp only [hs2]

/-- C10: `find_function_loops` never creates a Loop for a back-edge whose single target is
the back-edge itself.  A body whose only back-edges are self-loops leaves the loop table as
it was (empty when it started empty); whenever the scan completes, no Loop created by it has
a self-loop as its exit, and no Loop created by it has its header equal to its exit. -/
theorem find_function_loops_skips_self_loops (check_var_name : String → Bool) (fuel : Nat)
    (self : goto_loopst) (nr : Nat)
    (hloc : location_numbers_up_to_date self.goto_function.body nr = true) :
    (targets_inside self.goto_function.body = true →
      (∀ (b h : Nat), back_edge_to self.goto_function.body b h → h = b) →
      find_function_loops check_var_name fuel self = .ok self) ∧
    ∀ (self' : goto_loopst), find_function_loops check_var_name fuel self = .ok self' →
      (∀ (b : Nat), back_edge_to self.goto_function.body b b →
        (∀ e ∈ self.function_loops,
          e.2.original_loop_exit ≠ self.goto_function.body.at_pos b) →
        ∀ e ∈ self'.function_loops,
          e.2.original_loop_exit ≠ self.goto_function.body.at_pos b) ∧
      ((∀ e ∈ self.function_loops, e.2.original_loop_head ≠ e.2.original_loop_exit) →
        ∀ e ∈ self'.function_loops, e.2.original_loop_head ≠ e.2.original_loop_exit) := by
  refine ⟨find_function_loops_only_self_loops check_var_name fuel self nr hloc, ?_⟩
  intro self' hrun
  obtain ⟨_, hcr⟩ := find_function_loops_created check_var_name fuel self self' hrun
  constructor
  · intro b hb hinit e he
    rcases hcr e he with h1 | h1
    · exact hinit e h1
    · intro heq
      rw [heq] at h1
      exact created_pair_not_self hb h1
  · intro hinit e he
    rcases hcr e he with h1 | h1
    · exact hinit e h1
    · exact created_pair_ne h1

theorem find_function_loops_skips_self_loops_witness :
    location_numbers_up_to_date example_self_loop_body 0 = true ∧
    back_edge_to example_self_loop_body 1 1 ∧
    find_function_loops (fun _ => true) 1 example_self_loops = .ok example_self_loops ∧
    (find_function_loops (fun _ => true) 1 example_loops).map
      (fun s => s.function_loops.map
        (fun e => (e.1, e.2.original_loop_head, e.2.original_loop_exit,
          e.2.goto_program.instructions.map (fun i => i.location_number),
          e.2.modified_loop_vars))) =
      .ok [(p0 0, p0 0, p0 3, [0, 1, 2, 3], ["x"])] ∧
    (∀ (self' : goto_loopst),
      find_function_loops (fun _ => true) 1 example_loops = .ok self' →
      ∀ e ∈ self'.function_loops, e.2.original_loop_head ≠ e.2.original_loop_exit) :=
  ⟨by decide, ⟨_, rfl, rfl, rfl, by decide⟩,
   (find_function_loops_skips_self_loops (fun _ => true) 1 example_self_loops 0
      (by decide)).1 (by decide)
      (fun b h hb => by
        obtain ⟨i, hi, hg, ht, _⟩ := hb
        rcases b with _ | _ | _ | b
        · simp [example_self_loops, example_self_loop_body] at hi
          subst hi
          simp [example_instruction] at hg
        · simp [example_self_loops, example_self_loop_body] at hi
          subst hi
          simp [example_instruction, p0, at_pos] at ht
          exact ht.2.symm
        · simp [example_self_loops, example_self_loop_body] at hi
          subst hi
          simp [example_instruction] at hg
        · simp [example_self_loops, example_self_loop_body] at hi),
   by rfl,
   fun self' hrun =>
    ((find_function_loops_skips_self_loops (fun _ => true) 1 example_loops 0
      (by decide)).2 self' hrun).2 (fun e he => by simp [example_loops] at he)⟩

/-! ### loop_table -/

theorem copy_loop_body_range
    (visit : instructiont → List String → Except errort (List String)) :
    ∀ (n : Nat) (rest : List instructiont) (it : targett) (loop : loopst),
      n ≤ rest.length →
      copy_loop_body visit ⟨it.object, it.pos + n⟩ rest it loop =
        (match walk_body visit (rest.take n) loop.modified_loop_vars with
         | .error e => .error e
         | .ok vars =>
           .ok { loop with
                 goto_program :=
                   { loop.goto_program with
                     instructions := loop.goto_program.instructions ++ rest.take n }
                 modified_loop_vars := vars }) := by
  intro n
  induction n with
  | zero =>
    intro rest it loop _
    cases rest <;> simp [copy_loop_body, walk_body]
  | succ n ih =>
    intro rest it loop hn
    cases rest with
    | nil => simp at hn
    | cons i rest =>
      have hne : it ≠ ⟨it.object, it.pos + (n + 1)⟩ := by
        intro h
        have := congrArg targett.pos h
        simp at this
      simp only [copy_loop_body, hne, if_false, List.take_succ_cons, walk_body]
      cases hv : visit i loop.modified_loop_vars with
      | error e => rfl
      | ok vars =>
        simp only
        have hexit : (⟨it.object, it.pos + (n + 1)⟩ : targett) =
            ⟨(⟨it.object, it.pos + 1⟩ : targett).object,
              (⟨it.object, it.pos + 1⟩ : targett).pos + n⟩ := by
          simp only [targett.mk.injEq, true_and]
          omega
        rw [hexit, ih rest _ _ (by simpa using hn)]
        simp only
        cases walk_body visit (rest.take n) vars with
        | error e => rfl
        | ok vars' => simp

theorem function_loops_find_store (table : List (targett × loopst)) (h : targett) (l : loopst) :
    function_loops_find (function_loops_store table h l) h = some l := by
  induction table with
  | nil => simp [function_loops_store, function_loops_find]
  | cons kv rest ih =>
    obtain ⟨k, v⟩ := kv
    by_cases hk : k = h
    · simp [function_loops_store, function_loops_find, hk]
    · simp [function_loops_store, function_loops_find, hk, ih]

theorem function_loops_find_store_ne (table : List (targett × loopst)) (h h' : targett)
    (l : loopst) (hne : h' ≠ h) :
    function_loops_find (function_loops_store table h l) h' = function_loops_find table h' := by
  induction table with
  | nil =>
    have : ¬ h = h' := fun e => hne e.symm
    simp [function_loops_store, function_loops_find, this]
  | cons kv rest ih =>
    obtain ⟨k, v⟩ := kv
    by_cases hk : k = h
    · subst hk
      have : ¬ k = h' := fun e => hne e.symm
      simp [function_loops_store, function_loops_find, this]
    · by_cases hk' : k = h'
      · subst hk'
        simp [function_loops_store, function_loops_find, hk]
      · simp [function_loops_store, function_loops_find, hk, hk', ih]

/-- What `create_function_loop` computes for a header at position `h` and an exit at
position `e` of the body, `h` not after `e`. -/
theorem create_function_loop_eq (check_var_name : String → Bool) (fuel : Nat)
    (self : goto_loopst) (h e : Nat) (ie : instructiont) (hhe : h ≤ e)
    (hie : self.goto_function.body.instructions[e]? = some ie) :
    create_function_loop check_var_name fuel self (self.goto_function.body.at_pos h)
        (self.goto_function.body.at_pos e) =
      (match walk_body
          (fun i vars => get_modified_variables check_var_name self.function_map fuel i vars
            self.function_name)
          ((self.goto_function.body.instructions.drop h).take (e - h))
          (initial_loop self (self.goto_function.body.at_pos h)
            (self.goto_function.body.at_pos e)).modified_loop_vars with
       | .error err => .error err
       | .ok vars =>
         .ok { self with
               function_loops :=
                 function_loops_store self.function_loops (self.goto_function.body.at_pos h)
                   { goto_program :=
                       { object := (initial_loop self (self.goto_function.body.at_pos h)
                           (self.goto_function.body.at_pos e)).goto_program.object
                         instructions :=
                           (initial_loop self (self.goto_function.body.at_pos h)
                             (self.goto_function.body.at_pos e)).goto_program.instructions ++
                           (self.goto_function.body.instructions.drop h).take (e - h) ++ [ie] }
                     original_loop_head := self.goto_function.body.at_pos h
                     original_loop_exit := self.goto_function.body.at_pos e
                     modified_loop_vars := vars } }) := by
  have hel : e < self.goto_function.body.instructions.length := (List.getElem?_eq_some.mp hie).1
  have hexit : self.goto_function.body.at_pos e =
      ⟨(self.goto_function.body.at_pos h).object,
        (self.goto_function.body.at_pos h).pos + (e - h)⟩ := by
    simp only [at_pos, targett.mk.injEq, true_and]
    omega
  have hcopy := copy_loop_body_range
    (fun i vars => get_modified_variables check_var_name self.function_map fuel i vars
      self.function_name)
    (e - h) (self.goto_function.body.instructions.drop h) (self.goto_function.body.at_pos h)
    (initial_loop self (self.goto_function.body.at_pos h) (self.goto_function.body.at_pos e))
    (by simp only [List.length_drop]; omega)
  rw [← hexit] at hcopy
  have hdef : create_function_loop check_var_name fuel self (self.goto_function.body.at_pos h)
      (self.goto_function.body.at_pos e) =
      (match copy_loop_body
          (fun i vars => get_modified_variables check_var_name self.function_map fuel i vars
            self.function_name)
          (self.goto_function.body.at_pos e) (self.goto_function.body.instructions.drop h)
          (self.goto_function.body.at_pos h)
          (initial_loop self (self.goto_function.body.at_pos h)
            (self.goto_function.body.at_pos e)) with
        | Except.error err => Except.error err
        | Except.ok l =>
          Except.ok { self with
            function_loops :=
              function_loops_store self.function_loops (self.goto_function.body.at_pos h)
                { l with
                  goto_program :=
                    { l.goto_program with
                      instructions := l.goto_program.instructions ++ [ie] } } }) := by
    unfold create_function_loop
    simp only [at_pos, ne_eq, not_true_eq_false, if_false, deref, if_true, hie, initial_loop]
  rw [hdef, hcopy]
  cases walk_body
      (fun i vars => get_modified_variables check_var_name self.function_map fuel i vars
        self.function_name)
      ((self.goto_function.body.instructions.drop h).take (e - h))
      (initial_loop self (self.goto_function.body.at_pos h)
        (self.goto_function.body.at_pos e)).modified_loop_vars with
  | error err => rfl
  | ok vars => simp only [List.append_assoc, initial_loop]

theorem walk_body_total (visit : instructiont → List String → Except errort (List String)) :
    ∀ (l : List instructiont),
      (∀ i ∈ l, ∀ vars, ∃ vars', visit i vars = .ok vars') →
      ∀ vars, ∃ vars', walk_body visit l vars = .ok vars' := by
  intro l
  induction l with
  | nil => intro _ vars; exact ⟨vars, rfl⟩
  | cons i rest ih =>
    intro h vars
    obtain ⟨v1, hv1⟩ := h i (List.mem_cons_self _ _) vars
    obtain ⟨v2, hv2⟩ := ih (fun j hj => h j (List.mem_cons_of_mem _ hj)) v1
    exact ⟨v2, by simp only [walk_body, hv1, hv2]⟩

theorem take_drop_succ {α : Type} (l : List α) (h e : Nat) (x : α) (hhe : h ≤ e)
    (hx : l[e]? = some x) :
    (l.drop h).take (e - h) ++ [x] = (l.drop h).take (e - h + 1) := by
  rw [List.take_succ]
  have : (l.drop h)[e - h]? = some x := by
    rw [List.getElem?_drop]
    have : h + (e - h) = e := by omega
    rw [this, hx]
  rw [this]
  rfl

/-- C12: for a header at position `h` and an exit at position `e` of the body, `h` not
after `e`, when the loop table holds no Loop for the header, the Loop that
`create_function_loop` stores under the header has as its program the instructions of the
body from `h` up to but not including `e` followed by the instruction at `e`: `e - h + 1`
instructions, the `i`-th being the instruction at position `h + i` (same kind, guard and
code).  The call returns whenever `get_modified_variables` returns on each of the
instructions before the exit. -/
theorem create_function_loop_copies (check_var_name : String → Bool) (fuel : Nat)
    (self : goto_loopst) (h e : Nat) (hhe : h ≤ e)
    (hel : e < self.goto_function.body.instructions.length)
    (hfresh : function_loops_find self.function_loops
      (self.goto_function.body.at_pos h) = none) :
    ((∀ i ∈ (self.goto_function.body.instructions.drop h).take (e - h), ∀ vars,
        ∃ vars', get_modified_variables check_var_name self.function_map fuel i vars
          self.function_name = .ok vars') →
      ∃ self', create_function_loop check_var_name fuel self
        (self.goto_function.body.at_pos h) (self.goto_function.body.at_pos e) = .ok self') ∧
    ∀ self', create_function_loop check_var_name fuel self
        (self.goto_function.body.at_pos h) (self.goto_function.body.at_pos e) = .ok self' →
      ∃ l, function_loops_find self'.function_loops (self.goto_function.body.at_pos h) = some l ∧
        l.original_loop_head = self.goto_function.body.at_pos h ∧
        l.original_loop_exit = self.goto_function.body.at_pos e ∧
        l.goto_program.instructions =
          (self.goto_function.body.instructions.drop h).take (e - h + 1) ∧
        l.goto_program.instructions.length = e - h + 1 ∧
        ∀ (i : Nat), i ≤ e - h →
          ∃ a b, l.goto_program.instructions[i]? = some a ∧
            self.goto_function.body.instructions[h + i]? = some b ∧
            a.type = b.type ∧ a.guard = b.guard ∧ a.code = b.code := by
  have hie : self.goto_function.body.instructions[e]? =
      some self.goto_function.body.instructions[e] := List.getElem?_eq_getElem hel
  have heq := create_function_loop_eq check_var_name fuel self h e _ hhe hie
  have hinit : initial_loop self (self.goto_function.body.at_pos h)
      (self.goto_function.body.at_pos e) =
      { goto_program := { object := .loop self.goto_function.body.object h, instructions := [] }
        original_loop_head := self.goto_function.body.at_pos h
        original_loop_exit := self.goto_function.body.at_pos e
        modified_loop_vars := [] } := by
    simp only [initial_loop, hfresh]
    rfl
  rw [hinit] at heq
  simp only [List.nil_append] at heq
  rw [take_drop_succ _ h e _ hhe hie] at heq
  constructor
  · intro hv
    obtain ⟨vars, hw⟩ := walk_body_total _ _ hv []
    rw [heq, hw]
    exact ⟨_, rfl⟩
  · intro self' hrun
    rw [heq] at hrun
    cases hw : walk_body
        (fun i vars => get_modified_variables check_var_name self.function_map fuel i vars
          self.function_name)
        ((self.goto_function.body.instructions.drop h).take (e - h)) [] with
    | error err => simp [hw] at hrun
    | ok vars =>
      simp only [hw, Except.ok.injEq] at hrun
      subst hrun
      refine ⟨_, function_loops_find_store _ _ _, rfl, rfl, rfl, ?_, ?_⟩
      · simp only [List.length_take, List.length_drop]
        omega
      · intro i hi
        have hil : h + i < self.goto_function.body.instructions.length := by omega
        refine ⟨_, _, ?_, List.getElem?_eq_getElem hil, rfl, rfl, rfl⟩
        simp only
        rw [List.getElem?_take_of_lt (by omega), List.getElem?_drop,
          List.getElem?_eq_getElem hil]

theorem create_function_loop_copies_witness :
    function_loops_find example_loops.function_loops (example_loop_body.at_pos 0) = none ∧
    (create_function_loop (fun _ => true) 1 example_loops (p0 0) (p0 3)).map
      (fun s => s.function_loops.map
        (fun e => (e.1, e.2.goto_program.instructions.map (fun i => i.location_number)))) =
      .ok [(p0 0, [0, 1, 2, 3])] ∧
    ∃ self', create_function_loop (fun _ => true) 1 example_loops
      (example_loop_body.at_pos 0) (example_loop_body.at_pos 3) = .ok self' :=
  ⟨by rfl, by rfl,
   (create_function_loop_copies (fun _ => true) 1 example_loops 0 3 (by decide) (by decide)
      (by rfl)).1
      (fun i hi vars => by
        simp only [example_loops, example_loop_body, List.drop_zero, Nat.sub_zero,
          List.take_succ_cons, List.take_zero, List.mem_cons, List.mem_nil_iff, or_false] at hi
        rcases hi with rfl | rfl | rfl
        · exact ⟨_, rfl⟩
        · exact ⟨_, rfl⟩
        · exact ⟨_, rfl⟩)⟩

theorem at_pos_inj (P : goto_programt) (a b : Nat) : P.at_pos a = P.at_pos b ↔ a = b := by
  simp [at_pos]

theorem function_loops_store_keys (table : List (targett × loopst)) (h : targett) (l : loopst) :
    (function_loops_store table h l).map Prod.fst =
      if h ∈ table.map Prod.fst then table.map Prod.fst else table.map Prod.fst ++ [h] := by
  induction table with
  | nil => simp [function_loops_store]
  | cons kv rest ih =>
    obtain ⟨k, v⟩ := kv
    by_cases hk : k = h
    · subst hk
      simp [function_loops_store]
    · have hk' : ¬ h = k := fun e => hk e.symm
      simp only [function_loops_store, hk, if_false, List.map_cons, ih, List.mem_cons, hk',
        false_or]
      split <;> simp

theorem function_loops_store_mem_nodup (table : List (targett × loopst)) (h : targett)
    (l : loopst) (hnd : (table.map Prod.fst).Nodup) :
    ∀ e ∈ function_loops_store table h l, e = (h, l) ∨ (e ∈ table ∧ e.1 ≠ h) := by
  induction table with
  | nil =>
    intro e he
    simp only [function_loops_store, List.mem_singleton] at he
    exact Or.inl he
  | cons kv rest ih =>
    obtain ⟨k, v⟩ := kv
    simp only [List.map_cons, List.nodup_cons] at hnd
    intro e he
    simp only [function_loops_store] at he
    split at he
    · rename_i hk
      subst hk
      rcases List.mem_cons.mp he with he | he
      · exact Or.inl he
      · right
        refine ⟨List.mem_cons_of_mem _ he, ?_⟩
        intro h1
        exact hnd.1 (h1 ▸ List.mem_map_of_mem Prod.fst he)
    · rename_i hk
      rcases List.mem_cons.mp he with he | he
      · right
        subst he
        exact ⟨List.mem_cons_self _ _, hk⟩
      · rcases ih hnd.2 e he with h1 | ⟨h1, h2⟩
        · exact Or.inl h1
        · exact Or.inr ⟨List.mem_cons_of_mem _ h1, h2⟩

theorem function_loops_find_of_mem (table : List (targett × loopst))
    (hnd : (table.map Prod.fst).Nodup) (e : targett × loopst) (he : e ∈ table) :
    function_loops_find table e.1 = some e.2 := by
  induction table with
  | nil => cases he
  | cons kv rest ih =>
    obtain ⟨k, v⟩ := kv
    simp only [List.map_cons, List.nodup_cons] at hnd
    rcases List.mem_cons.mp he with he | he
    · subst he
      simp [function_loops_find]
    · have hk : ¬ k = e.1 := by
        intro h1
        exact hnd.1 (h1 ▸ List.mem_map_of_mem Prod.fst he)
      simp only [function_loops_find, hk, if_false]
      exact ih hnd.2 he

theorem loop_headers_succ (body : goto_programt) (m : Nat) :
    loop_headers body (m + 1) =
      (match loop_header_of body m with
       | some h => if h ∈ loop_headers body m then loop_headers body m
                   else loop_headers body m ++ [h]
       | none => loop_headers body m) := rfl

theorem loop_headers_nodup (body : goto_programt) : ∀ m, (loop_headers body m).Nodup := by
  intro m
  induction m with
  | zero => simp [loop_headers]
  | succ m ih =>
    rw [loop_headers_succ]
    cases loop_header_of body m with
    | none => exact ih
    | some h =>
      simp only
      split
      · exact ih
      · rename_i hn
        rw [List.nodup_append]
        refine ⟨ih, by simp, ?_⟩
        intro a ha hb
        simp only [List.mem_singleton] at hb
        subst hb
        exact hn ha

theorem loop_headers_mem (body : goto_programt) (h : Nat) :
    ∀ m, h ∈ loop_headers body m ↔ ∃ b, b < m ∧ loop_header_of body b = some h := by
  intro m
  induction m with
  | zero => simp [loop_headers]
  | succ m ih =>
    rw [loop_headers_succ]
    constructor
    · intro hm
      cases hl : loop_header_of body m with
      | none =>
        rw [hl] at hm
        obtain ⟨b, hb, hbh⟩ := ih.mp hm
        exact ⟨b, by omega, hbh⟩
      | some h' =>
        rw [hl] at hm
        simp only at hm
        split at hm
        · obtain ⟨b, hb, hbh⟩ := ih.mp hm
          exact ⟨b, by omega, hbh⟩
        · rcases List.mem_append.mp hm with hm | hm
          · obtain ⟨b, hb, hbh⟩ := ih.mp hm
            exact ⟨b, by omega, hbh⟩
          · simp only [List.mem_singleton] at hm
            subst hm
            exact ⟨m, by omega, hl⟩
    · rintro ⟨b, hb, hbh⟩
      by_cases hbm : b = m
      · subst hbm
        rw [hbh]
        simp only
        split
        · assumption
        · simp
      · have hmem : h ∈ loop_headers body m := ih.mpr ⟨b, by omega, hbh⟩
        cases loop_header_of body m with
        | none => exact hmem
        | some h' =>
          simp only
          split
          · exact hmem
          · exact List.mem_append_left _ hmem

theorem loop_header_of_iff {body : goto_programt} {nr : Nat}
    (hloc : location_numbers_up_to_date body nr = true) (b h : Nat) :
    loop_header_of body b = some h ↔ back_edge_to body b h ∧ h < b := by
  unfold loop_header_of
  constructor
  · intro hl
    split at hl
    · rename_i hbe
      obtain ⟨h', hbh'⟩ := (is_back_edge_iff hloc b).mp hbe
      have hft := ((back_edge_iff hloc b h').mpr hbh').2
      rw [hft] at hl
      simp only [at_pos] at hl
      split at hl
      · simp only [Option.some.injEq] at hl
        subst hl
        rename_i hlt
        exact ⟨hbh', hlt⟩
      · cases hl
    · cases hl
  · rintro ⟨hbh, hlt⟩
    obtain ⟨hbe, hft⟩ := (back_edge_iff hloc b h).mpr hbh
    simp [hbe, hft, at_pos, hlt]

theorem target_is_target {P : goto_programt} (htn : target_numbers_up_to_date P = true)
    {i : instructiont} (hi : i ∈ P.instructions) {t : targett} (ht : t ∈ i.targets)
    {ti : instructiont} (hd : P.deref t = some ti) : ti.is_target = true := by
  simp only [target_numbers_up_to_date, decide_eq_true_eq] at htn
  cases hc : compute_target_numbers P with
  | error e => simp [hc, Except.map] at htn
  | ok P' =>
    simp only [hc, Except.map, Except.ok.injEq] at htn
    obtain ⟨hr, _, hchk⟩ := compute_target_numbers_ok hc
    have hsame : P'.instructions = P.instructions := by
      apply List.ext_getElem?
      intro k
      cases hk : P.instructions[k]? with
      | none =>
        have : P.instructions.length ≤ k := List.getElem?_eq_none_iff.mp hk
        exact List.getElem?_eq_none_iff.mpr (by rw [hr.2.1]; exact this)
      | some j =>
        have h1 := hr.2.2 k j hk
        have h2 : (P'.instructions.map (fun i => i.target_number))[k]? =
            (P.instructions.map (fun i => i.target_number))[k]? := by rw [htn]
        simp only [List.getElem?_map, h1, hk, Option.map_some', Option.some.injEq] at h2
        rw [h1]
        simp only [h2]
    simp only [check_targets, List.all_eq_true] at hchk
    have h1 := hchk i (hsame ▸ hi) t ht
    obtain ⟨hto, htl⟩ := deref_some_lt hd
    have hne : t ≠ P'.end_target := by
      intro h
      rw [h] at htl
      simp [end_target, hsame] at htl
    have hd' : P'.deref t = some ti := by
      simpa [deref, hsame, hr.1] using hd
    simp only [check_target, hne, if_false, hd', Bool.and_eq_true, decide_eq_true_eq] at h1
    simp [instructiont.is_target, h1.2]

theorem find_function_loops_body_eq (check_var_name : String → Bool) (fuel : Nat)
    (self : goto_loopst) (nr m : Nat) (st : List (Nat × targett) × goto_loopst)
    (it : instructiont)
    (hloc : location_numbers_up_to_date self.goto_function.body nr = true)
    (htn : target_numbers_up_to_date self.goto_function.body = true)
    (hin : targets_inside self.goto_function.body = true)
    (hf : st.2.goto_function = self.goto_function)
    (htm : ∀ (h : Nat) (i : instructiont), h < m →
      self.goto_function.body.instructions[h]? = some i → i.is_target = true →
      location_targets_find st.1 (nr + h) = some (self.goto_function.body.at_pos h))
    (hit : self.goto_function.body.instructions[m]? = some it) :
    find_function_loops_body check_var_name fuel st m =
      (match loop_header_of self.goto_function.body m with
       | none =>
         .ok (if it.is_target then (nr + m, self.goto_function.body.at_pos m) :: st.1
              else st.1, st.2)
       | some h =>
         match create_function_loop check_var_name fuel st.2
             (self.goto_function.body.at_pos h) (self.goto_function.body.at_pos m) with
         | .error e => .error e
         | .ok s =>
           .ok (if it.is_target then (nr + m, self.goto_function.body.at_pos m) :: st.1
                else st.1, s)) := by
  have hml : m < self.goto_function.body.instructions.length := (List.getElem?_eq_some.mp hit).1
  have hitm := List.getElem?_mem hit
  have hlocm := location_number_eq hloc m it hit
  obtain ⟨b, hb⟩ := is_backwards_goto_inside hin hitm
  have hbe : is_back_edge self.goto_function.body m = b := by
    simp only [is_back_edge, hit, hb]
    cases b <;> simp
  unfold find_function_loops_body
  simp only [hf, hit, hb, hlocm]
  cases b with
  | false =>
    simp [loop_header_of, hbe]
  | true =>
    obtain ⟨_, t, ti, hts, hd, hle⟩ := is_backwards_goto_true hb
    obtain ⟨hto, htl⟩ := deref_some_lt hd
    have hloct := location_number_eq hloc t.pos ti (deref_some_getElem hd)
    have hft : first_target self.goto_function.body m = some t := by
      simp [first_target, hit, hts]
    have htpos : t = self.goto_function.body.at_pos t.pos := by
      cases t
      simp only [at_pos, targett.mk.injEq, and_true] at *
      exact hto
    simp only [hts, List.length_singleton, ne_eq, not_true_eq_false, if_false, List.head?_cons,
      hd, hloct, loop_header_of, hbe, if_true, hft]
    by_cases heq : t.pos = m
    · have h1 : ¬ t.pos < m := by omega
      simp [heq]
    · have hlt : t.pos < m := by omega
      have h1 : ¬ nr + t.pos = nr + m := by omega
      have htt : ti.is_target = true := target_is_target htn hitm (by simp [hts]) hd
      have hfind : location_targets_find
          (if it.is_target = true then
            (nr + m, self.goto_function.body.at_pos m) :: st.1 else st.1) (nr + t.pos) =
          some (self.goto_function.body.at_pos t.pos) := by
        have h2 := htm t.pos ti hlt (deref_some_getElem hd) htt
        split
        · have h3 : ¬ nr + m = nr + t.pos := by omega
          simp only [location_targets_find, h3, if_false]
          exact h2
        · exact h2
      simp only [h1, if_false, hfind, hlt, if_true]

theorem loop_header_of_lt {body : goto_programt} {b h : Nat}
    (hl : loop_header_of body b = some h) : h < b := by
  unfold loop_header_of at hl
  split at hl
  · split at hl
    · split at hl
      · rename_i hlt
        simp only [Option.some.injEq] at hl
        omega
      · cases hl
    · cases hl
  · cases hl

theorem scan_targets_step (self : goto_loopst) (nr m : Nat) (targets : List (Nat × targett))
    (it : instructiont)
    (hit : self.goto_function.body.instructions[m]? = some it)
    (htm : ∀ (h : Nat) (i : instructiont), h < m →
      self.goto_function.body.instructions[h]? = some i → i.is_target = true →
      location_targets_find targets (nr + h) = some (self.goto_function.body.at_pos h)) :
    ∀ (h : Nat) (i : instructiont), h < m + 1 →
      self.goto_function.body.instructions[h]? = some i → i.is_target = true →
      location_targets_find
        (if it.is_target then (nr + m, self.goto_function.body.at_pos m) :: targets
         else targets) (nr + h) = some (self.goto_function.body.at_pos h) := by
  intro h i hh hi hti
  by_cases hm : h = m
  · subst hm
    rw [hit] at hi
    cases hi
    simp [hti, location_targets_find]
  · have h1 := htm h i (by omega) hi hti
    split
    · have h3 : ¬ nr + m = nr + h := by omega
      simp only [location_targets_find, h3, if_false]
      exact h1
    · exact h1

theorem scan_step (check_var_name : String → Bool) (fuel : Nat)
    (self : goto_loopst) (nr m : Nat) (st : List (Nat × targett) × goto_loopst)
    (hloc : location_numbers_up_to_date self.goto_function.body nr = true)
    (htn : target_numbers_up_to_date self.goto_function.body = true)
    (hin : targets_inside self.goto_function.body = true)
    (hml : m < self.goto_function.body.instructions.length)
    (hinv : scan_inv self nr m st) :
    (∀ st', find_function_loops_body check_var_name fuel st m = .ok st' →
      scan_inv self nr (m + 1) st') ∧
    ((∀ i ∈ self.goto_function.body.instructions, ∀ vars,
        ∃ vars', get_modified_variables check_var_name self.function_map fuel i vars
          self.function_name = .ok vars') →
      ∃ st', find_function_loops_body check_var_name fuel st m = .ok st') := by
  obtain ⟨hf, hfn, hfm, htm, hkeys, hent⟩ := hinv
  have hit : self.goto_function.body.instructions[m]? =
      some self.goto_function.body.instructions[m] := List.getElem?_eq_getElem hml
  rw [find_function_loops_body_eq check_var_name fuel self nr m st _ hloc htn hin hf htm hit]
  have htm' := scan_targets_step self nr m st.1 _ hit htm
  cases hl : loop_header_of self.goto_function.body m with
  | none =>
    simp only
    refine ⟨?_, fun _ => ⟨_, rfl⟩⟩
    intro st' hst
    simp only [Except.ok.injEq] at hst
    subst hst
    refine ⟨hf, hfn, hfm, htm', ?_, ?_⟩
    · rw [loop_headers_succ, hl]
      exact hkeys
    · intro e he
      obtain ⟨b, h, h1, h2, h3, h4, h5, h6⟩ := hent e he
      refine ⟨b, h, h1, h2, h3, by omega, h5, ?_⟩
      intro b' hb1 hb2
      by_cases hbm : b' = m
      · subst hbm
        rw [hl]
        simp
      · exact h6 b' hb1 (by omega)
  | some h =>
    simp only
    have hlt := loop_header_of_lt hl
    have hit2 : st.2.goto_function.body.instructions[m]? =
        some self.goto_function.body.instructions[m] := by rw [hf]; exact hit
    have hc := create_function_loop_eq check_var_name fuel st.2 h m _ (le_of_lt hlt) hit2
    rw [hf, hfn, hfm] at hc
    rw [hc]
    have hnd : (st.2.function_loops.map Prod.fst).Nodup := by
      rw [hkeys]
      exact (loop_headers_nodup _ m).map (fun a b hab => (at_pos_inj _ a b).mp hab)
    constructor
    · intro st' hst
      cases hw : walk_body
          (fun i vars => get_modified_variables check_var_name self.function_map fuel i vars
            self.function_name)
          ((self.goto_function.body.instructions.drop h).take (m - h))
          (initial_loop st.2 (self.goto_function.body.at_pos h)
            (self.goto_function.body.at_pos m)).modified_loop_vars with
      | error err => simp [hw] at hst
      | ok vars =>
        simp only [hw, Except.ok.injEq] at hst
        subst hst
        refine ⟨rfl, rfl, rfl, htm', ?_, ?_⟩
        · simp only [function_loops_store_keys, hkeys, loop_headers_succ, hl]
          have hmem : self.goto_function.body.at_pos h ∈
              (loop_headers self.goto_function.body m).map self.goto_function.body.at_pos ↔
              h ∈ loop_headers self.goto_function.body m := by
            simp only [List.mem_map, at_pos_inj]
            constructor
            · rintro ⟨a, ha, rfl⟩
              exact ha
            · intro ha
              exact ⟨h, ha, rfl⟩
          by_cases hh : h ∈ loop_headers self.goto_function.body m
          · simp [hmem, hh]
          · simp [hmem, hh]
        · intro e he
          simp only at he
          rcases function_loops_store_mem_nodup _ _ _ hnd e he with h1 | ⟨h1, h2⟩
          · subst h1
            exact ⟨m, h, rfl, rfl, rfl, by omega, hl, fun b' hb1 hb2 => by omega⟩
          · obtain ⟨b, h0, g1, g2, g3, g4, g5, g6⟩ := hent e h1
            refine ⟨b, h0, g1, g2, g3, by omega, g5, ?_⟩
            intro b' hb1 hb2
            by_cases hbm : b' = m
            · subst hbm
              rw [hl]
              intro hEq
              simp only [Option.some.injEq] at hEq
              subst hEq
              exact h2 g1
            · exact g6 b' hb1 (by omega)
    · intro hgmv
      obtain ⟨vars, hw⟩ := walk_body_total
        (fun i vars => get_modified_variables check_var_name self.function_map fuel i vars
          self.function_name)
        ((self.goto_function.body.instructions.drop h).take (m - h))
        (fun i hi vars =>
          hgmv i (List.mem_of_mem_drop (List.mem_of_mem_take hi)) vars)
        (initial_loop st.2 (self.goto_function.body.at_pos h)
          (self.goto_function.body.at_pos m)).modified_loop_vars
      rw [hw]
      exact ⟨_, rfl⟩

theorem scan_prefix (check_var_name : String → Bool) (fuel : Nat)
    (self : goto_loopst) (nr : Nat)
    (hloc : location_numbers_up_to_date self.goto_function.body nr = true)
    (htn : target_numbers_up_to_date self.goto_function.body = true)
    (hin : targets_inside self.goto_function.body = true)
    (hempty : self.function_loops = []) :
    ∀ m, m ≤ self.goto_function.body.instructions.length →
      (∀ st, for_positions (find_function_loops_body check_var_name fuel) (List.range m)
          ([], self) = .ok st → scan_inv self nr m st) ∧
      ((∀ i ∈ self.goto_function.body.instructions, ∀ vars,
          ∃ vars', get_modified_variables check_var_name self.function_map fuel i vars
            self.function_name = .ok vars') →
        ∃ st, for_positions (find_function_loops_body check_var_name fuel) (List.range m)
          ([], self) = .ok st) := by
  intro m
  induction m with
  | zero =>
    intro _
    refine ⟨?_, fun _ => ⟨_, rfl⟩⟩
    intro st hst
    simp only [List.range_zero, for_positions, Except.ok.injEq] at hst
    subst hst
    refine ⟨rfl, rfl, rfl, fun h i hh => by omega, by simp [hempty, loop_headers], ?_⟩
    intro e he
    simp [hempty] at he
  | succ m ih =>
    intro hm
    obtain ⟨ih1, ih2⟩ := ih (by omega)
    rw [List.range_succ, for_positions_append]
    constructor
    · intro st hst
      cases hp : for_positions (find_function_loops_body check_var_name fuel) (List.range m)
          ([], self) with
      | error e => simp [hp] at hst
      | ok st0 =>
        simp only [hp, for_positions] at hst
        cases hb : find_function_loops_body check_var_name fuel st0 m with
        | error e => simp [hb] at hst
        | ok st1 =>
          simp only [hb, Except.ok.injEq] at hst
          subst hst
          exact (scan_step check_var_name fuel self nr m st0 hloc htn hin (by omega)
            (ih1 st0 hp)).1 st1 hb
    · intro hgmv
      obtain ⟨st0, hp⟩ := ih2 hgmv
      obtain ⟨st1, hb⟩ := (scan_step check_var_name fuel self nr m st0 hloc htn hin (by omega)
        (ih1 st0 hp)).2 hgmv
      exact ⟨st1, by simp only [hp, for_positions, hb]⟩

/-- C11 (as stated, refuted): the body `0: SKIP; 1: IF g THEN GOTO 0; 2: GOTO 0`, with
up-to-date target and location numbers, has two backwards gotos whose target lies strictly
before them, yet `find_function_loops` started on the empty table ends with a single Loop,
whose recorded exit is position 2: no Loop records the goto at position 1 as its exit. -/
theorem find_function_loops_shared_header :
    location_numbers_up_to_date example_shared_header_body 0 = true ∧
    target_numbers_up_to_date example_shared_header_body = true ∧
    example_shared_header_body.instructions.map (fun i => (i.type, i.targets)) =
      [(.SKIP, []), (.GOTO, [p0 0]), (.GOTO, [p0 0])] ∧
    (find_function_loops (fun _ => true) 1 example_shared_header_loops).map
      (fun s => s.function_loops.map
        (fun e => (e.2.original_loop_head, e.2.original_loop_exit))) =
      .ok [(p0 0, p0 2)] := by
  refine ⟨by decide, by decide, by decide, by rfl⟩

/-- C11 (amended): for a function body with up-to-date target and location numbers,
`find_function_loops` started on an empty loop table keeps one Loop per distinct header:
the keys of the final table are, without repetition, the positions `h` that are the target of
some backwards goto `b` with `h` strictly before `b`, and for each such `h` the Loop stored
under `h` records `h` as its original header and, as its original exit, the last backwards
goto that refers to `h`.  The scan completes whenever `get_modified_variables` returns on
every instruction of the body. -/
theorem find_function_loops_one_loop_per_header (check_var_name : String → Bool) (fuel : Nat)
    (self : goto_loopst) (nr : Nat)
    (hloc : location_numbers_up_to_date self.goto_function.body nr = true)
    (htn : target_numbers_up_to_date self.goto_function.body = true)
    (hin : targets_inside self.goto_function.body = true)
    (hempty : self.function_loops = []) :
    ((∀ i ∈ self.goto_function.body.instructions, ∀ vars,
        ∃ vars', get_modified_variables check_var_name self.function_map fuel i vars
          self.function_name = .ok vars') →
      ∃ self', find_function_loops check_var_name fuel self = .ok self') ∧
    ∀ self', find_function_loops check_var_name fuel self = .ok self' →
      self'.function_loops.map Prod.fst =
        (loop_headers self.goto_function.body
          self.goto_function.body.instructions.length).map self.goto_function.body.at_pos ∧
      (loop_headers self.goto_function.body
        self.goto_function.body.instructions.length).Nodup ∧
      (∀ (h : Nat), h ∈ loop_headers self.goto_function.body
          self.goto_function.body.instructions.length ↔
        ∃ b, back_edge_to self.goto_function.body b h ∧ h < b) ∧
      (∀ (b h : Nat), back_edge_to self.goto_function.body b h → h < b →
        (∀ (b' : Nat), b < b' → ¬ back_edge_to self.goto_function.body b' h) →
        ∃ l, function_loops_find self'.function_loops
            (self.goto_function.body.at_pos h) = some l ∧
          l.original_loop_head = self.goto_function.body.at_pos h ∧
          l.original_loop_exit = self.goto_function.body.at_pos b) := by
  obtain ⟨hp1, hp2⟩ := scan_prefix check_var_name fuel self nr hloc htn hin hempty _ (le_refl _)
  have hmem : ∀ (h : Nat), h ∈ loop_headers self.goto_function.body
      self.goto_function.body.instructions.length ↔
      ∃ b, back_edge_to self.goto_function.body b h ∧ h < b := by
    intro h
    rw [loop_headers_mem]
    constructor
    · rintro ⟨b, _, hb⟩
      exact ⟨b, (loop_header_of_iff hloc b h).mp hb⟩
    · rintro ⟨b, hb, hlt⟩
      obtain ⟨i, hi, _⟩ := hb
      exact ⟨b, (List.getElem?_eq_some.mp hi).1,
        (loop_header_of_iff hloc b h).mpr ⟨⟨i, hi, by assumption⟩, hlt⟩⟩
  constructor
  · intro hgmv
    obtain ⟨st, hst⟩ := hp2 hgmv
    exact ⟨st.2, by simp only [find_function_loops, hst]⟩
  · intro self' hrun
    unfold find_function_loops at hrun
    cases hst : for_positions (find_function_loops_body check_var_name fuel)
        (List.range self.goto_function.body.instructions.length) ([], self) with
    | error e => simp [hst] at hrun
    | ok st =>
      simp only [hst, Except.ok.injEq] at hrun
      subst hrun
      obtain ⟨_, _, _, _, hkeys, hent⟩ := hp1 st hst
      have hnd := loop_headers_nodup self.goto_function.body
        self.goto_function.body.instructions.length
      refine ⟨hkeys, hnd, hmem, ?_⟩
      intro b h hbh hlt hlast
      have hh : self.goto_function.body.at_pos h ∈ st.2.function_loops.map Prod.fst := by
        rw [hkeys]
        exact List.mem_map_of_mem _ ((hmem h).mpr ⟨b, hbh, hlt⟩)
      obtain ⟨e, he, hek⟩ := List.mem_map.mp hh
      have hnd' : (st.2.function_loops.map Prod.fst).Nodup := by
        rw [hkeys]
        exact hnd.map (fun a b hab => (at_pos_inj _ a b).mp hab)
      have hfind := function_loops_find_of_mem _ hnd' e he
      rw [hek] at hfind
      obtain ⟨b0, h0, g1, g2, g3, g4, g5, g6⟩ := hent e he
      have hh0 : h0 = h := by
        rw [hek] at g1
        exact ((at_pos_inj _ h h0).mp g1).symm
      subst hh0
      have hb0 : b0 = b := by
        have hbl : b < self.goto_function.body.instructions.length := by
          obtain ⟨i, hi, _⟩ := hbh
          exact (List.getElem?_eq_some.mp hi).1
        rcases Nat.lt_trichotomy b0 b with h1 | h1 | h1
        · exact absurd ((loop_header_of_iff hloc b h0).mpr ⟨hbh, hlt⟩) (g6 b h1 hbl)
        · exact h1
        · exact absurd ((loop_header_of_iff hloc b0 h0).mp g5).1 (hlast b0 h1)
      subst hb0
      exact ⟨e.2, hfind, g2, g3⟩

theorem find_function_loops_one_loop_per_header_witness :
    location_numbers_up_to_date example_shared_header_body 0 = true ∧
    target_numbers_up_to_date example_shared_header_body = true ∧
    targets_inside example_shared_header_body = true ∧
    loop_headers example_shared_header_body 3 = [0] ∧
    ∃ self', find_function_loops (fun _ => true) 1 example_shared_header_loops = .ok self' :=
  ⟨by decide, by decide, by decide, by decide,
   (find_function_loops_one_loop_per_header (fun _ => true) 1 example_shared_header_loops 0
      (by decide) (by decide) (by decide) rfl).1
      (fun i hi vars => by
        simp only [example_shared_header_loops, example_shared_header_body, List.mem_cons,
          List.mem_nil_iff, or_false] at hi
        rcases hi with rfl | rfl | rfl
        · exact ⟨_, rfl⟩
        · exact ⟨_, rfl⟩
        · exact ⟨_, rfl⟩)⟩

/-! ### modified_variables -/

theorem mem_add_var_to_loop (vars : List String) (n x : String) :
    x ∈ add_var_to_loop vars n ↔ x ∈ vars ∨ x = n := by
  unfold add_var_to_loop
  split
  · rename_i h
    constructor
    · exact Or.inl
    · rintro (h1 | h1)
      · exact h1
      · exact h1 ▸ h
  · simp

mutual
theorem add_loop_var_mono (check_var_name : String → Bool) :
    ∀ (e : expr2t) (vars : List String) (x : String), x ∈ vars →
      x ∈ add_loop_var check_var_name vars e
  | .symbol thename type_id, vars, x, hx => by
    simp only [add_loop_var]
    split
    · split
      · exact (mem_add_var_to_loop vars thename x).mpr (Or.inl hx)
      · exact hx
    · exact hx
  | .nil, vars, x, hx => by simpa only [add_loop_var] using hx
  | .constant_bool _, vars, x, hx => by simpa only [add_loop_var] using hx
  | .dereference value, vars, x, hx => by
    simp only [add_loop_var]
    exact add_loop_var_mono check_var_name value vars x hx
  | .code_assign target source, vars, x, hx => by
    simp only [add_loop_var]
    exact add_loop_var_mono check_var_name source _ x
      (add_loop_var_mono check_var_name target vars x hx)
  | .code_function_call ret function operands, vars, x, hx => by
    simp only [add_loop_var]
    exact add_loop_var_operands_mono check_var_name operands _ x
      (add_loop_var_mono check_var_name function _ x
        (add_loop_var_mono check_var_name ret vars x hx))
  | .other _ operands, vars, x, hx => by
    simp only [add_loop_var]
    exact add_loop_var_operands_mono check_var_name operands vars x hx
theorem add_loop_var_operands_mono (check_var_name : String → Bool) :
    ∀ (es : List expr2t) (vars : List String) (x : String), x ∈ vars →
      x ∈ add_loop_var_operands check_var_name vars es
  | [], vars, x, hx => by simpa only [add_loop_var_operands] using hx
  | e :: es, vars, x, hx => by
    simp only [add_loop_var_operands]
    exact add_loop_var_operands_mono check_var_name es _ x
      (add_loop_var_mono check_var_name e vars x hx)
end

theorem walk_body_mono (visit : instructiont → List String → Except errort (List String))
    (hv : ∀ i vars vars', visit i vars = .ok vars' → ∀ x ∈ vars, x ∈ vars') :
    ∀ (l : List instructiont) (vars vars' : List String),
      walk_body visit l vars = .ok vars' → ∀ x ∈ vars, x ∈ vars' := by
  intro l
  induction l with
  | nil =>
    intro vars vars' h x hx
    simp only [walk_body, Except.ok.injEq] at h
    exact h ▸ hx
  | cons i rest ih =>
    intro vars vars' h x hx
    simp only [walk_body] at h
    cases h1 : visit i vars with
    | error e => simp [h1] at h
    | ok v1 =>
      simp only [h1] at h
      exact ih v1 vars' h x (hv i vars v1 h1 x hx)

theorem get_modified_variables_succ (check_var_name : String → Bool)
    (function_map : List (String × goto_functiont)) (fuel : Nat) :
    get_modified_variables check_var_name function_map (fuel + 1) =
      get_modified_variables_body check_var_name function_map
        (fun identifier head vars =>
          get_modified_variables check_var_name function_map fuel head vars identifier) := rfl

theorem get_modified_variables_mono (check_var_name : String → Bool)
    (function_map : List (String × goto_functiont)) :
    ∀ (fuel : Nat) (i : instructiont) (vars : List String) (fname : String)
      (vars' : List String),
      get_modified_variables check_var_name function_map fuel i vars fname = .ok vars' →
      ∀ x ∈ vars, x ∈ vars' := by
  intro fuel
  induction fuel with
  | zero =>
    intro i vars fname vars' h
    simp [get_modified_variables] at h
  | succ fuel ih =>
    intro i vars fname vars' h x hx
    rw [get_modified_variables_succ] at h
    unfold get_modified_variables_body at h
    split at h
    · split at h
      · simp only [Except.ok.injEq] at h
        exact h ▸ add_loop_var_mono check_var_name _ vars x hx
      · cases h
    · split at h
      · split at h
        · split at h
          · simp only [Except.ok.injEq] at h
            exact h ▸ hx
          · have hx1 := fun r => add_loop_var_mono check_var_name r vars x hx
            simp only at h
            split at h
            · simp only [Except.ok.injEq] at h
              exact h ▸ hx1 _
            · split at h
              · cases h
              · split at h
                · simp only [Except.ok.injEq] at h
                  exact h ▸ hx1 _
                · exact walk_body_mono _ (fun j v v' hj => ih j v _ v' hj) _ _ _ h x (hx1 _)
          · cases h
        · cases h
      · simp only [Except.ok.injEq] at h
        exact h ▸ hx

theorem get_modified_variables_direct_call (check_var_name : String → Bool)
    (function_map : List (String × goto_functiont)) (fuel : Nat) (i : instructiont)
    (ret : expr2t) (f : String) (vars : List String) (fname : String)
    (hc : direct_call i ret f) :
    get_modified_variables check_var_name function_map (fuel + 1) i vars fname =
      (if f = fname then .ok (add_loop_var check_var_name vars ret)
       else
         match function_map_find function_map f with
         | none => .error .abort
         | some F =>
           if !F.body_available then .ok (add_loop_var check_var_name vars ret)
           else
             walk_body
               (fun head vars' =>
                 get_modified_variables check_var_name function_map fuel head vars' f)
               F.body.instructions (add_loop_var check_var_name vars ret)) := by
  obtain ⟨hty, fty, ops, hcode⟩ := hc
  rw [get_modified_variables_succ]
  unfold get_modified_variables_body
  simp only [instructiont.is_assign, instructiont.is_function_call, hty, hcode]
  rfl

theorem get_modified_variables_pointer_call (check_var_name : String → Bool)
    (function_map : List (String × goto_functiont)) (fuel : Nat) (i : instructiont)
    (ret : expr2t) (vars : List String) (fname : String)
    (hc : pointer_call i ret) :
    get_modified_variables check_var_name function_map (fuel + 1) i vars fname = .ok vars := by
  obtain ⟨hty, fp, ops, hcode⟩ := hc
  rw [get_modified_variables_succ]
  unfold get_modified_variables_body
  simp [instructiont.is_assign, instructiont.is_function_call, hty, hcode]

theorem add_loop_var_symbol (check_var_name : String → Bool) (vars : List String)
    (r ty : String) (hty : ty ≠ "code") (hr : check_var_name r = true) :
    add_loop_var check_var_name vars (.symbol r ty) = add_var_to_loop vars r := by
  simp [add_loop_var, hty, hr]

/-- C13 (as stated, refuted): for the call `r = (*fp)()` through a function pointer, with
`r` a named variable that passes the name filter, `get_modified_variables` returns the
variable set unchanged: started on the empty set it ends with the empty set, `r` is not
added.  (The same return target on a direct call `r = g()` is added.) -/
theorem get_modified_variables_pointer_call_skips_return :
    example_pointer_call.type = .FUNCTION_CALL ∧
    get_modified_variables (fun _ => true) example_function_map 2 example_pointer_call [] "f" =
      .ok [] ∧
    get_modified_variables (fun _ => true) example_function_map 2 example_direct_call [] "f" =
      .ok ["r", "y"] := by
  decide

/-- C13 (amended): for a function-call instruction whose return target is a named variable
`r` (a symbol not of code type that passes the name filter), `get_modified_variables` adds
`r` to the variable set when the callee is a directly named function: `r` is in every set
it returns, and for a call to the current function the set returned is the old set with
`r` added.  When the callee is reached through a function pointer the set is returned
unchanged, `r` is not added. -/
theorem get_modified_variables_return_target (check_var_name : String → Bool)
    (function_map : List (String × goto_functiont)) (i : instructiont) (r ty : String)
    (hty : ty ≠ "code") (hr : check_var_name r = true) :
    (∀ (f : String) (fuel : Nat) (vars : List String) (fname : String) (vars' : List String),
      direct_call i (.symbol r ty) f →
      get_modified_variables check_var_name function_map fuel i vars fname = .ok vars' →
      r ∈ vars') ∧
    (∀ (fuel : Nat) (vars : List String) (fname : String),
      direct_call i (.symbol r ty) fname →
      get_modified_variables check_var_name function_map (fuel + 1) i vars fname =
        .ok (add_var_to_loop vars r)) ∧
    (∀ (fuel : Nat) (vars : List String) (fname : String),
      pointer_call i (.symbol r ty) →
      get_modified_variables check_var_name function_map (fuel + 1) i vars fname =
        .ok vars) := by
  have hsym := fun vars => add_loop_var_symbol check_var_name vars r ty hty hr
  refine ⟨?_, ?_, ?_⟩
  · intro f fuel vars fname vars' hc hrun
    cases fuel with
    | zero => simp [get_modified_variables] at hrun
    | succ fuel =>
      rw [get_modified_variables_direct_call check_var_name function_map fuel i _ f vars fname hc,
        hsym] at hrun
      have hmem : r ∈ add_var_to_loop vars r := (mem_add_var_to_loop vars r r).mpr (Or.inr rfl)
      split at hrun
      · simp only [Except.ok.injEq] at hrun
        exact hrun ▸ hmem
      · split at hrun
        · cases hrun
        · split at hrun
          · simp only [Except.ok.injEq] at hrun
            exact hrun ▸ hmem
          · exact walk_body_mono _
              (fun j v v' hj => get_modified_variables_mono check_var_name function_map
                fuel j v f v' hj) _ _ _ hrun r hmem
  · intro fuel vars fname hc
    rw [get_modified_variables_direct_call check_var_name function_map fuel i _ fname vars fname
      hc, hsym]
    simp
  · intro fuel vars fname hc
    exact get_modified_variables_pointer_call check_var_name function_map fuel i _ vars fname hc

theorem get_modified_variables_return_target_witness :
    direct_call example_direct_call (.symbol "r" "signedbv") "g" ∧
    get_modified_variables (fun _ => true) example_function_map 1 example_direct_call [] "g" =
      .ok (add_var_to_loop [] "r") ∧
    get_modified_variables (fun _ => true) example_function_map 1 example_pointer_call [] "g" =
      .ok [] :=
  ⟨⟨rfl, _, _, rfl⟩,
   (get_modified_variables_return_target (fun _ => true) example_function_map
      example_direct_call "r" "signedbv" (by decide) rfl).2.1 0 [] "g" ⟨rfl, _, _, rfl⟩,
   by decide⟩

/-- C16: on a function-call instruction, `get_modified_variables` ends in `abort()` whenever
the callee is a directly named function, different from the current function, that the
function table does not hold.  It returns normally for a call through a function pointer
(set unchanged), for a call to the current function, and for a callee that is present
without an available body; in the last two cases only the return target is added. -/
theorem get_modified_variables_missing_callee (check_var_name : String → Bool)
    (function_map : List (String × goto_functiont)) (fuel : Nat) (i : instructiont)
    (ret : expr2t) (vars : List String) (fname : String) :
    (∀ (f : String), direct_call i ret f → f ≠ fname →
      function_map_find function_map f = none →
      get_modified_variables check_var_name function_map (fuel + 1) i vars fname =
        .error .abort) ∧
    (pointer_call i ret →
      get_modified_variables check_var_name function_map (fuel + 1) i vars fname =
        .ok vars) ∧
    (direct_call i ret fname →
      get_modified_variables check_var_name function_map (fuel + 1) i vars fname =
        .ok (add_loop_var check_var_name vars ret)) ∧
    (∀ (f : String) (F : goto_functiont), direct_call i ret f → f ≠ fname →
      function_map_find function_map f = some F → F.body_available = false →
      get_modified_variables check_var_name function_map (fuel + 1) i vars fname =
        .ok (add_loop_var check_var_name vars ret)) := by
  refine ⟨?_, ?_, ?_, ?_⟩
  · intro f hc hne hfind
    rw [get_modified_variables_direct_call check_var_name function_map fuel i ret f vars fname hc]
    simp [hne, hfind]
  · intro hc
    exact get_modified_variables_pointer_call check_var_name function_map fuel i ret vars fname hc
  · intro hc
    rw [get_modified_variables_direct_call check_var_name function_map fuel i ret fname vars
      fname hc]
    simp
  · intro f F hc hne hfind hbody
    rw [get_modified_variables_direct_call check_var_name function_map fuel i ret f vars fname hc]
    simp [hne, hfind, hbody]

theorem get_modified_variables_missing_callee_witness :
    direct_call example_direct_call (.symbol "r" "signedbv") "g" ∧
    function_map_find [] "g" = none ∧
    get_modified_variables (fun _ => true) [] 1 example_direct_call [] "f" = .error .abort :=
  ⟨⟨rfl, _, _, rfl⟩, rfl,
   (get_modified_variables_missing_callee (fun _ => true) [] 0 example_direct_call
      (.symbol "r" "signedbv") [] "f").1 "g" ⟨rfl, _, _, rfl⟩ (by decide) rfl⟩

/-! ### variable_sets -/

theorem add_var_to_loop_nodup (vars : List String) (x : String) (h : vars.Nodup) :
    (add_var_to_loop vars x).Nodup := by
  unfold add_var_to_loop
  split
  · exact h
  · rename_i hx
    exact List.Nodup.append h (List.nodup_singleton x) (by simpa using hx)

theorem plain_assignment_unique (check_var_name : String → Bool) (i : instructiont)
    (x v : String) (hx : plain_assignment check_var_name i x) :
    plain_assignment check_var_name i v ↔ v = x := by
  constructor
  · intro hv
    obtain ⟨_, _, ty, src, hc, _⟩ := hx
    obtain ⟨_, _, ty', src', hc', _⟩ := hv
    rw [hc] at hc'
    simp only [expr2t.code_assign.injEq, expr2t.symbol.injEq] at hc'
    exact hc'.1.1.symm
  · intro hv
    exact hv ▸ hx

theorem get_modified_variables_plain_assignment (check_var_name : String → Bool)
    (function_map : List (String × goto_functiont)) (fuel : Nat) (i : instructiont)
    (x : String) (vars : List String) (fname : String)
    (hx : plain_assignment check_var_name i x) :
    get_modified_variables check_var_name function_map (fuel + 1) i vars fname =
      .ok (add_var_to_loop vars x) := by
  obtain ⟨hty, hcv, ty, src, hc, hne⟩ := hx
  rw [get_modified_variables_succ]
  unfold get_modified_variables_body
  simp [instructiont.is_assign, hty, hc, add_loop_var, hne, hcv]

theorem get_modified_variables_no_effect (check_var_name : String → Bool)
    (function_map : List (String × goto_functiont)) (fuel : Nat) (i : instructiont)
    (vars : List String) (fname : String) (hx : no_effect i) :
    get_modified_variables check_var_name function_map (fuel + 1) i vars fname = .ok vars := by
  obtain ⟨h1, h2⟩ := hx
  rw [get_modified_variables_succ]
  unfold get_modified_variables_body
  simp [instructiont.is_assign, instructiont.is_function_call, h1, h2]

/-- A walk whose every visit succeeds, keeps the set duplicate-free and adds exactly the
variables `W i` collects, over the instructions walked, exactly the variables `W` relates
to one of them. -/
theorem walk_body_collect (visit : instructiont → List String → Except errort (List String))
    (W : instructiont → String → Prop) (body : List instructiont) :
    (∀ i ∈ body, ∀ vars : List String, vars.Nodup →
      ∃ vars', visit i vars = .ok vars' ∧ vars'.Nodup ∧ ∀ v, v ∈ vars' ↔ v ∈ vars ∨ W i v) →
    ∀ vars : List String, vars.Nodup →
      ∃ vars', walk_body visit body vars = .ok vars' ∧ vars'.Nodup ∧
        ∀ v, v ∈ vars' ↔ v ∈ vars ∨ ∃ i ∈ body, W i v := by
  induction body with
  | nil =>
    intro _ vars hnd
    exact ⟨vars, rfl, hnd, by simp⟩
  | cons a rest ih =>
    intro hall vars hnd
    obtain ⟨v1, hv1, hnd1, hm1⟩ := hall a (List.mem_cons_self a rest) vars hnd
    obtain ⟨v2, hv2, hnd2, hm2⟩ :=
      ih (fun i hi => hall i (List.mem_cons_of_mem a hi)) v1 hnd1
    refine ⟨v2, ?_, hnd2, ?_⟩
    · simp only [walk_body, hv1]
      exact hv2
    · intro v
      rw [hm2, hm1]
      simp only [List.mem_cons, exists_eq_or_imp]
      tauto

theorem direct_call_unique (i : instructiont) (ret ret' : expr2t) (f f' : String)
    (h : direct_call i ret f) (h' : direct_call i ret' f') : f = f' := by
  obtain ⟨_, fty, ops, hc⟩ := h
  obtain ⟨_, fty', ops', hc'⟩ := h'
  rw [hc] at hc'
  simp only [expr2t.code_function_call.injEq, expr2t.symbol.injEq] at hc'
  exact hc'.2.1.1

theorem callee_visit_collect (check_var_name : String → Bool)
    (function_map : List (String × goto_functiont)) (fuel : Nat) (f : String)
    (j : instructiont) (hj : (∃ y, plain_assignment check_var_name j y) ∨ no_effect j)
    (vars : List String) (hnd : vars.Nodup) :
    ∃ vars', get_modified_variables check_var_name function_map (fuel + 1) j vars f =
        .ok vars' ∧ vars'.Nodup ∧
      ∀ v, v ∈ vars' ↔ v ∈ vars ∨ plain_assignment check_var_name j v := by
  rcases hj with ⟨y, hy⟩ | hno
  · refine ⟨_, get_modified_variables_plain_assignment check_var_name function_map fuel j y
      vars f hy, add_var_to_loop_nodup vars y hnd, ?_⟩
    intro v
    rw [mem_add_var_to_loop, plain_assignment_unique check_var_name j y v hy]
  · refine ⟨_, get_modified_variables_no_effect check_var_name function_map fuel j vars f hno,
      hnd, ?_⟩
    intro v
    constructor
    · exact Or.inl
    · rintro (h | h)
      · exact h
      · exact absurd h.1 hno.1

theorem loop_visit_collect (check_var_name : String → Bool)
    (function_map : List (String × goto_functiont)) (fuel : Nat) (g : String)
    (i : instructiont) (hi : loop_instruction check_var_name function_map g i)
    (vars : List String) (hnd : vars.Nodup) :
    ∃ vars', get_modified_variables check_var_name function_map (fuel + 2) i vars g =
        .ok vars' ∧ vars'.Nodup ∧
      ∀ v, v ∈ vars' ↔ v ∈ vars ∨ loop_writes check_var_name function_map i v := by
  rcases hi with ⟨x, hx⟩ | hno | ⟨f, F, hc, hne, hfind, hbody, hall⟩
  · refine ⟨_, get_modified_variables_plain_assignment check_var_name function_map (fuel + 1)
      i x vars g hx, add_var_to_loop_nodup vars x hnd, ?_⟩
    intro v
    rw [mem_add_var_to_loop]
    constructor
    · rintro (h | h)
      · exact Or.inl h
      · exact Or.inr (Or.inl (h ▸ hx))
    · rintro (h | h | ⟨f, F, j, hc, _⟩)
      · exact Or.inl h
      · exact Or.inr ((plain_assignment_unique check_var_name i x v hx).mp h)
      · exact absurd (hx.1.symm.trans hc.1) (by decide)
  · refine ⟨_, get_modified_variables_no_effect check_var_name function_map (fuel + 1) i vars g
      hno, hnd, ?_⟩
    intro v
    constructor
    · exact Or.inl
    · rintro (h | h | ⟨f, F, j, hc, _⟩)
      · exact h
      · exact absurd h.1 hno.1
      · exact absurd hc.1 hno.2
  · obtain ⟨vars', hrun, hnd', hmem⟩ := walk_body_collect
      (fun head vars' =>
        get_modified_variables check_var_name function_map (fuel + 1) head vars' f)
      (plain_assignment check_var_name) F.body.instructions
      (fun j hj vars hnd => callee_visit_collect check_var_name function_map fuel f j
        (hall j hj) vars hnd) vars hnd
    refine ⟨vars', ?_, hnd', ?_⟩
    · rw [get_modified_variables_direct_call check_var_name function_map (fuel + 1) i .nil f
        vars g hc]
      simp only [hne, if_false, hfind, hbody, Bool.not_true, add_loop_var]
      exact hrun
    · intro v
      rw [hmem]
      constructor
      · rintro (h | ⟨j, hj, hv⟩)
        · exact Or.inl h
        · exact Or.inr (Or.inr ⟨f, F, j, hc, hfind, hj, hv⟩)
      · rintro (h | h | ⟨f', F', j, hc', hfind', hj, hv⟩)
        · exact Or.inl h
        · exact absurd (h.1.symm.trans hc.1) (by decide)
        · have hf : f' = f := direct_call_unique i _ _ f' f hc' hc
          subst hf
          rw [hfind] at hfind'
          cases hfind'
          exact Or.inr ⟨j, hj, hv⟩

theorem mem_take_drop (l : List instructiont) (h e : Nat) (j : instructiont) :
    j ∈ (l.drop h).take (e - h) ↔ ∃ k, h ≤ k ∧ k < e ∧ l[k]? = some j := by
  rw [List.mem_iff_getElem?]
  constructor
  · rintro ⟨n, hn⟩
    rw [List.getElem?_take] at hn
    split at hn
    · rw [List.getElem?_drop] at hn
      exact ⟨h + n, by omega, by omega, hn⟩
    · cases hn
  · rintro ⟨k, hk1, hk2, hk⟩
    refine ⟨k - h, ?_⟩
    rw [List.getElem?_take, if_pos (by omega), List.getElem?_drop]
    rw [show h + (k - h) = k by omega]
    exact hk

/-- C14: for a header at position `h` and an exit at position `e` of the body of a function
`g`, the loop table holding no Loop for the header, when every instruction from the header
up to the exit (exit excluded) is a plain assignment, an instruction that is neither an
assignment nor a call, or a result-less direct call of a function different from `g` that
the function table holds with a body of plain assignments (and instructions that are
neither), `create_function_loop` returns and the Loop it stores under the header has a
duplicate-free modified-variable set whose members are exactly the variables assigned in
the loop and the variables assigned in the bodies of the functions called in the loop. -/
theorem create_function_loop_modified_variables (check_var_name : String → Bool) (fuel : Nat)
    (self : goto_loopst) (h e : Nat) (hhe : h ≤ e)
    (hel : e < self.goto_function.body.instructions.length)
    (hfresh : function_loops_find self.function_loops
      (self.goto_function.body.at_pos h) = none)
    (hbody : ∀ (k : Nat) (i : instructiont), h ≤ k → k < e →
      self.goto_function.body.instructions[k]? = some i →
      loop_instruction check_var_name self.function_map self.function_name i) :
    ∃ self' l,
      create_function_loop check_var_name (fuel + 2) self
        (self.goto_function.body.at_pos h) (self.goto_function.body.at_pos e) = .ok self' ∧
      function_loops_find self'.function_loops (self.goto_function.body.at_pos h) = some l ∧
      l.modified_loop_vars.Nodup ∧
      ∀ v, v ∈ l.modified_loop_vars ↔
        ∃ (k : Nat) (i : instructiont), h ≤ k ∧ k < e ∧
          self.goto_function.body.instructions[k]? = some i ∧
          loop_writes check_var_name self.function_map i v := by
  have hie : self.goto_function.body.instructions[e]? =
      some self.goto_function.body.instructions[e] := List.getElem?_eq_getElem hel
  have heq := create_function_loop_eq check_var_name (fuel + 2) self h e _ hhe hie
  have hinit : initial_loop self (self.goto_function.body.at_pos h)
      (self.goto_function.body.at_pos e) =
      { goto_program := { object := .loop self.goto_function.body.object h, instructions := [] }
        original_loop_head := self.goto_function.body.at_pos h
        original_loop_exit := self.goto_function.body.at_pos e
        modified_loop_vars := [] } := by
    simp only [initial_loop, hfresh]
    rfl
  rw [hinit] at heq
  obtain ⟨vars, hw, hnd, hmem⟩ := walk_body_collect
    (fun i vars => get_modified_variables check_var_name self.function_map (fuel + 2) i vars
      self.function_name)
    (loop_writes check_var_name self.function_map)
    ((self.goto_function.body.instructions.drop h).take (e - h))
    (fun i hi vars hnd => by
      obtain ⟨k, hk1, hk2, hk⟩ := (mem_take_drop _ h e i).mp hi
      exact loop_visit_collect check_var_name self.function_map fuel self.function_name i
        (hbody k i hk1 hk2 hk) vars hnd)
    [] List.nodup_nil
  simp only [hw] at heq
  refine ⟨_, _, heq, function_loops_find_store _ _ _, hnd, ?_⟩
  intro v
  simp only [hmem, List.not_mem_nil, false_or]
  constructor
  · rintro ⟨i, hi, hv⟩
    obtain ⟨k, hk1, hk2, hk⟩ := (mem_take_drop _ h e i).mp hi
    exact ⟨k, i, hk1, hk2, hk, hv⟩
  · rintro ⟨k, i, hk1, hk2, hk, hv⟩
    exact ⟨i, (mem_take_drop _ h e i).mpr ⟨k, hk1, hk2, hk⟩, hv⟩

theorem create_function_loop_modified_variables_witness :
    function_loops_find example_call_loops.function_loops (example_call_loop_body.at_pos 0) =
      none ∧
    (create_function_loop (fun _ => true) 2 example_call_loops (p0 0) (p0 2)).map
      (fun s => s.function_loops.map (fun e => (e.1, e.2.modified_loop_vars))) =
      .ok [(p0 0, ["x", "y"])] ∧
    ∃ self' l,
      create_function_loop (fun _ => true) 2 example_call_loops
        (example_call_loop_body.at_pos 0) (example_call_loop_body.at_pos 2) = .ok self' ∧
      function_loops_find self'.function_loops (example_call_loop_body.at_pos 0) = some l ∧
      l.modified_loop_vars.Nodup ∧
      ∀ v, v ∈ l.modified_loop_vars ↔
        ∃ (k : Nat) (i : instructiont), 0 ≤ k ∧ k < 2 ∧
          example_call_loop_body.instructions[k]? = some i ∧
          loop_writes (fun _ => true) example_function_map i v :=
  ⟨by rfl, by rfl,
   create_function_loop_modified_variables (fun _ => true) 0 example_call_loops 0 2
     (by decide) (by decide) (by rfl)
     (fun k i _ hk2 hk => by
       have hk' : k = 0 ∨ k = 1 := by omega
       rcases hk' with rfl | rfl
       · simp only [example_call_loops, example_call_loop_body, List.getElem?_cons_zero,
           Option.some.injEq] at hk
         subst hk
         exact Or.inl ⟨"x", rfl, rfl, _, _, rfl, by decide⟩
       · simp only [example_call_loops, example_call_loop_body, List.getElem?_cons_succ,
           List.getElem?_cons_zero, Option.some.injEq] at hk
         subst hk
         refine Or.inr (Or.inr ⟨"g", _, ⟨rfl, _, _, rfl⟩, by decide, rfl, rfl, ?_⟩)
         intro j hj
         simp only [List.mem_cons, List.mem_nil_iff, or_false] at hj
         rcases hj with rfl | rfl
         · exact Or.inl ⟨"y", rfl, rfl, _, _, rfl, by decide⟩
         · exact Or.inr ⟨by decide, by decide⟩)⟩

theorem walk_body_stable
    (visit visit' : instructiont → List String → Except errort (List String))
    (body : List instructiont)
    (h : ∀ i ∈ body, ∀ vars, visit i vars ≠ .error .out_of_fuel →
      visit' i vars = visit i vars) :
    ∀ vars, walk_body visit body vars ≠ .error .out_of_fuel →
      walk_body visit' body vars = walk_body visit body vars := by
  induction body with
  | nil => intro vars _; rfl
  | cons a rest ih =>
    intro vars hne
    simp only [walk_body] at hne ⊢
    cases hv : visit a vars with
    | error err =>
      rw [hv] at hne
      have : visit a vars ≠ .error .out_of_fuel := by
        rw [hv]
        exact hne
      rw [h a (List.mem_cons_self a rest) vars this, hv]
    | ok vars' =>
      rw [hv] at hne
      rw [h a (List.mem_cons_self a rest) vars (by rw [hv]; exact fun e => by cases e), hv]
      exact ih (fun i hi => h i (List.mem_cons_of_mem a hi)) vars' hne

/-- More fuel does not change a result that is not a lack of fuel. -/
theorem get_modified_variables_fuel_succ (check_var_name : String → Bool)
    (function_map : List (String × goto_functiont)) (fuel : Nat) :
    ∀ (i : instructiont) (vars : List String) (fname : String),
      get_modified_variables check_var_name function_map fuel i vars fname ≠
        .error .out_of_fuel →
      get_modified_variables check_var_name function_map (fuel + 1) i vars fname =
        get_modified_variables check_var_name function_map fuel i vars fname := by
  induction fuel with
  | zero =>
    intro i vars fname hne
    exact absurd rfl hne
  | succ fuel ih =>
    intro i vars fname hne
    rw [get_modified_variables_succ] at hne
    rw [get_modified_variables_succ check_var_name function_map (fuel + 1),
      get_modified_variables_succ check_var_name function_map fuel]
    unfold get_modified_variables_body at hne ⊢
    cases ha : i.is_assign with
    | true => simp only [if_true]
    | false =>
      cases hf : i.is_function_call with
      | false => simp only [Bool.false_eq_true, if_false]
      | true =>
        simp only [ha, hf, Bool.false_eq_true, if_false, if_true] at hne ⊢
        cases hcode : i.code with
        | code_function_call ret function ops =>
          cases function with
          | symbol identifier fty =>
            simp only [hcode] at hne ⊢
            by_cases hid : identifier = fname
            · simp only [hid, if_true]
            · simp only [hid, if_false] at hne ⊢
              cases hfind : function_map_find function_map identifier with
              | none => rfl
              | some F =>
                simp only [hfind] at hne ⊢
                cases hb : F.body_available with
                | false => rfl
                | true =>
                  simp only [hb, Bool.not_true, Bool.false_eq_true, if_false] at hne ⊢
                  exact walk_body_stable _ _ _
                    (fun j _ vars' hj => ih j vars' identifier hj) _ hne
          | _ => rfl
        | _ => rfl

theorem get_modified_variables_fuel_le (check_var_name : String → Bool)
    (function_map : List (String × goto_functiont)) (fuel fuel' : Nat) (hle : fuel ≤ fuel')
    (i : instructiont) (vars : List String) (fname : String)
    (hne : get_modified_variables check_var_name function_map fuel i vars fname ≠
      .error .out_of_fuel) :
    get_modified_variables check_var_name function_map fuel' i vars fname =
      get_modified_variables check_var_name function_map fuel i vars fname := by
  induction fuel', hle using Nat.le_induction with
  | base => rfl
  | succ n _ ih =>
    rw [get_modified_variables_fuel_succ check_var_name function_map n i vars fname
      (by rw [ih]; exact hne), ih]

theorem walk_body_ne_out_of_fuel
    (visit : instructiont → List String → Except errort (List String))
    (body : List instructiont)
    (h : ∀ i ∈ body, ∀ vars, visit i vars ≠ .error .out_of_fuel) :
    ∀ vars, walk_body visit body vars ≠ .error .out_of_fuel := by
  induction body with
  | nil => intro vars e; cases e
  | cons a rest ih =>
    intro vars
    simp only [walk_body]
    cases hv : visit a vars with
    | error err =>
      intro e
      exact h a (List.mem_cons_self a rest) vars (hv.trans e)
    | ok vars' => exact ih (fun i hi => h i (List.mem_cons_of_mem a hi)) vars'

theorem get_modified_variables_body_bound (check_var_name : String → Bool)
    (function_map : List (String × goto_functiont)) (f : String) (body : List instructiont)
    (h : ∀ j ∈ body, ∃ N, ∀ vars,
      get_modified_variables check_var_name function_map N j vars f ≠ .error .out_of_fuel) :
    ∃ N, ∀ j ∈ body, ∀ vars,
      get_modified_variables check_var_name function_map N j vars f ≠ .error .out_of_fuel := by
  induction body with
  | nil => exact ⟨0, fun j hj => absurd hj (List.not_mem_nil j)⟩
  | cons a rest ih =>
    obtain ⟨N1, h1⟩ := h a (List.mem_cons_self a rest)
    obtain ⟨N2, h2⟩ := ih (fun j hj => h j (List.mem_cons_of_mem a hj))
    refine ⟨max N1 N2, ?_⟩
    intro j hj vars
    rcases List.mem_cons.mp hj with rfl | hj
    · rw [get_modified_variables_fuel_le check_var_name function_map N1 _ (le_max_left N1 N2)
        j vars f (h1 vars)]
      exact h1 vars
    · rw [get_modified_variables_fuel_le check_var_name function_map N2 _ (le_max_right N1 N2)
        j vars f (h2 j hj vars)]
      exact h2 j hj vars

/-- One instruction is analysed with finite fuel once the bodies of the functions it calls
are. -/
theorem get_modified_variables_instruction_bound (check_var_name : String → Bool)
    (function_map : List (String × goto_functiont)) (i : instructiont) (fname : String)
    (hcallee : ∀ (ret : expr2t) (g : String) (G : goto_functiont), direct_call i ret g →
      g ≠ fname → function_map_find function_map g = some G → G.body_available = true →
      ∃ N, ∀ j ∈ G.body.instructions, ∀ vars,
        get_modified_variables check_var_name function_map N j vars g ≠
          .error .out_of_fuel) :
    ∃ N, ∀ vars,
      get_modified_variables check_var_name function_map N i vars fname ≠
        .error .out_of_fuel := by
  cases ha : i.is_assign with
  | true =>
    refine ⟨1, fun vars => ?_⟩
    rw [get_modified_variables_succ]
    unfold get_modified_variables_body
    simp only [ha, if_true]
    split <;> exact fun e => by cases e
  | false =>
    cases hf : i.is_function_call with
    | false =>
      refine ⟨1, fun vars => ?_⟩
      rw [get_modified_variables_succ]
      unfold get_modified_variables_body
      simp only [ha, hf, Bool.false_eq_true, if_false]
      exact fun e => by cases e
    | true =>
      have hty : i.type = .FUNCTION_CALL := by
        simpa [instructiont.is_function_call] using hf
      cases hcode : i.code with
      | code_function_call ret function ops =>
        cases function with
        | symbol identifier fty =>
          have hc : direct_call i ret identifier := ⟨hty, fty, ops, hcode⟩
          by_cases hid : identifier = fname
          · refine ⟨1, fun vars => ?_⟩
            rw [get_modified_variables_direct_call check_var_name function_map 0 i ret
              identifier vars fname hc, if_pos hid]
            exact fun e => by cases e
          · cases hfind : function_map_find function_map identifier with
            | none =>
              refine ⟨1, fun vars => ?_⟩
              rw [get_modified_variables_direct_call check_var_name function_map 0 i ret
                identifier vars fname hc, if_neg hid]
              simp only [hfind]
              exact fun e => by cases e
            | some G =>
              cases hb : G.body_available with
              | false =>
                refine ⟨1, fun vars => ?_⟩
                rw [get_modified_variables_direct_call check_var_name function_map 0 i ret
                  identifier vars fname hc, if_neg hid]
                simp only [hfind, hb, Bool.not_false, if_true]
                exact fun e => by cases e
              | true =>
                obtain ⟨N, hN⟩ := hcallee ret identifier G hc hid hfind hb
                refine ⟨N + 1, fun vars => ?_⟩
                rw [get_modified_variables_direct_call check_var_name function_map N i ret
                  identifier vars fname hc, if_neg hid]
                simp only [hfind, hb, Bool.not_true, Bool.false_eq_true, if_false]
                exact walk_body_ne_out_of_fuel _ _ (fun j hj vars' => hN j hj vars') _
        | _ =>
          refine ⟨1, fun vars => ?_⟩
          rw [get_modified_variables_succ]
          unfold get_modified_variables_body
          simp only [ha, hf, hcode, Bool.false_eq_true, if_false, if_true]
          exact fun e => by cases e
      | _ =>
        refine ⟨1, fun vars => ?_⟩
        rw [get_modified_variables_succ]
        unfold get_modified_variables_body
        simp only [ha, hf, hcode, Bool.false_eq_true, if_false, if_true]
        exact fun e => by cases e

/-- With an acyclic call graph (self-edges removed), the body of every function of the
table is analysed with finite fuel. -/
theorem get_modified_variables_function_bound (check_var_name : String → Bool)
    (function_map : List (String × goto_functiont))
    (hacyclic : WellFounded (fun g f => calls function_map f g)) (f : String) :
    ∀ F, function_map_find function_map f = some F → F.body_available = true →
      ∃ N, ∀ j ∈ F.body.instructions, ∀ vars,
        get_modified_variables check_var_name function_map N j vars f ≠
          .error .out_of_fuel := by
  induction f using hacyclic.induction with
  | _ f ih =>
    intro F hfind hb
    apply get_modified_variables_body_bound
    intro j hj
    apply get_modified_variables_instruction_bound
    intro ret g G hc hne hfindg hbg
    exact ih g ⟨F, j, ret, hfind, hb, hj, hc, hne⟩ G hfindg hbg

theorem calls_wf_of_rank (function_map : List (String × goto_functiont)) (rank : String → Nat)
    (h : ∀ f g, calls function_map f g → rank g < rank f) :
    WellFounded (fun g f => calls function_map f g) :=
  Subrelation.wf (fun {g f} hc => h f g hc) (measure rank).wf

theorem example_recursive_function_map_acyclic :
    WellFounded (fun g f => calls example_recursive_function_map f g) := by
  apply calls_wf_of_rank _ (fun s => if s = "f" then 1 else 0)
  rintro f g ⟨F, i, ret, hfind, _, hi, ⟨hty, fty, ops, hcode⟩, hne⟩
  simp only [example_recursive_function_map, example_function_map, function_map_find] at hfind
  split at hfind
  · rename_i hf
    subst hf
    simp only [Option.some.injEq] at hfind
    subst hfind
    simp only [List.mem_cons, List.mem_nil_iff, or_false] at hi
    rcases hi with rfl | rfl | rfl
    · simp only [expr2t.code_function_call.injEq, expr2t.symbol.injEq] at hcode
      exact absurd hcode.2.1.1.symm hne
    · simp only [expr2t.code_function_call.injEq, expr2t.symbol.injEq] at hcode
      rw [← hcode.2.1.1]
      decide
    · cases hty
  · split at hfind
    · simp only [Option.some.injEq] at hfind
      subst hfind
      simp only [List.mem_cons, List.mem_nil_iff, or_false] at hi
      rcases hi with rfl | rfl
      · cases hty
      · cases hty
    · cases hfind

/-- C15: for a function table whose call graph, self-edges removed, is acyclic, and every
instruction, `get_modified_variables` terminates: from some recursion depth on it yields the
same result, which is not a lack of fuel.  On a call whose callee is the current function
it returns at depth one, whatever the function table holds, with the set obtained by adding
the return target alone: for a return target that is the symbol `r` every member of the
new set is `r` or was there before, and with no return target the set is unchanged. -/
theorem get_modified_variables_terminates (check_var_name : String → Bool)
    (function_map : List (String × goto_functiont))
    (hacyclic : WellFounded (fun g f => calls function_map f g))
    (i : instructiont) (fname : String) :
    (∃ N, ∀ vars,
      get_modified_variables check_var_name function_map N i vars fname ≠
        .error .out_of_fuel ∧
      ∀ fuel, N ≤ fuel →
        get_modified_variables check_var_name function_map fuel i vars fname =
          get_modified_variables check_var_name function_map N i vars fname) ∧
    (∀ ret, direct_call i ret fname →
      ∀ (table : List (String × goto_functiont)) (fuel : Nat) (vars : List String),
        get_modified_variables check_var_name table (fuel + 1) i vars fname =
          .ok (add_loop_var check_var_name vars ret) ∧
        (∀ r ty, ret = .symbol r ty →
          ∀ v ∈ add_loop_var check_var_name vars ret, v ∈ vars ∨ v = r) ∧
        (ret = .nil → add_loop_var check_var_name vars ret = vars)) := by
  constructor
  · obtain ⟨N, hN⟩ := get_modified_variables_instruction_bound check_var_name function_map i
      fname (fun ret g G _ _ hfind hb =>
        get_modified_variables_function_bound check_var_name function_map hacyclic g G hfind hb)
    exact ⟨N, fun vars => ⟨hN vars, fun fuel hle =>
      get_modified_variables_fuel_le check_var_name function_map N fuel hle i vars fname
        (hN vars)⟩⟩
  · intro ret hc table fuel vars
    refine ⟨?_, ?_, ?_⟩
    · rw [get_modified_variables_direct_call check_var_name table fuel i ret fname vars fname
        hc, if_pos rfl]
    · rintro r ty rfl v hv
      simp only [add_loop_var] at hv
      split at hv
      · split at hv
        · exact (mem_add_var_to_loop vars r v).mp hv
        · exact Or.inl hv
      · exact Or.inl hv
    · rintro rfl
      simp [add_loop_var]

theorem get_modified_variables_terminates_witness :
    WellFounded (fun g f => calls example_recursive_function_map f g) ∧
    get_modified_variables (fun _ => true) example_recursive_function_map 2
      example_direct_call [] "f" = .ok ["r", "y"] ∧
    ∃ N, ∀ vars,
      get_modified_variables (fun _ => true) example_recursive_function_map N
          example_direct_call vars "f" ≠ .error .out_of_fuel ∧
      ∀ fuel, N ≤ fuel →
        get_modified_variables (fun _ => true) example_recursive_function_map fuel
            example_direct_call vars "f" =
          get_modified_variables (fun _ => true) example_recursive_function_map N
            example_direct_call vars "f" :=
  ⟨example_recursive_function_map_acyclic, by decide,
   (get_modified_variables_terminates (fun _ => true) example_recursive_function_map
      example_recursive_function_map_acyclic example_direct_call "f").1⟩

/-! ### goto_trace -/

set_option maxRecDepth 100000

set_option maxRecDepth 100000

theorem graphml_step_skipped (ns : namespacet) (st : graphml_statet) (it : goto_trace_stept)
    (h : skipped_step ns it) : graphml_step ns st it = .ok st := by
  unfold graphml_step
  rcases h with h | h | ⟨identifier, hid, htmp⟩
  · simp [h]
  · simp [h]
  · by_cases hc : (!(decide (it.type = .ASSIGNMENT)) || is_internal_call ns it) = true
    · rw [if_pos hc]
    · rw [if_neg hc]
      simp only [hid, htmp, if_true]

theorem graphml_loop_skipped (ns : namespacet) (goto_trace : List goto_trace_stept)
    (h : ∀ it ∈ goto_trace, skipped_step ns it) (st : graphml_statet) :
    graphml_loop ns goto_trace st = .ok st := by
  induction goto_trace with
  | nil => rfl
  | cons it rest ih =>
    simp only [graphml_loop, graphml_step_skipped ns st it (h it (List.mem_cons_self it rest))]
    exact ih (fun s hs => h s (List.mem_cons_of_mem it hs))

/-- C19 (what the code does): for every trace without a qualifying step, the empty trace
included, `generate_goto_trace_in_graphml_format` builds a graph with one node only, the
violation node: no entry node is created, the document is not set up, and the source of
the single edge is the empty tree that `last_created_node` still is. -/
theorem generate_goto_trace_in_graphml_format_without_entry_node (ns : namespacet)
    (goto_trace : List goto_trace_stept) (h : ∀ it ∈ goto_trace, skipped_step ns it) :
    generate_goto_trace_in_graphml_format ns goto_trace =
      .ok { created := false
            nodes := [{ id := 0, props := { isEntryNode := false, isViolationNode := true } }]
            edges :=
              [{ props := {}
                 source := none
                 target :=
                   some { id := 0, props := { isEntryNode := false, isViolationNode := true } } }] } := by
  unfold generate_goto_trace_in_graphml_format
  rw [graphml_loop_skipped ns goto_trace h]
  rfl

theorem generate_goto_trace_in_graphml_format_without_entry_node_witness :
    (generate_goto_trace_in_graphml_format example_namespace []).map
        (fun g => (g.nodes.length, g.nodes.map (fun n => n.props.isEntryNode),
          g.edges.map (fun e => e.source))) =
      .ok (1, [false], [none]) ∧
    (generate_goto_trace_in_graphml_format example_namespace example_skipped_trace).map
        (fun g => (g.nodes.length, g.nodes.map (fun n => n.props.isEntryNode),
          g.edges.map (fun e => e.source))) =
      .ok (1, [false], [none]) :=
  ⟨congrArg (Except.map _)
     (generate_goto_trace_in_graphml_format_without_entry_node example_namespace []
       (fun it hit => absurd hit (List.not_mem_nil it))),
   congrArg (Except.map _)
     (generate_goto_trace_in_graphml_format_without_entry_node example_namespace
       example_skipped_trace
       (fun it hit => by
         simp only [example_skipped_trace, List.mem_cons, List.mem_nil_iff, or_false] at hit
         rcases hit with rfl | rfl
         · exact Or.inr (Or.inr ⟨_, rfl, by decide⟩)
         · exact Or.inl (by decide)))⟩

/-! ### expressions_and_kinds -/

mutual
theorem add_loop_var_mem (check_var_name : String → Bool) :
    ∀ (e : expr2t) (vars : List String) (v : String),
      v ∈ add_loop_var check_var_name vars e ↔
        v ∈ vars ∨ ∃ type_id, (v, type_id) ∈ symbols_of e ∧ type_id ≠ "code" ∧
          check_var_name v = true
  | .symbol thename type_id, vars, v => by
    simp only [add_loop_var, symbols_of, List.mem_singleton, Prod.mk.injEq]
    split
    · rename_i hty
      split
      · rename_i hcv
        rw [mem_add_var_to_loop]
        constructor
        · rintro (h | h)
          · exact Or.inl h
          · exact Or.inr ⟨type_id, ⟨h, rfl⟩, hty, h ▸ hcv⟩
        · rintro (h | ⟨_, ⟨h, _⟩, _, _⟩)
          · exact Or.inl h
          · exact Or.inr h
      · rename_i hcv
        constructor
        · exact Or.inl
        · rintro (h | ⟨_, ⟨h, _⟩, _, h3⟩)
          · exact h
          · exact absurd (h ▸ h3) hcv
    · rename_i hty
      constructor
      · exact Or.inl
      · rintro (h | ⟨_, ⟨_, h2⟩, h3, _⟩)
        · exact h
        · exact absurd (h2 ▸ h3) hty
  | .nil, vars, v => by simp [add_loop_var, symbols_of]
  | .constant_bool _, vars, v => by simp [add_loop_var, symbols_of]
  | .dereference value, vars, v => by
    simp only [add_loop_var, symbols_of]
    exact add_loop_var_mem check_var_name value vars v
  | .code_assign target source, vars, v => by
    simp only [add_loop_var, symbols_of, List.mem_append]
    rw [add_loop_var_mem check_var_name source, add_loop_var_mem check_var_name target]
    constructor
    · rintro ((h | ⟨ty, h1, h2⟩) | ⟨ty, h1, h2⟩)
      · exact Or.inl h
      · exact Or.inr ⟨ty, Or.inl h1, h2⟩
      · exact Or.inr ⟨ty, Or.inr h1, h2⟩
    · rintro (h | ⟨ty, h1 | h1, h2⟩)
      · exact Or.inl (Or.inl h)
      · exact Or.inl (Or.inr ⟨ty, h1, h2⟩)
      · exact Or.inr ⟨ty, h1, h2⟩
  | .code_function_call ret function operands, vars, v => by
    simp only [add_loop_var, symbols_of, List.mem_append]
    rw [add_loop_var_operands_mem check_var_name operands,
      add_loop_var_mem check_var_name function, add_loop_var_mem check_var_name ret]
    constructor
    · rintro (((h | ⟨ty, h1, h2⟩) | ⟨ty, h1, h2⟩) | ⟨ty, h1, h2⟩)
      · exact Or.inl h
      · exact Or.inr ⟨ty, Or.inl (Or.inl h1), h2⟩
      · exact Or.inr ⟨ty, Or.inl (Or.inr h1), h2⟩
      · exact Or.inr ⟨ty, Or.inr h1, h2⟩
    · rintro (h | ⟨ty, (h1 | h1) | h1, h2⟩)
      · exact Or.inl (Or.inl (Or.inl h))
      · exact Or.inl (Or.inl (Or.inr ⟨ty, h1, h2⟩))
      · exact Or.inl (Or.inr ⟨ty, h1, h2⟩)
      · exact Or.inr ⟨ty, h1, h2⟩
  | .other _ operands, vars, v => by
    simp only [add_loop_var, symbols_of]
    exact add_loop_var_operands_mem check_var_name operands vars v
theorem add_loop_var_operands_mem (check_var_name : String → Bool) :
    ∀ (es : List expr2t) (vars : List String) (v : String),
      v ∈ add_loop_var_operands check_var_name vars es ↔
        v ∈ vars ∨ ∃ type_id, (v, type_id) ∈ symbols_of_operands es ∧ type_id ≠ "code" ∧
          check_var_name v = true
  | [], vars, v => by simp [add_loop_var_operands, symbols_of_operands]
  | e :: es, vars, v => by
    simp only [add_loop_var_operands, symbols_of_operands, List.mem_append]
    rw [add_loop_var_operands_mem check_var_name es, add_loop_var_mem check_var_name e]
    constructor
    · rintro ((h | ⟨ty, h1, h2⟩) | ⟨ty, h1, h2⟩)
      · exact Or.inl h
      · exact Or.inr ⟨ty, Or.inl h1, h2⟩
      · exact Or.inr ⟨ty, Or.inr h1, h2⟩
    · rintro (h | ⟨ty, h1 | h1, h2⟩)
      · exact Or.inl (Or.inl h)
      · exact Or.inl (Or.inr ⟨ty, h1, h2⟩)
      · exact Or.inr ⟨ty, h1, h2⟩
end

mutual
theorem add_loop_var_nodup (check_var_name : String → Bool) :
    ∀ (e : expr2t) (vars : List String), vars.Nodup →
      (add_loop_var check_var_name vars e).Nodup
  | .symbol thename type_id, vars, h => by
    simp only [add_loop_var]
    split
    · split
      · exact add_var_to_loop_nodup vars thename h
      · exact h
    · exact h
  | .nil, vars, h => by simpa only [add_loop_var] using h
  | .constant_bool _, vars, h => by simpa only [add_loop_var] using h
  | .dereference value, vars, h => by
    simp only [add_loop_var]
    exact add_loop_var_nodup check_var_name value vars h
  | .code_assign target source, vars, h => by
    simp only [add_loop_var]
    exact add_loop_var_nodup check_var_name source _
      (add_loop_var_nodup check_var_name target vars h)
  | .code_function_call ret function operands, vars, h => by
    simp only [add_loop_var]
    exact add_loop_var_operands_nodup check_var_name operands _
      (add_loop_var_nodup check_var_name function _
        (add_loop_var_nodup check_var_name ret vars h))
  | .other _ operands, vars, h => by
    simp only [add_loop_var]
    exact add_loop_var_operands_nodup check_var_name operands vars h
theorem add_loop_var_operands_nodup (check_var_name : String → Bool) :
    ∀ (es : List expr2t) (vars : List String), vars.Nodup →
      (add_loop_var_operands check_var_name vars es).Nodup
  | [], vars, h => by simpa only [add_loop_var_operands] using h
  | e :: es, vars, h => by
    simp only [add_loop_var_operands]
    exact add_loop_var_operands_nodup check_var_name es _
      (add_loop_var_nodup check_var_name e vars h)
end

/-- C28: for every expression `e`, `add_loop_var(loop, e)` leaves in the variable set of the
loop what was there and adds exactly the symbols that occur in `e` at any depth, have a type
other than `code` and pass the name filter; it adds no duplicate.  A symbol of code type
is not added, and for the assignment `a[i] = 0` analysed by `get_modified_variables` both
`a` and `i` are added. -/
theorem add_loop_var_adds_qualifying_symbols (check_var_name : String → Bool) (e : expr2t)
    (vars : List String) :
    (∀ v, v ∈ add_loop_var check_var_name vars e ↔
      v ∈ vars ∨ qualifying_symbol check_var_name e v) ∧
    ((vars.Nodup → (add_loop_var check_var_name vars e).Nodup) ∧
      ∀ f, add_loop_var check_var_name vars (.symbol f "code") = vars) ∧
    example_index_assignment.is_assign = true ∧
    get_modified_variables (fun _ => true) [] 1 example_index_assignment [] "f" =
      .ok ["a", "i"] := by
  refine ⟨fun v => add_loop_var_mem check_var_name e vars v,
    ⟨add_loop_var_nodup check_var_name e vars, fun f => by simp [add_loop_var]⟩, rfl, ?_⟩
  decide

theorem example_mutual_out_of_fuel (check_var_name : String → Bool) (fuel : Nat) :
    (∀ (vars : List String) (fname : String), fname ≠ "f" →
      get_modified_variables check_var_name example_mutual_function_map fuel
        (example_call "f" 0) vars fname = .error .out_of_fuel) ∧
    (∀ (vars : List String) (fname : String), fname ≠ "g" →
      get_modified_variables check_var_name example_mutual_function_map fuel
        (example_call "g" 0) vars fname = .error .out_of_fuel) := by
  induction fuel with
  | zero => exact ⟨fun _ _ _ => rfl, fun _ _ _ => rfl⟩
  | succ fuel ih =>
    constructor
    · intro vars fname hne
      rw [get_modified_variables_direct_call check_var_name example_mutual_function_map fuel
        (example_call "f" 0) .nil "f" vars fname ⟨rfl, _, _, rfl⟩]
      rw [if_neg (fun h => hne h.symm)]
      have hfind : function_map_find example_mutual_function_map "f" =
          some { body :=
                  { object := .program 1
                    instructions :=
                      [example_call "g" 0, example_instruction .END_FUNCTION .nil [] 1] }
                 body_available := true } := rfl
      simp only [hfind, Bool.not_true, Bool.false_eq_true, if_false, walk_body,
        ih.2 _ "f" (by decide)]
    · intro vars fname hne
      rw [get_modified_variables_direct_call check_var_name example_mutual_function_map fuel
        (example_call "g" 0) .nil "g" vars fname ⟨rfl, _, _, rfl⟩]
      rw [if_neg (fun h => hne h.symm)]
      have hfind : function_map_find example_mutual_function_map "g" =
          some { body :=
                  { object := .program 2
                    instructions :=
                      [example_call "f" 0, example_instruction .END_FUNCTION .nil [] 1] }
                 body_available := true } := rfl
      simp only [hfind, Bool.not_true, Bool.false_eq_true, if_false, walk_body,
        ih.1 _ "g" (by decide)]

/-- C27: in the function table where the body of `f` calls `g` and the body of `g` calls
`f`, both bodies available, `get_modified_variables` on a direct call of `f` from a third
function `main` does not terminate: whatever depth of recursion is allowed, the walk through
the two bodies is still going on when the depth is used up. -/
theorem get_modified_variables_mutual_recursion (check_var_name : String → Bool) :
    calls example_mutual_function_map "f" "g" ∧
    calls example_mutual_function_map "g" "f" ∧
    direct_call (example_call "f" 0) .nil "f" ∧
    ∀ (fuel : Nat) (vars : List String),
      get_modified_variables check_var_name example_mutual_function_map fuel
        (example_call "f" 0) vars "main" = .error .out_of_fuel :=
  ⟨⟨_, example_call "g" 0, .nil, rfl, rfl, List.mem_cons_self _ _, ⟨rfl, _, _, rfl⟩, by decide⟩,
   ⟨_, example_call "f" 0, .nil, rfl, rfl, List.mem_cons_self _ _, ⟨rfl, _, _, rfl⟩, by decide⟩,
   ⟨rfl, _, _, rfl⟩,
   fun fuel vars => (example_mutual_out_of_fuel check_var_name fuel).1 vars "main" (by decide)⟩

/-- C29 (what the code does): the two overloads of `get_successors` return the same list
exactly at the positions that do not hold a throw.  At a throw the mutable overload
returns no successor and the const overload, which has no branch for throw, returns the
next position; in the body `0: SKIP; ...; 5: THROW; 6: RETURN; 7: END_FUNCTION` they give
the empty list and the position 6. -/
theorem get_successors_overloads_differ_on_throw (P : goto_programt) (t : targett) :
    (P.get_successors t = P.get_successors_const t ↔
      ∀ i, P.deref t = some i → i.type ≠ .THROW) ∧
    (∀ i, P.deref t = some i → i.type = .THROW →
      P.get_successors t = .ok [] ∧
      P.get_successors_const t = .ok [⟨t.object, t.pos + 1⟩]) ∧
    example_successors.get_successors (p0 5) = .ok [] ∧
    example_successors.get_successors_const (p0 5) = .ok [p0 6] := by
  have hthrow : ∀ i, P.deref t = some i → i.type = .THROW →
      P.get_successors t = .ok [] ∧
      P.get_successors_const t = .ok [⟨t.object, t.pos + 1⟩] := by
    intro i hi hk
    have hne := deref_some_ne_end hi
    constructor
    · simp [get_successors, hne, hi, instructiont.is_goto, instructiont.is_throw, hk]
    · simp [get_successors_const, hne, hi, instructiont.is_goto, instructiont.is_return,
        instructiont.is_assume, hk]
  refine ⟨?_, hthrow, by decide, by decide⟩
  constructor
  · intro heq i hi hk
    obtain ⟨h1, h2⟩ := hthrow i hi hk
    rw [h1, h2] at heq
    simp at heq
  · intro h
    unfold get_successors get_successors_const
    split
    · rfl
    · cases hd : P.deref t with
      | none => rfl
      | some i =>
        have hk : i.is_throw = false := by
          simpa [instructiont.is_throw] using h i hd
        simp only [hk, Bool.false_eq_true, if_false]

/-- C30 (what the code does): `operator<<` for instruction kinds writes the upper-case name
of a kind that has a case of its own and returns.  For the kinds DECL, DEAD and
THROW_DECL_END it takes the default branch, which writes `? (number: ` and then applies
the operator to the same value again: whatever depth of recursion is allowed, the run is
still in that recursion when the depth is used up, and the closing bracket is never
written. -/
theorem operator_shift_left_unlisted_kind (t : goto_program_instruction_typet) (fuel : Nat) :
    (listed_kind t = true →
      operator_shift_left (fuel + 1) t = { text := kind_name t, error := none }) ∧
    (listed_kind t = false →
      (operator_shift_left fuel t).error = some .out_of_fuel ∧
      operator_shift_left (fuel + 1) t =
        (operator_shift_left fuel t).after "? (number: ") ∧
    operator_shift_left 2 .DECL =
      { text := "? (number: ? (number: ", error := some .out_of_fuel } := by
  have herr : ∀ n, listed_kind t = false →
      (operator_shift_left n t).error = some .out_of_fuel := by
    intro n
    induction n with
    | zero => intro _; rfl
    | succ n ih =>
      intro h
      have := ih h
      cases t <;> simp_all [listed_kind, operator_shift_left, writtent.after,
        writtent.followed_by]
  refine ⟨?_, ?_, by decide⟩
  · intro h
    cases t <;> simp_all [listed_kind, operator_shift_left, kind_name]
  · intro h
    refine ⟨herr fuel h, ?_⟩
    have := herr fuel h
    cases t <;> simp_all [listed_kind, operator_shift_left, writtent.after,
      writtent.followed_by]

theorem operator_shift_left_unlisted_kind_witness :
    listed_kind .GOTO = true ∧ listed_kind .DEAD = false ∧
    operator_shift_left (0 + 1) .GOTO = { text := kind_name .GOTO, error := none } ∧
    (operator_shift_left 5 .DEAD).error = some .out_of_fuel :=
  ⟨rfl, rfl,
   (operator_shift_left_unlisted_kind .GOTO 0).1 rfl,
   ((operator_shift_left_unlisted_kind .DEAD 5).2.1 rfl).1⟩

/-! ### foreign_targets -/

theorem remap_targets_error (m : List (targett × targett)) (ts : List targett) (e : errort)
    (h : remap_targets m ts = .error e) : e = target_not_found := by
  induction ts generalizing e with
  | nil => simp [remap_targets] at h
  | cons t rest ih =>
    simp only [remap_targets] at h
    cases hf : targets_mapping_find m t with
    | none =>
      simp only [hf, Except.error.injEq] at h
      exact h.symm
    | some t' =>
      simp only [hf] at h
      cases hr : remap_targets m rest with
      | error e' =>
        simp only [hr, Except.error.injEq] at h
        exact h ▸ ih e' hr
      | ok rest' => simp [hr] at h

theorem remap_targets_missing (m : List (targett × targett)) (ts : List targett)
    (h : ∃ t ∈ ts, targets_mapping_find m t = none) :
    remap_targets m ts = .error target_not_found := by
  induction ts with
  | nil =>
    obtain ⟨t, ht, _⟩ := h
    exact absurd ht (List.not_mem_nil t)
  | cons t rest ih =>
    simp only [remap_targets]
    cases hf : targets_mapping_find m t with
    | none => rfl
    | some t' =>
      obtain ⟨t1, ht1, hn⟩ := h
      have hrest : ∃ t ∈ rest, targets_mapping_find m t = none := by
        rcases List.mem_cons.mp ht1 with rfl | h1
        · rw [hf] at hn
          cases hn
        · exact ⟨t1, h1, hn⟩
      simp only [ih hrest]

theorem remap_targets_found (m : List (targett × targett)) (ts ts' : List targett)
    (h : remap_targets m ts = .ok ts') : ∀ t ∈ ts, targets_mapping_find m t ≠ none := by
  intro t ht hn
  rw [remap_targets_missing m ts ⟨t, ht, hn⟩] at h
  cases h

theorem remap_instructions_missing (m : List (targett × targett)) (l : List instructiont)
    (h : ∃ i ∈ l, ∃ t ∈ i.targets, targets_mapping_find m t = none) :
    remap_instructions m l = .error target_not_found := by
  induction l with
  | nil =>
    obtain ⟨i, hi, _⟩ := h
    exact absurd hi (List.not_mem_nil i)
  | cons it rest ih =>
    simp only [remap_instructions]
    cases hr : remap_targets m it.targets with
    | error e =>
      simp only [remap_targets_error m it.targets e hr]
    | ok ts =>
      obtain ⟨i, hi, t, ht, hn⟩ := h
      have hrest : ∃ i ∈ rest, ∃ t ∈ i.targets, targets_mapping_find m t = none := by
        rcases List.mem_cons.mp hi with rfl | h1
        · exact absurd hn (remap_targets_found m _ ts hr t ht)
        · exact ⟨i, h1, t, ht, hn⟩
      simp only [ih hrest]

theorem number_targets_error :
    ∀ (l : List instructiont) (cnt : Nat) (e : errort),
      number_targets l cnt = .error e → e = .assertion_failed := by
  intro l
  induction l with
  | nil => intro cnt e h; simp [number_targets] at h
  | cons it rest ih =>
    intro cnt e h
    simp only [number_targets] at h
    split at h
    · split at h
      · simp only [Except.error.injEq] at h
        exact h.symm
      · cases hr : number_targets rest ((cnt + 1) % UINT_MOD) with
        | error e' =>
          simp only [hr, Except.error.injEq] at h
          exact h ▸ ih _ _ hr
        | ok rest' => simp [hr] at h
    · cases hr : number_targets rest cnt with
      | error e' =>
        simp only [hr, Except.error.injEq] at h
        exact h ▸ ih _ _ hr
      | ok rest' => simp [hr] at h

theorem compute_target_numbers_cases (P : goto_programt) :
    compute_target_numbers P =
      (match number_targets (marked_program P).instructions 0 with
       | .error e => .error e
       | .ok l =>
         if check_targets { object := P.object, instructions := l } = true
         then Except.ok { object := P.object, instructions := l }
         else Except.error errort.assertion_failed) := by
  have hobj := (marked_retargeted P).1
  simp only at hobj
  unfold compute_target_numbers
  simp only
  change (match number_targets (marked_program P).instructions 0 with
    | .error e => Except.error e
    | .ok l =>
      if check_targets { object := (marked_program P).object, instructions := l } = true
      then (Except.ok { object := (marked_program P).object, instructions := l } :
        Except errort goto_programt)
      else Except.error errort.assertion_failed) = _
  rw [hobj]

theorem compute_target_numbers_error (P : goto_programt) (e : errort)
    (h : compute_target_numbers P = .error e) : e = .assertion_failed := by
  rw [compute_target_numbers_cases] at h
  cases h3 : number_targets (marked_program P).instructions 0 with
  | error e' =>
    simp only [h3, Except.error.injEq] at h
    exact h ▸ number_targets_error _ _ _ h3
  | ok l =>
    simp only [h3] at h
    split at h
    · cases h
    · simp only [Except.error.injEq] at h
      exact h.symm

theorem targets_inside_false_iff (P : goto_programt) :
    targets_inside P = false ↔
      ∃ i ∈ P.instructions, ∃ t ∈ i.targets, P.deref t = none := by
  rw [← Bool.not_eq_true]
  simp only [targets_inside, List.all_eq_true, Bool.and_eq_true, decide_eq_true_eq, not_forall,
    deref]
  constructor
  · rintro ⟨i, hi, t, ht, hn⟩
    refine ⟨i, hi, t, ht, ?_⟩
    by_cases ho : t.object = P.object
    · simp only [ho, if_true]
      exact List.getElem?_eq_none (by
        by_contra hlt
        exact hn ⟨ho, by omega⟩)
    · simp [ho]
  · rintro ⟨i, hi, t, ht, hd⟩
    refine ⟨i, hi, t, ht, ?_⟩
    rintro ⟨ho, hlt⟩
    simp only [ho, if_true] at hd
    rw [List.getElem?_eq_getElem hlt] at hd
    cases hd

/-- C1 (as stated, refuted): the destination may not be the source itself.  The body
`0: SKIP; 1: x = 1; 2: GOTO 2; 3: IF g THEN GOTO 0; 4: END_FUNCTION` has five instructions
and all its targets inside, and copying it onto itself leaves no instruction: `clear()`
empties the one program before the first pass. -/
theorem copy_from_onto_itself :
    targets_inside example_loop_body = true ∧
    example_loop_body.instructions.length = 5 ∧
    (copy_from example_loop_body example_loop_body).map (fun Q => Q.instructions.length) =
      .ok 0 := by
  decide

theorem copy_from_self (dst src : goto_programt) (h : dst.object = src.object) :
    copy_from dst src = .ok { object := dst.object, instructions := [] } := by
  unfold copy_from
  simp only [h, if_true]
  rfl

/-- C21 (as stated, refuted): the body `0: SKIP; 1: IF g THEN GOTO 3; 2: SKIP;
3: IF h THEN GOTO 0; 4: IF k THEN GOTO end` holds a target that is no instruction of it,
the end position, and copying it onto itself does not fail: `clear()` empties the program
and both passes run over nothing. -/
theorem copy_from_onto_itself_no_error :
    example_numbering.deref (p0 5) = none ∧
    (example_numbering.instructions.map (fun i => i.targets)) = [[], [p0 3], [], [p0 0], [p0 5]] ∧
    (copy_from example_numbering example_numbering).map (fun Q => Q.instructions.length) =
      .ok 0 :=
  ⟨rfl, rfl, rfl⟩

/-- C21 (amended): for a destination object other than the source, `copy_from(src)` ends in
the exception `copy_from: target not found` if and only if some instruction of `src` holds
a target reference that is not an instruction of `src` (a reference into another program or
to the end position of `src`), and when every target of `src` is an instruction of `src`
the call completes, the source having fewer instructions than the value of the unset
sentinel.  Called on the source itself, `copy_from` empties the program and completes
whatever its targets are. -/
theorem copy_from_target_not_found (dst src : goto_programt) :
    (dst.object ≠ src.object →
      (copy_from dst src = .error target_not_found ↔
        ∃ i ∈ src.instructions, ∃ t ∈ i.targets, src.deref t = none) ∧
      ((∀ i ∈ src.instructions, ∀ t ∈ i.targets, (src.deref t).isSome = true) →
        src.instructions.length < unset_target_number → ∃ Q, copy_from dst src = .ok Q)) ∧
    (dst.object = src.object →
      copy_from dst src = .ok { object := dst.object, instructions := [] }) ∧
    target_not_found = .exception "copy_from: target not found" := by
  refine ⟨fun hne => ⟨?_, ?_⟩, copy_from_self dst src, rfl⟩
  · rw [← targets_inside_false_iff]
    constructor
    · intro herr
      cases hin : targets_inside src with
      | false => rfl
      | true =>
        rw [copy_from_eq dst src hin hne] at herr
        have := compute_target_numbers_error _ _ herr
        cases this
    · intro hin
      obtain ⟨i, hi, t, ht, hd⟩ := (targets_inside_false_iff src).mp hin
      unfold copy_from
      simp only [hne, if_false]
      rw [remap_instructions_missing _ _ ⟨i, hi, t, ht, by
        rw [targets_mapping_find_eq]
        simp only [deref] at hd
        by_cases ho : t.object = src.object
        · simp only [ho, if_true] at hd
          have : ¬ t.pos < src.instructions.length := by
            intro hlt
            rw [List.getElem?_eq_getElem hlt] at hd
            cases hd
          simp [this]
        · simp [ho]⟩]
  · intro hall hlen
    have hin : targets_inside src = true := by
      cases hin : targets_inside src with
      | true => rfl
      | false =>
        obtain ⟨i, hi, t, ht, hd⟩ := (targets_inside_false_iff src).mp hin
        have := hall i hi t ht
        rw [hd] at this
        cases this
    rw [copy_from_eq dst src hin hne]
    apply compute_target_numbers_total _ (copied_program_inside dst src hin)
    have := referenced_upto_le (copied_program dst src) (copied_program dst src).instructions.length
    simp only [copied_program, List.length_map] at this ⊢
    omega

theorem copy_from_target_not_found_witness :
    example_destination.object ≠ example_numbering.object ∧
    example_numbering.deref (p0 5) = none ∧
    copy_from example_destination example_numbering = .error target_not_found ∧
    copy_from example_destination example_foreign_target = .error target_not_found ∧
    (copy_from example_foreign_target example_foreign_target).map
      (fun Q => Q.instructions.length) = .ok 0 :=
  ⟨by decide, rfl,
   ((copy_from_target_not_found example_destination example_numbering).1 (by decide)).1.mpr
     ⟨example_instruction .GOTO (.symbol "k" "bool") [p0 5] 4,
      by simp [example_numbering], p0 5, List.mem_singleton.mpr rfl, rfl⟩,
   by rfl,
   congrArg (Except.map _)
     ((copy_from_target_not_found example_foreign_target example_foreign_target).2.1 rfl)⟩

theorem check_target_foreign (P : goto_programt) (l : List instructiont) (t : targett)
    (ho : t.object ≠ P.object) :
    check_target { object := P.object, instructions := l } t = false := by
  have hne : ¬ t = ({ object := P.object, instructions := l } : goto_programt).end_target := by
    intro h
    exact ho (by rw [h]; rfl)
  simp [check_target, hne, deref, ho]

/-- A target reference to an instruction of another program makes the fourth loop of
`compute_target_numbers` fail. -/
theorem compute_target_numbers_fails_on_foreign (P : goto_programt) (i : instructiont)
    (t : targett) (hi : i ∈ P.instructions) (ht : t ∈ i.targets) (ho : t.object ≠ P.object) :
    compute_target_numbers P = .error .assertion_failed := by
  rw [compute_target_numbers_cases]
  cases h3 : number_targets (marked_program P).instructions 0 with
  | error e => simp only [number_targets_error _ _ e h3]
  | ok l =>
    simp only
    obtain ⟨hr, _⟩ := numbered_retargeted h3
    obtain ⟨k, hk⟩ := List.mem_iff_getElem?.mp hi
    have hk' := hr.2.2 k i hk
    have hfalse : check_targets { object := P.object, instructions := l } = false := by
      rw [← Bool.not_eq_true]
      intro hall
      simp only [check_targets, List.all_eq_true] at hall
      have := hall _ (List.mem_iff_getElem?.mpr ⟨k, hk'⟩) t ht
      rw [check_target_foreign P l t ho] at this
      cases this
    simp [hfalse]

/-- C22: when some instruction of the program holds a target reference to an instruction
of another program, `compute_target_numbers()` ends in a failed assertion: the marking
pass sets the number of that instruction to 0, the numbering pass visits the instructions
of this program only, and the check of the fourth loop finds the 0.  When every target
reference is an instruction of this program or its end position the run completes, the
number of referenced instructions being below the value of the unset sentinel. -/
theorem compute_target_numbers_foreign_target (P : goto_programt) :
    (∀ i ∈ P.instructions, ∀ t ∈ i.targets, t.object ≠ P.object →
      compute_target_numbers P = .error .assertion_failed ∧
      ∀ l, number_targets (marked_program P).instructions 0 = .ok l →
        check_target { object := P.object, instructions := l } t = false) ∧
    (targets_inside_or_end P = true →
      referenced_upto P P.instructions.length < unset_target_number →
      ∃ P', compute_target_numbers P = .ok P' ∧ check_targets P' = true) := by
  constructor
  · intro i hi t ht ho
    exact ⟨compute_target_numbers_fails_on_foreign P i t hi ht ho,
      fun l _ => check_target_foreign P l t ho⟩
  · intro hc hm
    obtain ⟨P', hP'⟩ := compute_target_numbers_total P hc hm
    exact ⟨P', hP', (compute_target_numbers_ok hP').2.2⟩

theorem compute_target_numbers_foreign_target_witness :
    compute_target_numbers example_foreign_target = .error .assertion_failed ∧
    targets_inside_or_end example_numbering = true ∧
    ∃ P', compute_target_numbers example_numbering = .ok P' ∧ check_targets P' = true :=
  ⟨((compute_target_numbers_foreign_target example_foreign_target).1
      (example_instruction .GOTO (.constant_bool true) [⟨.program 7, 0⟩] 1)
      (by simp [example_foreign_target]) ⟨.program 7, 0⟩ (List.mem_singleton.mpr rfl)
      (by decide)).1,
   by decide,
   (compute_target_numbers_foreign_target example_numbering).2 (by decide) (by decide)⟩

theorem objectt_loop_ne (o : objectt) (h : Nat) : objectt.loop o h ≠ o := by
  intro heq
  have := congrArg sizeOf heq
  simp at this
  omega

/-- C23 (what the code does): for a header at position `h` and an exit at position `e` of
the body, `h` not after `e`, when the loop table holds no Loop for the header, the Loop that
`create_function_loop` stores is another program object than the body, and each of its
instructions is the instruction of the body at the same distance from the header, target
references included: a target of the body instruction that is an instruction of the body
is held by the copy as it is, so it refers to the original body and to no instruction of
the Loop's program, and `compute_target_numbers` on the Loop's program ends in a failed
assertion. -/
theorem create_function_loop_keeps_targets (check_var_name : String → Bool) (fuel : Nat)
    (self : goto_loopst) (h e : Nat) (hhe : h ≤ e)
    (hel : e < self.goto_function.body.instructions.length)
    (hfresh : function_loops_find self.function_loops
      (self.goto_function.body.at_pos h) = none) :
    ∀ self', create_function_loop check_var_name fuel self
        (self.goto_function.body.at_pos h) (self.goto_function.body.at_pos e) = .ok self' →
      ∃ l, function_loops_find self'.function_loops (self.goto_function.body.at_pos h) = some l ∧
        l.goto_program.object ≠ self.goto_function.body.object ∧
        ∀ (k : Nat) (i : instructiont), h ≤ k → k ≤ e →
          self.goto_function.body.instructions[k]? = some i →
          l.goto_program.instructions[k - h]? = some i ∧
          ∀ t ∈ i.targets, (self.goto_function.body.deref t).isSome = true →
            l.goto_program.deref t = none ∧
            compute_target_numbers l.goto_program = .error .assertion_failed := by
  have hie : self.goto_function.body.instructions[e]? =
      some self.goto_function.body.instructions[e] := List.getElem?_eq_getElem hel
  have heq := create_function_loop_eq check_var_name fuel self h e _ hhe hie
  have hinit : initial_loop self (self.goto_function.body.at_pos h)
      (self.goto_function.body.at_pos e) =
      { goto_program := { object := .loop self.goto_function.body.object h, instructions := [] }
        original_loop_head := self.goto_function.body.at_pos h
        original_loop_exit := self.goto_function.body.at_pos e
        modified_loop_vars := [] } := by
    simp only [initial_loop, hfresh]
    rfl
  rw [hinit] at heq
  simp only [List.nil_append] at heq
  rw [take_drop_succ _ h e _ hhe hie] at heq
  intro self' hrun
  rw [heq] at hrun
  cases hw : walk_body
      (fun i vars => get_modified_variables check_var_name self.function_map fuel i vars
        self.function_name)
      ((self.goto_function.body.instructions.drop h).take (e - h)) [] with
  | error err => simp [hw] at hrun
  | ok vars =>
    simp only [hw, Except.ok.injEq] at hrun
    subst hrun
    refine ⟨_, function_loops_find_store _ _ _, objectt_loop_ne _ h, ?_⟩
    intro k i hk1 hk2 hk
    have hcopy : ((self.goto_function.body.instructions.drop h).take (e - h + 1))[k - h]? =
        some i := by
      rw [List.getElem?_take_of_lt (by omega), List.getElem?_drop,
        show h + (k - h) = k by omega]
      exact hk
    refine ⟨hcopy, ?_⟩
    intro t ht hd
    have ho : t.object = self.goto_function.body.object := by
      by_contra hne
      simp [deref, hne] at hd
    have hne : ¬ self.goto_function.body.object =
        objectt.loop self.goto_function.body.object h :=
      fun h1 => objectt_loop_ne _ h h1.symm
    constructor
    · simp [deref, ho, hne]
    · exact compute_target_numbers_fails_on_foreign _ i t
        (List.mem_iff_getElem?.mpr ⟨k - h, hcopy⟩) ht (by
          rw [ho]
          exact hne)

theorem create_function_loop_keeps_targets_witness :
    (find_function_loops (fun _ => true) 1 example_loops).map
      (fun s => s.function_loops.map
        (fun e => (e.2.goto_program.object,
          e.2.goto_program.instructions.map (fun i => i.targets)))) =
      .ok [(.loop (.program 0) 0, [[], [], [p0 2], [p0 0]])] ∧
    ∀ self', create_function_loop (fun _ => true) 1 example_loops
        (example_loops.goto_function.body.at_pos 0)
        (example_loops.goto_function.body.at_pos 3) = .ok self' →
      ∃ l, function_loops_find self'.function_loops
          (example_loops.goto_function.body.at_pos 0) = some l ∧
        l.goto_program.object ≠ example_loops.goto_function.body.object ∧
        ∀ (k : Nat) (i : instructiont), 0 ≤ k → k ≤ 3 →
          example_loops.goto_function.body.instructions[k]? = some i →
          l.goto_program.instructions[k - 0]? = some i ∧
          ∀ t ∈ i.targets, (example_loops.goto_function.body.deref t).isSome = true →
            l.goto_program.deref t = none ∧
            compute_target_numbers l.goto_program = .error .assertion_failed :=
  ⟨by rfl,
   create_function_loop_keeps_targets (fun _ => true) 1 example_loops 0 3 (by decide)
     (by decide) (by rfl)⟩

/-! ### trace_structure -/

set_option maxRecDepth 100000

theorem is_nil_expr_iff (e : expr2t) : is_nil_expr e = true ↔ e = .nil := by
  cases e <;> simp [is_nil_expr]

theorem gui_base_name_eq (ns : namespacet) (identifier : String) :
    gui_base_name ns identifier =
      ((ns.lookup identifier).map (fun symbol => symbol.base_name)).getD "" := by
  unfold gui_base_name
  cases ns.lookup identifier <;> rfl

theorem gui_identifier (it : goto_trace_stept) (identifier : String)
    (hid : (∃ ty, it.original_lhs = .symbol identifier ty) ∨
      (it.original_lhs = .nil ∧ ∃ ty, it.lhs = .symbol identifier ty)) :
    get_symbol_name (if !is_nil_expr it.original_lhs then it.original_lhs else it.lhs) =
      .ok identifier := by
  rcases hid with ⟨ty, h⟩ | ⟨h, ty, h'⟩
  · simp [h, is_nil_expr, get_symbol_name]
  · simp [h, h', is_nil_expr, get_symbol_name]

theorem split_at_first_append (sep : Char) (l rest : List Char) (h : sep ∉ l) :
    split_at_first sep (l ++ sep :: rest) = (l, rest) := by
  induction l with
  | nil => simp [split_at_first]
  | cons c cs ih =>
    have hc : c ≠ sep := fun e => h (e ▸ List.mem_cons_self c cs)
    have hcs : sep ∉ cs := fun e => h (List.mem_cons_of_mem c e)
    simp [split_at_first, hc, ih hcs]

theorem parse_trace_header_render (identifier base_name type_id value : String)
    (h1 : ',' ∉ identifier.data) (h2 : ',' ∉ base_name.data) (h3 : ',' ∉ type_id.data) :
    parse_trace_header (identifier ++ "," ++ base_name ++ "," ++ type_id ++ "," ++ value) =
      (identifier, base_name, type_id, value) := by
  have hd : (identifier ++ "," ++ base_name ++ "," ++ type_id ++ "," ++ value).data =
      identifier.data ++ ',' :: (base_name.data ++ ',' :: (type_id.data ++ ',' :: value.data)) := by
    simp [String.data_append]
  simp only [parse_trace_header, hd, split_at_first_append _ _ _ h1,
    split_at_first_append _ _ _ h2, split_at_first_append _ _ _ h3]

theorem show_goto_trace_gui_step_assignment (ns : namespacet) (previous_location : locationt)
    (it : goto_trace_stept) (identifier : String) (hty : it.type = .ASSIGNMENT)
    (hid : get_symbol_name (if !is_nil_expr it.original_lhs then it.original_lhs else it.lhs) =
      .ok identifier) :
    show_goto_trace_gui_step ns previous_location it =
      (if is_nil_expr it.value then
        { text := "TRACE" ++ "\n" ++ (identifier ++ "," ++ gui_base_name ns identifier ++ ",")
          error := some .null_dereference }
       else
        { text := "TRACE" ++ "\n" ++
            (identifier ++ "," ++ gui_base_name ns identifier ++ "," ++
              ns.get_type_id it.value ++ "," ++ ns.from_expr identifier it.value) ++ "\n" ++
            toString it.step_nr ++ "\n" ++ it.pc.location.file ++ "\n" ++
            it.pc.location.line ++ "\n" ++ it.pc.location.column ++ "\n"
          error := none }) := by
  unfold show_goto_trace_gui_step
  simp only [hty, hid, false_and, if_false, if_true]
  rfl

theorem previous_location_after_concat (p : List goto_trace_stept) (s : goto_trace_stept) :
    ∀ previous_location, previous_location_after previous_location (p ++ [s]) =
      s.pc.location := by
  induction p with
  | nil => intro _; rfl
  | cons a rest ih =>
    intro previous_location
    simp only [List.cons_append, previous_location_after]
    exact ih a.pc.location

theorem writtent_after_after (w : writtent) (s t : String) :
    (w.after s).after t = w.after (t ++ s) := by
  simp [writtent.after, String.append_assoc]

theorem writtent_append_of_ok (w1 w2 : writtent) (h : w1.error = none) :
    w1.append w2 = w2.after w1.text := by
  simp [writtent.append, h, writtent.after]

theorem show_goto_trace_gui_loop_unroll (ns : namespacet) (q : List goto_trace_stept)
    (it : goto_trace_stept) (p : List goto_trace_stept) :
    ∀ (previous_location : locationt) (text : String),
      show_goto_trace_gui_loop ns p previous_location = { text := text, error := none } →
      show_goto_trace_gui_loop ns (p ++ it :: q) previous_location =
        ((show_goto_trace_gui_step ns (previous_location_after previous_location p) it).append
          (show_goto_trace_gui_loop ns q it.pc.location)).after text := by
  induction p with
  | nil =>
    intro previous_location text hp
    simp only [show_goto_trace_gui_loop, writtent.mk.injEq, and_true] at hp
    subst hp
    simp [show_goto_trace_gui_loop, previous_location_after, writtent.after]
  | cons a rest ih =>
    intro previous_location text hp
    simp only [List.cons_append, show_goto_trace_gui_loop, List.append_eq,
      previous_location_after] at hp ⊢
    cases hs : (show_goto_trace_gui_step ns previous_location a).error with
    | some e => simp [writtent.append, hs] at hp
    | none =>
      rw [writtent_append_of_ok _ _ hs] at hp ⊢
      have hrest : show_goto_trace_gui_loop ns rest a.pc.location =
          { text := (show_goto_trace_gui_loop ns rest a.pc.location).text, error := none } := by
        cases hw : show_goto_trace_gui_loop ns rest a.pc.location with
        | mk t' e' =>
          rw [hw] at hp
          simp only [writtent.after, writtent.mk.injEq] at hp
          simp only [hp.2]
      have htext : text = (show_goto_trace_gui_step ns previous_location a).text ++
          (show_goto_trace_gui_loop ns rest a.pc.location).text := by
        simp only [writtent.after, writtent.mk.injEq] at hp
        exact hp.1.symm
      rw [ih a.pc.location _ hrest, writtent_after_after, htext]

/-- C20 (what the code does): for an assignment step of a trace whose identifier is the
name of its original left-hand side when there is one and of its left-hand side otherwise,
the steps before it being rendered without failure.  When the value of the step is not nil,
`show_goto_trace_gui` writes for it exactly the line `TRACE`, the header line
`identifier,base_name,type_id,value`, and the step number, file, line and column each on a
line of its own, the base name being the one of the symbol and empty when the lookup
fails.  When the value is nil, the run ends while the header line is written: `TRACE`, the
identifier and the base name are out, then `it->value->type` is dereferenced.  When
identifier, base name and type id hold no comma, splitting the header line at its first
three commas gives back identifier, base name, type id and value; when in addition none of
the four holds a newline, the same is recovered from the record read line by line. -/
theorem show_goto_trace_gui_assignment_record (ns : namespacet)
    (p q : List goto_trace_stept) (it : goto_trace_stept) (identifier base_name text : String)
    (hty : it.type = .ASSIGNMENT)
    (hid : (∃ ty, it.original_lhs = .symbol identifier ty) ∨
      (it.original_lhs = .nil ∧ ∃ ty, it.lhs = .symbol identifier ty))
    (hbase : base_name =
      ((ns.lookup identifier).map (fun symbol => symbol.base_name)).getD "")
    (hp : show_goto_trace_gui ns p = { text := text, error := none }) :
    (it.value ≠ .nil →
      show_goto_trace_gui ns (p ++ it :: q) =
        (show_goto_trace_gui_loop ns q it.pc.location).after
          (text ++
            ("TRACE" ++ "\n" ++
              (identifier ++ "," ++ base_name ++ "," ++
                ns.get_type_id it.value ++ "," ++ ns.from_expr identifier it.value) ++ "\n" ++
              toString it.step_nr ++ "\n" ++ it.pc.location.file ++ "\n" ++
              it.pc.location.line ++ "\n" ++ it.pc.location.column ++ "\n"))) ∧
    (it.value = .nil →
      show_goto_trace_gui ns (p ++ it :: q) =
        { text := text ++ ("TRACE" ++ "\n" ++ (identifier ++ "," ++ base_name ++ ","))
          error := some .null_dereference }) ∧
    (',' ∉ identifier.data → ',' ∉ base_name.data →
      ',' ∉ (ns.get_type_id it.value).data →
      parse_trace_header
          (identifier ++ "," ++ base_name ++ "," ++
            ns.get_type_id it.value ++ "," ++ ns.from_expr identifier it.value) =
        (identifier, base_name, ns.get_type_id it.value,
          ns.from_expr identifier it.value) ∧
      ('\n' ∉ identifier.data → '\n' ∉ base_name.data →
        '\n' ∉ (ns.get_type_id it.value).data →
        '\n' ∉ (ns.from_expr identifier it.value).data →
        ∀ rest : String,
          parse_trace_record
              ("TRACE" ++ "\n" ++
                (identifier ++ "," ++ base_name ++ "," ++
                  ns.get_type_id it.value ++ "," ++ ns.from_expr identifier it.value) ++
                "\n" ++ rest) =
            ("TRACE", identifier, base_name, ns.get_type_id it.value,
              ns.from_expr identifier it.value))) := by
  have hstep := show_goto_trace_gui_step_assignment ns (previous_location_after {} p) it
    identifier hty (gui_identifier it identifier hid)
  rw [gui_base_name_eq, ← hbase] at hstep
  have hrun := show_goto_trace_gui_loop_unroll ns q it p {} text hp
  refine ⟨?_, ?_, ?_⟩
  · intro hv
    have hnil : is_nil_expr it.value = false := by
      cases h : is_nil_expr it.value with
      | false => rfl
      | true => exact absurd ((is_nil_expr_iff _).mp h) hv
    rw [hnil] at hstep
    unfold show_goto_trace_gui
    rw [hrun, hstep]
    simp [writtent.append, writtent.after, String.append_assoc]
  · intro hv
    have hnil : is_nil_expr it.value = true := (is_nil_expr_iff _).mpr hv
    rw [hnil] at hstep
    unfold show_goto_trace_gui
    rw [hrun, hstep]
    simp [writtent.append, writtent.after]
  · intro h1 h2 h3
    refine ⟨parse_trace_header_render _ _ _ _ h1 h2 h3, ?_⟩
    intro n1 n2 n3 n4 rest
    have hd : ("TRACE" ++ "\n" ++
        (identifier ++ "," ++ base_name ++ "," ++
          ns.get_type_id it.value ++ "," ++ ns.from_expr identifier it.value) ++
        "\n" ++ rest).data =
        "TRACE".data ++ '\n' ::
          ((identifier ++ "," ++ base_name ++ "," ++
            ns.get_type_id it.value ++ "," ++ ns.from_expr identifier it.value).data ++
            '\n' :: rest.data) := by
      simp [String.data_append]
    have hn : '\n' ∉ (identifier ++ "," ++ base_name ++ "," ++
        ns.get_type_id it.value ++ "," ++ ns.from_expr identifier it.value).data := by
      simp only [String.data_append, List.mem_append, not_or]
      exact ⟨⟨⟨⟨⟨⟨n1, by decide⟩, n2⟩, by decide⟩, n3⟩, by decide⟩, n4⟩
    simp only [parse_trace_record, hd]
    rw [split_at_first_append '\n' "TRACE".data _ (by decide)]
    simp only []
    rw [split_at_first_append '\n' _ _ hn]
    simp only []
    rw [parse_trace_header_render _ _ _ _ h1 h2 h3]

set_option maxRecDepth 100000

theorem show_goto_trace_gui_assignment_record_witness :
    show_goto_trace_gui example_symbols
        ([example_assignment_step "c::main::x" "1" "3" 0] ++ example_pointer_step ::
          [example_assertion_step false 4]) =
      { text := "TRACE\nc::main::x,x,signedbv,1\n0\nmain.c\n3\n1\nTRACE\np,,pointer,&x\n3\nmain.c\n5\n1\nFAILED\nassertion\n\nmain.c\n9\n1\n"
        error := none } ∧
    show_goto_trace_gui example_symbols
        ([example_assignment_step "c::main::x" "1" "3" 0] ++ example_removed_step ::
          [example_assertion_step false 4]) =
      { text := "TRACE\nc::main::x,x,signedbv,1\n0\nmain.c\n3\n1\nTRACE\ny,,"
        error := some .null_dereference } ∧
    parse_trace_header "p,,pointer,&x" = ("p", "", "pointer", "&x") ∧
    parse_trace_header "c::main::x,x,signedbv,1" = ("c::main::x", "x", "signedbv", "1") :=
  ⟨((show_goto_trace_gui_assignment_record example_symbols
      [example_assignment_step "c::main::x" "1" "3" 0] [example_assertion_step false 4]
      example_pointer_step "p" "" "TRACE\nc::main::x,x,signedbv,1\n0\nmain.c\n3\n1\n"
      rfl (Or.inr ⟨rfl, _, rfl⟩) rfl rfl).1 (fun h => by cases h)).trans rfl,
   ((show_goto_trace_gui_assignment_record example_symbols
      [example_assignment_step "c::main::x" "1" "3" 0] [example_assertion_step false 4]
      example_removed_step "y" "" "TRACE\nc::main::x,x,signedbv,1\n0\nmain.c\n3\n1\n"
      rfl (Or.inl ⟨_, rfl⟩) rfl rfl).2.1 rfl).trans rfl,
   ((show_goto_trace_gui_assignment_record example_symbols
      [example_assignment_step "c::main::x" "1" "3" 0] [example_assertion_step false 4]
      example_pointer_step "p" "" "TRACE\nc::main::x,x,signedbv,1\n0\nmain.c\n3\n1\n"
      rfl (Or.inr ⟨rfl, _, rfl⟩) rfl rfl).2.2 (by decide) (by decide) (by decide)).1,
   by decide⟩

theorem location_record_ne_empty (it : goto_trace_stept) : location_record it ≠ "" := by
  intro h
  have := congrArg String.length h
  simp only [location_record, String.length_append] at this
  have h1 : "\n".length = 1 := rfl
  have h0 : "".length = 0 := rfl
  omega

theorem failed_record_ne_location_record (it : goto_trace_stept) (rest : String) :
    "FAILED" ++ rest ≠ location_record it := by
  intro h
  have := congrArg String.data h
  simp [location_record, String.data_append] at this

theorem show_goto_trace_gui_step_other (ns : namespacet) (previous_location : locationt)
    (it : goto_trace_stept) (hty : it.type ≠ .ASSIGNMENT) :
    (show_goto_trace_gui_step ns previous_location it).error = none ∧
    ((show_goto_trace_gui_step ns previous_location it).text = location_record it ↔
      ¬ (it.type = .ASSERT ∧ it.guard = false) ∧ it.pc.location ≠ previous_location ∧
        it.pc.location.file ≠ "") := by
  unfold show_goto_trace_gui_step
  by_cases hf : it.type = .ASSERT ∧ it.guard = false
  · simp only [hf, and_self, if_true, not_true_eq_false, false_and, iff_false, true_and]
    simp only [String.append_assoc]
    exact failed_record_ne_location_record it _
  · simp only [hf, if_false, hty, not_false_eq_true, true_and]
    by_cases hl : it.pc.location = previous_location
    · simp only [hl, ne_eq, not_true_eq_false, if_false, false_and, iff_false, true_and]
      exact fun h => location_record_ne_empty it h.symm
    · simp only [ne_eq, hl, not_false_eq_true, if_true, true_and]
      by_cases hfile : it.pc.location.file = ""
      · simp only [hfile, not_true_eq_false, if_false, iff_false, true_and]
        exact fun h => location_record_ne_empty it h.symm
      · simp only [hfile, not_false_eq_true, if_true, iff_true, true_and]
        rfl

/-- C25: in a trace `p ++ it :: q` whose steps `p` are rendered without failure,
`show_goto_trace_gui` writes for the step `it` what the body of its loop yields for the
location of the step right before `it` (the empty location when `it` is the first step).
For a step that is no assignment the body does not fail, and what it writes is a bare
location record if and only if the step is no failed assertion, its location differs from
that previous location, and its file name is not empty.  For an assignment it is the
assignment record of the step, cut short after the base name when the value is nil.  Hence
a step that is no assignment and has the location of the step right before it yields no
bare location record. -/
theorem show_goto_trace_gui_location_record (ns : namespacet) (p q : List goto_trace_stept)
    (it : goto_trace_stept) (text : String)
    (hp : show_goto_trace_gui ns p = { text := text, error := none }) :
    show_goto_trace_gui ns (p ++ it :: q) =
      ((show_goto_trace_gui_step ns (previous_location_after {} p) it).append
        (show_goto_trace_gui_loop ns q it.pc.location)).after text ∧
    ((p = [] → previous_location_after {} p = {}) ∧
      ∀ s, p.getLast? = some s → previous_location_after {} p = s.pc.location) ∧
    (it.type ≠ .ASSIGNMENT →
      (show_goto_trace_gui_step ns (previous_location_after {} p) it).error = none ∧
      ((show_goto_trace_gui_step ns (previous_location_after {} p) it).text =
          location_record it ↔
        ¬ (it.type = .ASSERT ∧ it.guard = false) ∧
          it.pc.location ≠ previous_location_after {} p ∧ it.pc.location.file ≠ "")) ∧
    (it.type = .ASSIGNMENT →
      ∀ identifier,
        ((∃ ty, it.original_lhs = .symbol identifier ty) ∨
          (it.original_lhs = .nil ∧ ∃ ty, it.lhs = .symbol identifier ty)) →
        (it.value ≠ .nil →
          show_goto_trace_gui_step ns (previous_location_after {} p) it =
            { text := "TRACE" ++ "\n" ++
                (identifier ++ "," ++
                  ((ns.lookup identifier).map (fun symbol => symbol.base_name)).getD "" ++ "," ++
                  ns.get_type_id it.value ++ "," ++ ns.from_expr identifier it.value) ++ "\n" ++
                toString it.step_nr ++ "\n" ++ it.pc.location.file ++ "\n" ++
                it.pc.location.line ++ "\n" ++ it.pc.location.column ++ "\n"
              error := none }) ∧
        (it.value = .nil →
          show_goto_trace_gui_step ns (previous_location_after {} p) it =
            { text := "TRACE" ++ "\n" ++
                (identifier ++ "," ++
                  ((ns.lookup identifier).map (fun symbol => symbol.base_name)).getD "" ++ ",")
              error := some .null_dereference })) ∧
    (it.type ≠ .ASSIGNMENT →
      ∀ s, p.getLast? = some s → s.pc.location = it.pc.location →
        (show_goto_trace_gui_step ns (previous_location_after {} p) it).text ≠
          location_record it) := by
  have hlast : ∀ s, p.getLast? = some s → previous_location_after {} p = s.pc.location := by
    intro s hs
    obtain ⟨ys, rfl⟩ := List.getLast?_eq_some_iff.mp hs
    exact previous_location_after_concat ys s {}
  refine ⟨show_goto_trace_gui_loop_unroll ns q it p {} text hp, ⟨?_, hlast⟩, ?_, ?_, ?_⟩
  · rintro rfl
    rfl
  · intro hty
    exact show_goto_trace_gui_step_other ns _ it hty
  · intro hty identifier hid
    have hstep := show_goto_trace_gui_step_assignment ns (previous_location_after {} p) it
      identifier hty (gui_identifier it identifier hid)
    rw [gui_base_name_eq] at hstep
    constructor
    · intro hv
      have hnil : is_nil_expr it.value = false := by
        cases h : is_nil_expr it.value with
        | false => rfl
        | true => exact absurd ((is_nil_expr_iff _).mp h) hv
      rw [hstep, hnil]
      rfl
    · intro hv
      rw [hstep, (is_nil_expr_iff _).mpr hv]
      rfl
  · intro hty s hs hloc hrec
    have := (show_goto_trace_gui_step_other ns _ it hty).2.mp hrec
    exact this.2.1 (by rw [hlast s hs, hloc])

theorem show_goto_trace_gui_location_record_witness :
    show_goto_trace_gui example_namespace
        ([example_skip_step "3" 0] ++ example_skip_step "3" 1 :: [example_skip_step "4" 2]) =
      { text := "TRACE\n,,,\n0\nmain.c\n3\n1\nTRACE\n,,,\n2\nmain.c\n4\n1\n", error := none } ∧
    (show_goto_trace_gui_step example_namespace
        (previous_location_after {} [example_skip_step "3" 0]) (example_skip_step "3" 1)).text ≠
      location_record (example_skip_step "3" 1) ∧
    location_record (example_skip_step "4" 2) = "TRACE\n,,,\n2\nmain.c\n4\n1\n" :=
  ⟨(show_goto_trace_gui_location_record example_namespace [example_skip_step "3" 0]
      [example_skip_step "4" 2] (example_skip_step "3" 1) "TRACE\n,,,\n0\nmain.c\n3\n1\n"
      rfl).1.trans rfl,
   (show_goto_trace_gui_location_record example_namespace [example_skip_step "3" 0]
      [example_skip_step "4" 2] (example_skip_step "3" 1) "TRACE\n,,,\n0\nmain.c\n3\n1\n"
      rfl).2.2.2.2 (by decide) (example_skip_step "3" 0) rfl rfl,
   rfl⟩

/-- The loop reads the type of the right-hand side of a qualifying step whose left-hand side
is not of array type (lines 368-369): in this embedding a step whose right-hand side is nil
makes that read fail, so that no graph is built.  Whether an assignment step can come
without a right-hand side is decided where traces are built, outside the sources at
hand. -/
theorem generate_goto_trace_in_graphml_format_absent_rhs :
    qualifying_assignment example_namespace example_absent_rhs_step ∧
    (qualifying_steps example_namespace [example_absent_rhs_step]).length = 1 ∧
    generate_goto_trace_in_graphml_format example_namespace [example_absent_rhs_step] =
      .error .null_dereference := by
  refine ⟨?_, ?_, ?_⟩
  · decide
  · decide
  · rfl

end Esbmc
